import Mathlib

/-!
Verification development for the mini database engine (storage stack).

The definitions below are a shallow embedding of the C++ sources:
`types.h`, `buffer_pool.h`, `storage_engine.cpp`, `b_tree.h`
(part of `database_engine.h`), `database_engine.cpp` and
`transaction_manager.cpp`.  Machine integers are modelled as `Nat`/`Int`
with explicit `% 2^w` where wrap-around matters; `double` values are
modelled by their 8-byte bit pattern (the codec only ever `memcpy`s
them); fallible code returns `Except DbError`.

Byte buffers (pages, serialized tuples, string contents) are finite
byte words, represented by `Bytes`: an explicit length together with
the little-endian base-256 value of the word, kept canonical
(`val < 256 ^ len`) by every operation.  Byte `i` of a buffer `b` is
`b.val / 256 ^ i % 256`, and `memcpy`-style reads and writes become
div/mod arithmetic.  The on-disk file is modelled page-granularly
(`List Bytes`), which agrees with the byte-level file because
`writePageToDisk` only ever writes whole 4096-byte pages at
page-aligned offsets and zero-fills any gap, so the file length is
always a multiple of `PAGE_SIZE`.
-/

set_option maxHeartbeats 4000000
set_option maxRecDepth 100000
set_option exponentiation.threshold 100000
set_option synthInstance.maxSize 2000

deriving instance DecidableEq for Except

namespace MiniDB

/-- PAGE_SIZE from `types.h`: each page is exactly 4096 bytes. -/
def PAGE_SIZE : Nat := 4096

/-- BUFFER_POOL_SIZE from `types.h`: default number of frames in a pool. -/
def BUFFER_POOL_SIZE : Nat := 1000

/-- A finite byte word: `len` bytes whose little-endian base-256 value
is `val`.  All operations below keep `val < 256 ^ len`; byte number `i`
(counting from the start of the word) is `val / 256 ^ i % 256`. -/
structure Bytes where
  len : Nat
  val : Nat
deriving DecidableEq

/-- The empty byte word. -/
def Bytes.nilB : Bytes := ⟨0, 0⟩

/-- `n` zero bytes. -/
def Bytes.zeros (n : Nat) : Bytes := ⟨n, 0⟩

/-- `n` copies of the byte `b` (the value is `b · (1 + 256 + … + 256^(n-1))`). -/
def Bytes.replicateB (n b : Nat) : Bytes := ⟨n, b % 256 * ((256 ^ n - 1) / 255)⟩

/-- Concatenation of byte words (the second word occupies the higher
base-256 positions). -/
def Bytes.append (a b : Bytes) : Bytes :=
  ⟨a.len + b.len, a.val % 256 ^ a.len + b.val % 256 ^ b.len * 256 ^ a.len⟩

/-- The first `n` bytes (all bytes, when fewer are present). -/
def Bytes.take (a : Bytes) (n : Nat) : Bytes :=
  ⟨min n a.len, a.val % 256 ^ min n a.len⟩

/-- The word with its first `n` bytes removed. -/
def Bytes.drop (a : Bytes) (n : Nat) : Bytes :=
  ⟨a.len - n, a.val % 256 ^ a.len / 256 ^ n⟩

/-- Byte number `i` of the word (0 past the end). -/
def Bytes.getByte (a : Bytes) (i : Nat) : Nat :=
  a.val % 256 ^ a.len / 256 ^ i % 256

/-- Read `len` bytes starting at byte offset `off`. -/
def readBytes (buf : Bytes) (off len : Nat) : Bytes :=
  (buf.drop off).take len

/-- Overwrite `buf` at offset `off` with `bytes` (models `memcpy` into a
buffer that is large enough; the portion of `bytes` past the end of a
too-short buffer simply extends it, which never happens in the modelled
flows). -/
def writeBytes (buf : Bytes) (off : Nat) (bytes : Bytes) : Bytes :=
  (buf.take off).append (bytes.append (buf.drop (off + bytes.len)))

/-- Read a `uint32_t` at offset `off` (little-endian `memcpy`). -/
def readU32 (buf : Bytes) (off : Nat) : Nat := (readBytes buf off 4).val

/-- Read a `uint64_t` at offset `off`. -/
def readU64 (buf : Bytes) (off : Nat) : Nat := (readBytes buf off 8).val

/-- Little-endian 4-byte image of a `uint32_t` (memcpy of `n`,
truncated mod `2^32`). -/
def u32le (n : Nat) : Bytes := ⟨4, n % 4294967296⟩

/-- Little-endian 8-byte image of a `uint64_t`. -/
def u64le (n : Nat) : Bytes := ⟨8, n % 18446744073709551616⟩

/-- Wrap-around subtraction on `uint32_t` values (`a - b` in C++). -/
def u32sub (a b : Nat) : Nat := (a + 4294967296 - b % 4294967296) % 4294967296

/-- DataType from `types.h`. -/
inductive DataType where
  | INTEGER
  | VARCHAR
  | BOOLEAN
  | DOUBLE
deriving DecidableEq

/-- Value from `types.h`: `variant<int32_t, string, bool, double>`.
Strings are byte words; doubles are their 8-byte bit pattern. -/
inductive Value where
  | int (v : Int)
  | str (s : Bytes)
  | bool (b : Bool)
  | double (bits : Nat)
deriving DecidableEq

/-- Column from `types.h`. -/
structure Column where
  name : String
  type : DataType
  size : Nat
deriving DecidableEq

/-- Schema from `types.h`. -/
structure Schema where
  columns : List Column
deriving DecidableEq

/-- Tuple from `types.h`. -/
structure Tuple where
  id : Nat
  values : List Value
deriving DecidableEq

/-- Observable failures: `runtime_error("No unpinned frames available")`
from the buffer pool, a `std::get<string>` on a non-string variant
(`bad_variant_access`), and exhaustion of the explicit fuel that models
a non-terminating chain walk. -/
inductive DbError where
  | noUnpinnedFrame
  | badVariantAccess
  | outOfFuel
deriving DecidableEq

/-- Field serialization from `Table::serializeTuple`: each value is
written according to its runtime type (int32/double/bool/varchar with a
4-byte length prefix; the length is the `uint32_t` cast of
`string::length()`, and that many bytes of the string follow). -/
def serializeValue : Value → Bytes
  | .int v => u32le (v.emod 4294967296).toNat
  | .str s => (u32le s.len).append (s.take (s.len % 4294967296))
  | .bool b => ⟨1, if b then 1 else 0⟩
  | .double bits => u64le bits

/-- Per-field size contribution in `Table::getTupleSize`; a VARCHAR
column whose value is not a string makes `std::get<string>` throw. -/
def fieldsSize : List (Column × Value) → Except DbError Nat
  | [] => .ok 0
  | (c, v) :: rest =>
    match c.type, v with
    | .INTEGER, _ => (fieldsSize rest).map (fun m => 4 + m)
    | .DOUBLE, _ => (fieldsSize rest).map (fun m => 8 + m)
    | .BOOLEAN, _ => (fieldsSize rest).map (fun m => 1 + m)
    | .VARCHAR, .str s => (fieldsSize rest).map (fun m => 4 + s.len + m)
    | .VARCHAR, _ => .error .badVariantAccess

/-- `Table::getTupleSize`: header size plus the per-column sizes,
walking only `min(values.size(), columns.size())` positions (the
source's loop bound). -/
def getTupleSize (schema : Schema) (t : Tuple) : Except DbError Nat :=
  (fieldsSize (schema.columns.zip t.values)).map (fun m => 16 + m)

/-- The 16-byte TupleHeader (`tuple_size`, `next_tuple_offset`,
`tuple_id`) from `storage_engine.h`, as written by `memcpy`. -/
def tupleHeaderBytes (tuple_size next_off tid : Nat) : Bytes :=
  (u32le tuple_size).append ((u32le next_off).append (u64le tid))

/-- Byte image produced by `Table::serializeTuple`: header (with the
size computed by `getTupleSize` and `next_tuple_offset = 0`) followed by
every value of the tuple in order. -/
def serializeTupleBytes (schema : Schema) (t : Tuple) : Except DbError Bytes :=
  (getTupleSize schema t).map
    (fun sz => (tupleHeaderBytes sz 0 t.id).append
      (t.values.foldl (fun acc v => acc.append (serializeValue v)) Bytes.nilB))

/-- `Table::serializeTuple`: write the tuple image into `buffer` at
`offset`; returns the updated buffer together with the byte count the
source returns (`current_offset - offset`). -/
def serializeTuple (schema : Schema) (t : Tuple) (buffer : Bytes) (offset : Nat) :
    Except DbError (Bytes × Nat) :=
  (serializeTupleBytes schema t).map
    (fun bytes => (writeBytes buffer offset bytes, bytes.len))

/-- Two's-complement reading of a 4-byte little-endian `int32_t`. -/
def decodeI32 (n : Nat) : Int :=
  if n < 2147483648 then (n : Int) else (n : Int) - 4294967296

/-- Field decoding loop of `Table::deserializeTuple`: fields are read
back according to the schema's column types at a running offset. -/
def deserializeFields (buffer : Bytes) : List Column → Nat → List Value
  | [], _ => []
  | c :: cs, off =>
    match c.type with
    | .INTEGER =>
        .int (decodeI32 (readU32 buffer off)) :: deserializeFields buffer cs (off + 4)
    | .DOUBLE =>
        .double (readU64 buffer off) :: deserializeFields buffer cs (off + 8)
    | .BOOLEAN =>
        .bool (buffer.getByte off != 0) :: deserializeFields buffer cs (off + 1)
    | .VARCHAR =>
        let len := readU32 buffer off
        .str (readBytes buffer (off + 4) len) :: deserializeFields buffer cs (off + 4 + len)

/-- `Table::deserializeTuple`: read the tuple header (only `tuple_id`,
at offset 8 of the header, is used) and then the fields per schema. -/
def deserializeTuple (schema : Schema) (buffer : Bytes) (offset : Nat) : Tuple :=
  { id := readU64 buffer (offset + 8)
    values := deserializeFields buffer schema.columns (offset + 16) }

/-! ## Buffer pool (`buffer_pool.h`) -/

/-- BufferFrame from `buffer_pool.h`. -/
structure BufferFrame where
  page_id : Nat
  is_dirty : Bool
  is_pinned : Bool
  data : Bytes
deriving DecidableEq

/-- A frame in the state `BufferFrame()` / `clear()` leaves it in. -/
def emptyFrame : BufferFrame :=
  { page_id := 0, is_dirty := false, is_pinned := false, data := Bytes.zeros PAGE_SIZE }

instance : Inhabited BufferFrame := ⟨emptyFrame⟩

/-- `BufferFrame::clear`. -/
def BufferFrame.clear (_f : BufferFrame) : BufferFrame := emptyFrame

/-- BufferPool state: the frame vector, the page table
(`unordered_map<PageId, BufferFrameId>` as an association list with
unique keys), the LRU list in front-first order (`push_front` marks most
recently used), the backing file as a list of 4096-byte pages, and the
hit/miss counters. -/
structure BufferPool where
  frames : List BufferFrame
  page_table : List (Nat × Nat)
  lru_list : List Nat
  disk : List Bytes
  page_hits : Nat
  page_misses : Nat
deriving DecidableEq

/-- The constructor: `capacity` empty frames (`BUFFER_POOL_SIZE` in the
source), the LRU list filled by `push_back(i)` so frame 0 is at the
front, and a freshly created (empty) file. -/
def initBufferPool (capacity : Nat) : BufferPool :=
  { frames := List.replicate capacity emptyFrame
    page_table := []
    lru_list := List.range capacity
    disk := []
    page_hits := 0
    page_misses := 0 }

/-- Lookup in the page table (`page_table.find(page_id)`). -/
def ptLookup (pt : List (Nat × Nat)) (p : Nat) : Option Nat :=
  (pt.find? (fun e => e.1 == p)).map (fun e => e.2)

/-- All-zero page returned for a read past end-of-file. -/
def zeroPage : Bytes := Bytes.zeros PAGE_SIZE

/-- `BufferPool::readPageFromDisk`: a full 4096-byte read succeeds
exactly when the page lies within the file; otherwise the buffer is
zero-filled. -/
def readPageFromDisk (disk : List Bytes) (p : Nat) : Bytes :=
  if h : p < disk.length then disk[p] else zeroPage

/-- `BufferPool::writePageToDisk`: overwrite in place, or zero-fill the
gap up to the target offset and append the page. -/
def writePageToDisk (disk : List Bytes) (p : Nat) (data : Bytes) : List Bytes :=
  if p < disk.length then disk.set p data
  else disk ++ List.replicate (p - disk.length) zeroPage ++ [data]

/-- The walk inside `BufferPool::findVictim`: traverse the LRU list from
`begin()` (the front, which `push_front` makes the most recently used
end), return the first frame id that is not pinned together with the
list with that entry erased. -/
def findVictimAux (frames : List BufferFrame) : List Nat → Option (Nat × List Nat)
  | [] => none
  | i :: rest =>
    if (frames.getD i emptyFrame).is_pinned then
      match findVictimAux frames rest with
      | none => none
      | some (v, l) => some (v, i :: l)
    else some (i, rest)

/-- `BufferPool::findVictim`; `none` models the
`runtime_error("No unpinned frames available")` throw. -/
def findVictim (bp : BufferPool) : Option (Nat × BufferPool) :=
  match findVictimAux bp.frames bp.lru_list with
  | none => none
  | some (v, l) => some (v, { bp with lru_list := l })

/-- `BufferPool::evictFrame`: write the page back if dirty, drop the
page-table entry, clear the frame. -/
def evictFrame (bp : BufferPool) (fid : Nat) : BufferPool :=
  let f := bp.frames.getD fid emptyFrame
  { bp with
    disk := if f.is_dirty then writePageToDisk bp.disk f.page_id f.data else bp.disk
    page_table := bp.page_table.filter (fun e => e.1 != f.page_id)
    frames := bp.frames.set fid f.clear }

/-- `BufferPool::updateLRU`: `lru_list.remove(frame_id)` then
`push_front(frame_id)`. -/
def updateLRU (bp : BufferPool) (fid : Nat) : BufferPool :=
  { bp with lru_list := fid :: bp.lru_list.filter (fun i => i != fid) }

/-- `BufferPool::getPage`.  On a hit: pin, splice to the front of the
LRU list, count a hit.  On a miss: count a miss, pick a victim (erasing
it from the LRU list), evict it if it holds a page, load the requested
page from disk into it, install the mapping and push the frame to the
front of the LRU list.  Fails when every frame is pinned. -/
def getPage (bp : BufferPool) (p : Nat) : Except DbError BufferPool :=
  match ptLookup bp.page_table p with
  | some fid =>
    let f := bp.frames.getD fid emptyFrame
    let bp1 := { bp with frames := bp.frames.set fid { f with is_pinned := true } }
    let bp2 := updateLRU bp1 fid
    .ok { bp2 with page_hits := bp2.page_hits + 1 }
  | none =>
    let bp0 := { bp with page_misses := bp.page_misses + 1 }
    match findVictim bp0 with
    | none => .error .noUnpinnedFrame
    | some (vf, bp1) =>
      let bp2 := if (bp1.frames.getD vf emptyFrame).page_id ≠ 0 then evictFrame bp1 vf else bp1
      let newFrame : BufferFrame :=
        { page_id := p, is_pinned := true, is_dirty := false
          data := readPageFromDisk bp2.disk p }
      .ok { bp2 with
            frames := bp2.frames.set vf newFrame
            page_table := (p, vf) :: bp2.page_table
            lru_list := vf :: bp2.lru_list }

/-- `BufferPool::releasePage`: unpin the frame if the page is resident. -/
def releasePage (bp : BufferPool) (p : Nat) : BufferPool :=
  match ptLookup bp.page_table p with
  | some fid =>
    { bp with frames :=
        bp.frames.set fid ({ bp.frames.getD fid emptyFrame with is_pinned := false }) }
  | none => bp

/-- `BufferPool::markDirty`: set the dirty flag if the page is resident. -/
def markDirty (bp : BufferPool) (p : Nat) : BufferPool :=
  match ptLookup bp.page_table p with
  | some fid =>
    { bp with frames :=
        bp.frames.set fid ({ bp.frames.getD fid emptyFrame with is_dirty := true }) }
  | none => bp

/-- The bytes a caller sees through the `BufferFrame*` that `getPage`
returned (valid while the page is resident). -/
def frameData (bp : BufferPool) (p : Nat) : Bytes :=
  match ptLookup bp.page_table p with
  | some fid => (bp.frames.getD fid emptyFrame).data
  | none => Bytes.nilB

/-- A caller's in-place mutation of the pinned frame's bytes through the
`BufferFrame*` pointer. -/
def setFrameData (bp : BufferPool) (p : Nat) (d : Bytes) : BufferPool :=
  match ptLookup bp.page_table p with
  | some fid =>
    { bp with frames :=
        bp.frames.set fid ({ bp.frames.getD fid emptyFrame with data := d }) }
  | none => bp

/-! ## Table (`storage_engine.cpp`)

The claims this development settles all concern tables without column
indexes, so the `indexes` map of the C++ `Table` (whose maintenance loop
in `insertTuple` runs zero iterations when the map is empty and touches
neither pages nor the pool) is not carried in the state; the B-tree that
backs an index is modelled separately below. -/

/-- PageHeader from `types.h` (four `uint32_t` fields, 16 bytes). -/
structure PageHeader where
  page_id : Nat
  free_space : Nat
  tuple_count : Nat
  next_page : Nat
deriving DecidableEq

/-- Read a PageHeader out of a page's first 16 bytes (`memcpy`). -/
def decodePageHeader (d : Bytes) : PageHeader :=
  { page_id := readU32 d 0, free_space := readU32 d 4
    tuple_count := readU32 d 8, next_page := readU32 d 12 }

/-- Byte image of a PageHeader (`memcpy` back into the page). -/
def encodePageHeader (h : PageHeader) : Bytes :=
  (u32le h.page_id).append ((u32le h.free_space).append
    ((u32le h.tuple_count).append (u32le h.next_page)))

/-- Table state from `storage_engine.h`: name, schema, head of the page
chain, the page/tuple id counters, and the table-owned buffer pool. -/
structure TableState where
  name : String
  schema : Schema
  first_page_id : Nat
  next_page_id : Nat
  next_tuple_id : Nat
  pool : BufferPool
deriving DecidableEq

/-- `Table::allocateNewPage`: take a fresh page id, get the page, write
an initial header (`free_space = PAGE_SIZE - 16`, no tuples, no next
page), mark dirty, release. -/
def allocateNewPage (t : TableState) : Except DbError (Nat × TableState) := do
  let new_page_id := t.next_page_id
  let t1 := { t with next_page_id := t.next_page_id + 1 }
  let pool ← getPage t1.pool new_page_id
  let header : PageHeader :=
    { page_id := new_page_id, free_space := PAGE_SIZE - 16, tuple_count := 0, next_page := 0 }
  let pool := setFrameData pool new_page_id
    (writeBytes (frameData pool new_page_id) 0 (encodePageHeader header))
  let pool := markDirty pool new_page_id
  let pool := releasePage pool new_page_id
  .ok (new_page_id, { t1 with pool := pool })

/-- The skip-over-existing-tuples loop of `Table::insertTupleIntoPage`:
advance the offset by each stored tuple's `tuple_size`. -/
def skipTuples (data : Bytes) : Nat → Nat → Nat
  | 0, off => off
  | n + 1, off => skipTuples data n (off + readU32 data off)

/-- `Table::insertTupleIntoPage`: reject if the tuple does not fit in
`free_space`; otherwise serialize it after the existing tuples, bump
`tuple_count`, shrink `free_space` by the written size (a `uint32_t`
subtraction), mark dirty, release. -/
def insertTupleIntoPage (t : TableState) (page_id : Nat) (tuple : Tuple) :
    Except DbError (Bool × TableState) := do
  let pool ← getPage t.pool page_id
  let header := decodePageHeader (frameData pool page_id)
  let tuple_size ← getTupleSize t.schema tuple
  if tuple_size > header.free_space then
    .ok (false, { t with pool := releasePage pool page_id })
  else do
    let offset := skipTuples (frameData pool page_id) header.tuple_count 16
    let (data, written_size) ← serializeTuple t.schema tuple (frameData pool page_id) offset
    let header1 := { header with
      tuple_count := header.tuple_count + 1
      free_space := u32sub header.free_space written_size }
    let data := writeBytes data 0 (encodePageHeader header1)
    let pool := setFrameData pool page_id data
    let pool := markDirty pool page_id
    let pool := releasePage pool page_id
    .ok (true, { t with pool := pool })

/-- The read loop of `Table::readTuplesFromPage`. -/
def readTuplesAux (schema : Schema) (data : Bytes) : Nat → Nat → List Tuple
  | 0, _ => []
  | n + 1, off =>
    deserializeTuple schema data off :: readTuplesAux schema data n (off + readU32 data off)

/-- `Table::readTuplesFromPage`: get the page, decode `tuple_count`
tuples starting after the page header, release the page. -/
def readTuplesFromPage (t : TableState) (page_id : Nat) :
    Except DbError (List Tuple × TableState) := do
  let pool ← getPage t.pool page_id
  let header := decodePageHeader (frameData pool page_id)
  let tuples := readTuplesAux t.schema (frameData pool page_id) header.tuple_count 16
  .ok (tuples, { t with pool := releasePage pool page_id })

/-- The while-loop of `Table::insertTuple` over the page chain.  Note
the source releases `header.next_page` (the successor, 0 at the tail)
rather than the page it just read.  The explicit fuel only models
non-termination of the C++ loop on a cyclic chain; the caller passes
`next_page_id`, which bounds the chain length of any reachable table. -/
def insertTupleWalk (tuple : Tuple) : Nat → Nat → TableState → Except DbError (Bool × TableState)
  | 0, current, t => if current = 0 then .ok (false, t) else .error .outOfFuel
  | fuel + 1, current, t =>
    if current = 0 then .ok (false, t)
    else do
      let (ok, t1) ← insertTupleIntoPage t current tuple
      if ok then .ok (true, t1)
      else do
        let pool ← getPage t1.pool current
        let header := decodePageHeader (frameData pool current)
        let next := header.next_page
        let pool := releasePage pool next
        insertTupleWalk tuple fuel next { t1 with pool := pool }

/-- `Table::insertTuple`: assign an id when the tuple carries id 0, walk
the chain trying each page, and if every page is full allocate a fresh
page, insert there, and re-point the head page's `next_page` at it
(overwriting whatever the head pointed to before). -/
def insertTuple (t : TableState) (tuple : Tuple) : Except DbError (Bool × TableState) := do
  let new_tuple := if tuple.id = 0 then { tuple with id := t.next_tuple_id } else tuple
  let t1 := if tuple.id = 0 then { t with next_tuple_id := t.next_tuple_id + 1 } else t
  let (inserted, t2) ← insertTupleWalk new_tuple t1.next_page_id t1.first_page_id t1
  if inserted then .ok (true, t2)
  else do
    let (new_page, t3) ← allocateNewPage t2
    let (ok2, t4) ← insertTupleIntoPage t3 new_page new_tuple
    if ok2 then do
      let pool ← getPage t4.pool t4.first_page_id
      let data := frameData pool t4.first_page_id
      let header := decodePageHeader data
      let data := writeBytes data 0 (encodePageHeader { header with next_page := new_page })
      let pool := setFrameData pool t4.first_page_id data
      let pool := markDirty pool t4.first_page_id
      let pool := releasePage pool t4.first_page_id
      .ok (true, { t4 with pool := pool })
    else .ok (false, t4)

/-- The while-loop of `Table::selectAll` (this loop releases the page it
just visited, unlike the other two chain walks). -/
def selectAllWalk : Nat → Nat → TableState → Except DbError (List Tuple × TableState)
  | 0, current, t => if current = 0 then .ok ([], t) else .error .outOfFuel
  | fuel + 1, current, t =>
    if current = 0 then .ok ([], t)
    else do
      let (page_tuples, t1) ← readTuplesFromPage t current
      let pool ← getPage t1.pool current
      let header := decodePageHeader (frameData pool current)
      let next := header.next_page
      let pool := releasePage pool current
      let (rest, t2) ← selectAllWalk fuel next { t1 with pool := pool }
      .ok (page_tuples ++ rest, t2)

/-- `Table::selectAll`: full scan along the page chain. -/
def selectAll (t : TableState) : Except DbError (List Tuple × TableState) :=
  selectAllWalk t.next_page_id t.first_page_id t

/-- The while-loop of `Table::getTupleCount`; like the `insertTuple`
walk it releases `header.next_page` instead of the page just visited. -/
def getTupleCountWalk : Nat → Nat → TableState → Except DbError (Nat × TableState)
  | 0, current, t => if current = 0 then .ok (0, t) else .error .outOfFuel
  | fuel + 1, current, t =>
    if current = 0 then .ok (0, t)
    else do
      let pool ← getPage t.pool current
      let header := decodePageHeader (frameData pool current)
      let next := header.next_page
      let pool := releasePage pool next
      let (rest, t1) ← getTupleCountWalk fuel next { t with pool := pool }
      .ok (header.tuple_count + rest, t1)

/-- `Table::getTupleCount`: sum `tuple_count` over the chain headers. -/
def getTupleCount (t : TableState) : Except DbError (Nat × TableState) :=
  getTupleCountWalk t.next_page_id t.first_page_id t

/-- The chain walk of `Table::loadExistingTableData`, accumulating the
maximal page id and maximal tuple id. -/
def loadWalk : Nat → Nat → Nat → Nat → TableState → Except DbError (Nat × Nat × TableState)
  | 0, current, maxp, maxt, t =>
    if current = 0 then .ok (maxp, maxt, t) else .error .outOfFuel
  | fuel + 1, current, maxp, maxt, t =>
    if current = 0 then .ok (maxp, maxt, t)
    else do
      let pool ← getPage t.pool current
      let header := decodePageHeader (frameData pool current)
      let t1 := { t with pool := pool }
      let (tuples, t2) ← readTuplesFromPage t1 current
      let maxt1 := tuples.foldl (fun m tu => max m tu.id) maxt
      let next := header.next_page
      let pool2 := releasePage t2.pool next
      loadWalk fuel next (max maxp current) maxt1 { t2 with pool := pool2 }

/-- `Table::loadExistingTableData`: probe page 1; when it looks like an
existing head page, walk the chain to recover the id counters (the walk
releases the successor page, as in the source); finally release page 1. -/
def loadExistingTableData (fuel : Nat) (t : TableState) : Except DbError TableState := do
  let pool ← getPage t.pool 1
  let header := decodePageHeader (frameData pool 1)
  let t1 := { t with pool := pool }
  let t2 ←
    if header.page_id = 1 ∧ 0 < header.tuple_count then do
      let t2 := { t1 with first_page_id := 1 }
      let (maxp, maxt, t3) ← loadWalk fuel t2.first_page_id 1 0 t2
      .ok { t3 with next_page_id := maxp + 1, next_tuple_id := maxt + 1 }
    else .ok t1
  .ok { t2 with pool := releasePage t2.pool 1 }

/-- The `Table` constructor: fresh counters, load any existing data, and
allocate the initial page when the table is new. -/
def initTable (name : String) (schema : Schema) (capacity fuel : Nat) :
    Except DbError TableState := do
  let t0 : TableState :=
    { name := name, schema := schema, first_page_id := 0
      next_page_id := 1, next_tuple_id := 1, pool := initBufferPool capacity }
  let t1 ← loadExistingTableData fuel t0
  if t1.first_page_id = 0 then do
    let (p, t2) ← allocateNewPage t1
    .ok { t2 with first_page_id := p }
  else .ok t1

/-! ## B-tree (`b_tree.h`)

`BTreeNode` carries the parallel `keys`/`values` vectors, the
`children` vector of owning pointers, and the `is_leaf` flag.  The
`null` constructor models a null (in particular a moved-from)
`unique_ptr`; dereferencing it is undefined behaviour in C++ and is
modelled by `Option` results (`none`).  Recursion depth is bounded by an
explicit fuel; the wrappers pass `height + 2`, which strictly exceeds
the depth of the C++ recursion (each call descends one level). -/

/-- MAX_KEYS from `b_tree.h` (order-5 tree). -/
def MAX_KEYS : Nat := 4

inductive BTreeNode (α β : Type) where
  | null
  | mk (keys : List α) (vals : List β) (children : List (BTreeNode α β)) (is_leaf : Bool)

/-- Insert an element at a given position of a list
(`vector::insert(begin() + i, a)`; positions past the end append). -/
def insAt {γ : Type _} : Nat → γ → List γ → List γ
  | 0, a, l => a :: l
  | _ + 1, a, [] => [a]
  | n + 1, a, x :: l => x :: insAt n a l

/-- `BTreeNode::isFull` (never called on a null pointer in the
modelled flows). -/
def BTreeNode.isFull {α β : Type} : BTreeNode α β → Bool
  | .null => false
  | .mk keys _ _ _ => keys.length ≥ MAX_KEYS

/-- Height of a node (1 for a bare leaf); used only to size the fuel. -/
def BTreeNode.height {α β : Type} : BTreeNode α β → Nat
  | .null => 0
  | .mk _ _ children _ =>
    1 + (children.attach.map (fun c => BTreeNode.height c.1)).foldr max 0
decreasing_by
  have := List.sizeOf_lt_of_mem c.2
  simp only [BTreeNode.mk.sizeOf_spec]
  omega

/-- The index the right-to-left scan
`while (i >= 0 && key < keys[i]) i--; i++;` of `insertNonFull`
arrives at: the list length minus the number of trailing keys greater
than `k`. -/
def scanPos {α : Type} [LinearOrder α] (keys : List α) (k : α) : Nat :=
  keys.length - (keys.reverse.takeWhile (fun x => decide (k < x))).length

/-- `BTree::splitChild`.  The source moves the full child out of
`parent->children[child_index]` into a local `unique_ptr` (leaving a
null pointer in that slot), copies the right half into a new sibling
inserted at `child_index + 1`, promotes the middle key/value into the
parent — and then destroys the local pointer, so the truncated left
half is lost and the parent keeps the null slot. -/
def splitChild {α β : Type} [Inhabited α] [Inhabited β]
    (parent : BTreeNode α β) (ci : Nat) : BTreeNode α β :=
  match parent with
  | .null => .null
  | .mk keys vals children leaf =>
    match children.getD ci .null with
    | .null => .null
    | .mk ck cv cc cleaf =>
      let mid := ck.length / 2
      let middle_key := ck.getD mid default
      let middle_value := cv.getD mid default
      let newNode : BTreeNode α β :=
        .mk (ck.drop (mid + 1)) (cv.drop (mid + 1))
            (if cleaf then [] else cc.drop (mid + 1)) cleaf
      .mk (insAt ci middle_key keys) (insAt ci middle_value vals)
          (insAt (ci + 1) newNode (children.set ci .null)) leaf

/-- `BTree::insertNonFull`.  On a leaf: insert key and value at the
position of the right-to-left scan.  On an internal node: choose the
child by the same scan, split it first when it is full (then step right
of the promoted key when the key is greater), and recurse.  `none`
models dereferencing a null child pointer (or fuel exhaustion, which
the wrappers' fuel choice rules out). -/
def insertNonFull {α β : Type} [LinearOrder α] [Inhabited α] [Inhabited β] :
    Nat → BTreeNode α β → α → β → Option (BTreeNode α β)
  | 0, _, _, _ => none
  | _ + 1, .null, _, _ => none
  | fuel + 1, .mk keys vals children leaf, k, v =>
    if leaf then
      let i := scanPos keys k
      some (.mk (insAt i k keys) (insAt i v vals) children leaf)
    else
      let i := scanPos keys k
      match children.getD i .null with
      | .null => none
      | .mk ck cv cc cleaf =>
        if (BTreeNode.mk ck cv cc cleaf : BTreeNode α β).isFull then
          match splitChild (.mk keys vals children leaf) i with
          | .null => none
          | .mk keys1 vals1 children1 leaf1 =>
            let i1 := if k > keys1.getD i default then i + 1 else i
            match insertNonFull fuel (children1.getD i1 .null) k v with
            | none => none
            | some child1 => some (.mk keys1 vals1 (children1.set i1 child1) leaf1)
        else
          match insertNonFull fuel (.mk ck cv cc cleaf) k v with
          | none => none
          | some child1 => some (.mk keys vals (children.set i child1) leaf)

/-- `BTree::searchRecursive`: advance past keys smaller than the query;
return the value on an exact match, fail on a leaf, otherwise descend
into the `i`-th child (a null pointer returns "not found"). -/
def searchRecursive {α β : Type} [LinearOrder α] [Inhabited α] [Inhabited β] :
    Nat → BTreeNode α β → α → Option β
  | 0, _, _ => none
  | _ + 1, .null, _ => none
  | fuel + 1, .mk keys vals children leaf, k =>
    let i := (keys.takeWhile (fun x => decide (k > x))).length
    if i < keys.length ∧ k = keys.getD i default then
      some (vals.getD i default)
    else if leaf then none
    else searchRecursive fuel (children.getD i .null) k

/-- The `BTree` wrapper; the constructor creates an empty leaf root. -/
structure BTree (α β : Type) where
  root : BTreeNode α β

/-- `BTree::BTree()`. -/
def emptyBTree {α β : Type} : BTree α β := ⟨.mk [] [] [] true⟩

/-- `BTree::insert`: split a full root under a fresh internal root
first, then `insertNonFull`. -/
def BTree.insert {α β : Type} [LinearOrder α] [Inhabited α] [Inhabited β]
    (t : BTree α β) (k : α) (v : β) : Option (BTree α β) :=
  let r := t.root
  if r.isFull then
    let newRoot := splitChild (.mk [] [] [r] false) 0
    (insertNonFull (newRoot.height + 2) newRoot k v).map (fun n => ⟨n⟩)
  else
    (insertNonFull (r.height + 2) r k v).map (fun n => ⟨n⟩)

/-- `BTree::search`. -/
def BTree.search {α β : Type} [LinearOrder α] [Inhabited α] [Inhabited β]
    (t : BTree α β) (k : α) : Option β :=
  searchRecursive (t.root.height + 2) t.root k

/-- Fold a sequence of insertions into an initially empty tree (the
per-row index maintenance of `Table::insertTuple`/`createIndex`). -/
def insertAll {α β : Type} [LinearOrder α] [Inhabited α] [Inhabited β]
    (ps : List (α × β)) : Option (BTree α β) :=
  ps.foldlM (fun t p => BTree.insert t p.1 p.2) emptyBTree

/-! ## Lock manager (`transaction_manager.cpp`) -/

inductive LockType where
  | SHARED
  | EXCLUSIVE
deriving DecidableEq

/-- LockRequest from `transaction_manager.h`. -/
structure LockRequest where
  page_id : Nat
  lock_type : LockType
  transaction_id : Nat
  granted : Bool
deriving DecidableEq

/-- The `unordered_map<PageId, vector<LockRequest>>` lock table. -/
abbrev LockTable := List (Nat × List LockRequest)

/-- Requests currently recorded for a page (`lock_table[page_id]`,
which default-constructs an empty vector for an absent key). -/
def lockRequestsFor (tbl : LockTable) (p : Nat) : List LockRequest :=
  ((tbl.find? (fun e => e.1 == p)).map (fun e => e.2)).getD []

/-- `LockManager::canGrantLock`: the request is compatible with every
*granted* request on the page — including, notably, any lock the
requesting transaction itself already holds. -/
def canGrantLock (tbl : LockTable) (request : LockRequest) : Bool :=
  (lockRequestsFor tbl request.page_id).all (fun existing =>
    !existing.granted ||
      !(request.lock_type == .EXCLUSIVE || existing.lock_type == .EXCLUSIVE))

/-- Store back the request vector of a page. -/
def setLockRequests (tbl : LockTable) (p : Nat) (reqs : List LockRequest) : LockTable :=
  if (tbl.find? (fun e => e.1 == p)).isSome then
    tbl.map (fun e => if e.1 == p then (p, reqs) else e)
  else tbl ++ [(p, reqs)]

/-- Replace the first request of `transaction_id` by its EXCLUSIVE
upgrade (the in-place `request.lock_type = LockType::EXCLUSIVE`). -/
def upgradeFirst (reqs : List LockRequest) (txn : Nat) : List LockRequest :=
  match reqs with
  | [] => []
  | r :: rest =>
    if r.transaction_id == txn then { r with lock_type := .EXCLUSIVE } :: rest
    else r :: upgradeFirst rest txn

/-- `LockManager::acquireLock`.  If the transaction already has a
request on the page: upgrade SHARED to EXCLUSIVE when `canGrantLock`
allows it, otherwise report the recorded `granted` flag unchanged.
Otherwise append a new request, granted when compatible. -/
def acquireLock (tbl : LockTable) (page_id : Nat) (lock_type : LockType)
    (transaction_id : Nat) : Bool × LockTable :=
  let reqs := lockRequestsFor tbl page_id
  match reqs.find? (fun r => r.transaction_id == transaction_id) with
  | some request =>
    if request.lock_type == .SHARED && lock_type == .EXCLUSIVE &&
        canGrantLock tbl ⟨page_id, .EXCLUSIVE, transaction_id, false⟩ then
      (true, setLockRequests tbl page_id (upgradeFirst reqs transaction_id))
    else (request.granted, tbl)
  | none =>
    let ok := canGrantLock tbl ⟨page_id, lock_type, transaction_id, false⟩
    let new_request : LockRequest := ⟨page_id, lock_type, transaction_id, ok⟩
    (ok, setLockRequests tbl page_id (reqs ++ [new_request]))

/-! ## `DatabaseEngine::insertTuple` (`database_engine.cpp`)

The engine builds a default `Tuple`, copies the caller's values in
without any arity or type validation, and hands it to the storage
engine.  (The default-constructed `TupleId` is indeterminate in C++; it
is modelled as 0, the only value under which the id-assignment branch
of `Table::insertTuple` runs.) -/

def engineInsertTuple (t : TableState) (values : List Value) :
    Except DbError (Bool × TableState) :=
  insertTuple t { id := 0, values := values }

/-! ## Observables and well-formedness -/

/-- The pinned flag of the frame currently holding page `p`
(`none` when the page is not resident). -/
def pinnedOf (bp : BufferPool) (p : Nat) : Option Bool :=
  (ptLookup bp.page_table p).map (fun fid => (bp.frames.getD fid emptyFrame).is_pinned)

/-- The bytes of page `p` as the next reader will see them: the
resident frame's bytes if the page is cached, the on-disk bytes
otherwise. -/
def pageContent (bp : BufferPool) (p : Nat) : Bytes :=
  match ptLookup bp.page_table p with
  | some fid => (bp.frames.getD fid emptyFrame).data
  | none => readPageFromDisk bp.disk p

/-- Number of pinned frames. -/
def pinnedCount (bp : BufferPool) : Nat :=
  (bp.frames.filter (fun f => f.is_pinned)).length

/-- Well-formedness of a buffer pool state; every conjunct holds for the
freshly constructed pool and is preserved by the public operations:
the LRU list enumerates exactly the frame indices, each page-table
entry points at an in-range frame holding that (nonzero) page, keys and
frames are not duplicated, a frame holding no page is in its cleared
state, a clean resident frame agrees with the disk, and all page
buffers are `PAGE_SIZE` bytes. -/
abbrev poolWF (bp : BufferPool) : Prop :=
  (∀ i ∈ bp.lru_list, i < bp.frames.length) ∧
  (∀ i < bp.frames.length, i ∈ bp.lru_list) ∧
  bp.lru_list.Nodup ∧
  (∀ e ∈ bp.page_table,
    e.1 ≠ 0 ∧ e.2 < bp.frames.length ∧ (bp.frames.getD e.2 emptyFrame).page_id = e.1) ∧
  (bp.page_table.map Prod.fst).Nodup ∧
  (bp.page_table.map Prod.snd).Nodup ∧
  (∀ fid < bp.frames.length, (bp.frames.getD fid emptyFrame).page_id ≠ 0 →
    ((bp.frames.getD fid emptyFrame).page_id, fid) ∈ bp.page_table) ∧
  (∀ fid < bp.frames.length, (bp.frames.getD fid emptyFrame).page_id = 0 →
    bp.frames.getD fid emptyFrame = emptyFrame) ∧
  (∀ fid < bp.frames.length, (bp.frames.getD fid emptyFrame).page_id ≠ 0 →
    (bp.frames.getD fid emptyFrame).is_dirty = false →
    (bp.frames.getD fid emptyFrame).data =
      readPageFromDisk bp.disk (bp.frames.getD fid emptyFrame).page_id) ∧
  (∀ fid < bp.frames.length, (bp.frames.getD fid emptyFrame).data.len = PAGE_SIZE) ∧
  (∀ pg ∈ bp.disk, pg.len = PAGE_SIZE)

/-- The page chain of a table as the next chain walk will see it:
follow `next_page` pointers through `pageContent`, stopping at 0;
`none` when the walk does not terminate within the fuel. -/
def chainListAux (bp : BufferPool) : Nat → Nat → Option (List Nat)
  | _, 0 => some []
  | 0, _ => none
  | fuel + 1, current =>
    (chainListAux bp fuel (decodePageHeader (pageContent bp current)).next_page).map
      (fun rest => current :: rest)

/-- The page chain of a table (walked with the same fuel bound the
operations use). -/
def chainList (t : TableState) : Option (List Nat) :=
  chainListAux t.pool t.next_page_id t.first_page_id

/-- The guarantees of a successful `getPage bp p = .ok bp'`:
well-formedness is preserved, the frame count is unchanged, the
requested page ends pinned, no other page's pinned-flag changes between
`some true` and anything else, every page's observable content is
unchanged, the caller's `BufferFrame*` shows the page's current bytes,
and exactly one previously-unpinned frame became pinned. -/
def getPageEnsures (bp bp' : BufferPool) (p : Nat) : Prop :=
  poolWF bp' ∧
  bp'.frames.length = bp.frames.length ∧
  pinnedOf bp' p = some true ∧
  (∀ q, q ≠ p → (pinnedOf bp' q = some true ↔ pinnedOf bp q = some true)) ∧
  (∀ q, pageContent bp' q = pageContent bp q) ∧
  frameData bp' p = pageContent bp p ∧
  pinnedCount bp' + (if pinnedOf bp p = some true then 1 else 0) = pinnedCount bp + 1

/-! ## Concrete scenario runs used by the claim theorems -/

/-- Schema with a single VARCHAR column. -/
def vschema : Schema := ⟨[⟨"s", .VARCHAR, 0⟩]⟩

/-- Schema with a single INTEGER column. -/
def ischema : Schema := ⟨[⟨"a", .INTEGER, 0⟩]⟩

/-- A row with a 4060-byte VARCHAR (its tuple image is 4080 bytes, one
full page). -/
def bigRow : Tuple := ⟨0, [.str (Bytes.replicateB 4060 97)]⟩

/-- A row with a 1000-byte VARCHAR (tuple image 1020 bytes; 4 of them
fill a page exactly). -/
def row1000 : Tuple := ⟨0, [.str (Bytes.replicateB 1000 97)]⟩

/-- A row with a 10-byte VARCHAR. -/
def smallRow : Tuple := ⟨0, [.str (Bytes.replicateB 10 98)]⟩

/-- C1, minimal orphaning run: three one-page rows into a fresh
single-VARCHAR table; reports the insert results, the ids `selectAll`
returns, the `getTupleCount` sum, and the final tuple-id counter. -/
def c1run : Except DbError (Bool × Bool × Bool × List Nat × Nat × Nat) := do
  let t ← initTable "t" vschema 4 16
  let (b1, t) ← insertTuple t bigRow
  let (b2, t) ← insertTuple t bigRow
  let (b3, t) ← insertTuple t bigRow
  let (rows, t) ← selectAll t
  let (cnt, t2) ← getTupleCount t
  .ok (b1, b2, b3, rows.map (fun r => r.id), cnt, t2.next_tuple_id)

/-- C1, the spec's 20-row scenario: twenty 1000-byte-VARCHAR rows;
reports the ids `selectAll` returns, the chain of pages reachable from
the head, the `getTupleCount` sum, and the final tuple-id counter. -/
def c1run20 : Except DbError (List Nat × Option (List Nat) × Nat × Nat) := do
  let t0 ← initTable "t" vschema 16 32
  let t ← (List.range 20).foldlM (fun acc _ => do
    let (_, t2) ← insertTuple acc row1000
    pure t2) t0
  let (rows, t) ← selectAll t
  let (cnt, t2) ← getTupleCount t
  .ok (rows.map (fun r => r.id), chainList t2, cnt, t2.next_tuple_id)

/-- C2: pool of capacity 4, access sequence 1,2,3,4,1,5 with each page
released after its access. -/
def c2run : Except DbError BufferPool := do
  let bp := initBufferPool 4
  let bp ← getPage bp 1
  let bp := releasePage bp 1
  let bp ← getPage bp 2
  let bp := releasePage bp 2
  let bp ← getPage bp 3
  let bp := releasePage bp 3
  let bp ← getPage bp 4
  let bp := releasePage bp 4
  let bp ← getPage bp 1
  let bp := releasePage bp 1
  let bp ← getPage bp 5
  .ok (releasePage bp 5)

/-- C6: fresh single-INTEGER table, insert of a two-value list (wrong
arity); reports the insert result and the subsequent full scan. -/
def c6run : Except DbError (Bool × List Tuple) := do
  let t ← initTable "t" ischema 4 16
  let (b, t) ← engineInsertTuple t [.int 5, .int 6]
  let (rows, _) ← selectAll t
  .ok (b, rows)

/-- C9: two `getPage` calls on page 1 (two nested holders), one
`releasePage`; reports the pinned flag at that point and whether page 1
is still resident after a further miss forces an eviction. -/
def c9run : Except DbError (Option Bool × Option Nat) := do
  let bp := initBufferPool 2
  let bp ← getPage bp 1
  let bp ← getPage bp 1
  let bp := releasePage bp 1
  let pinned := pinnedOf bp 1
  let bp2 ← getPage bp 2
  .ok (pinned, ptLookup bp2.page_table 1)

/-- C10 counterexample run: two one-page rows (the second insert
allocates page 2 and re-links the head); reports the pinned flag of
head page 1 — which the walk visited — after the insert returns. -/
def c10headRun : Except DbError (Option Bool) := do
  let t ← initTable "t" vschema 4 16
  let (_, t) ← insertTuple t bigRow
  let (_, t) ← insertTuple t bigRow
  .ok (pinnedOf t.pool 1)

/-- C10 amended run (no allocation): fill page 1, put a 1000-byte row
on page 2, then insert a small row; its walk advances past page 1 and
inserts into page 2, leaving page 1 pinned. -/
def c10walkRun : Except DbError (Bool × Option Bool) := do
  let t ← initTable "t" vschema 4 16
  let (_, t) ← insertTuple t bigRow
  let (_, t) ← insertTuple t row1000
  let (b, t) ← insertTuple t smallRow
  .ok (b, pinnedOf t.pool 1)

/-- C10 exhaustion run: capacity 2, both chain pages pinned by
`getTupleCount`, then a third insert needs a frame for a new page and
fails with no evictable frame. -/
def c10failRun : Except DbError (Nat × Option Bool × Option Bool × Except DbError Bool) := do
  let t ← initTable "t" vschema 2 16
  let (_, t) ← insertTuple t bigRow
  let (_, t) ← insertTuple t bigRow
  let (cnt, t) ← getTupleCount t
  .ok (cnt, pinnedOf t.pool 1, pinnedOf t.pool 2, (insertTuple t bigRow).map (fun r => r.1))

/-- C4 witness run: fresh single-VARCHAR table with one small row. -/
def c4table : Except DbError TableState := do
  let t ← initTable "t" vschema 4 16
  let (_, t) ← insertTuple t smallRow
  .ok t

/-- A tuple whose VARCHAR is 5000 bytes (image 5020 bytes > 4080). -/
def oversizeRow : Tuple := ⟨0, [.str (Bytes.replicateB 5000 97)]⟩

/-- The table state behind `c4table`, for use as a witness input. -/
def c4state : TableState :=
  match c4table with
  | .ok t => t
  | .error _ => ⟨"", vschema, 0, 1, 1, initBufferPool 0⟩

/-- A capacity-2 pool with both frames pinned (pages 1 and 2 obtained
and never released). -/
def c7pool : BufferPool :=
  match (do
    let bp ← getPage (initBufferPool 2) 1
    getPage bp 2 : Except DbError BufferPool) with
  | .ok bp => bp
  | .error _ => initBufferPool 0

/-- Conformance of one value to its column: the declared type matches
the value's runtime type, and the value satisfies the typing bounds the
C++ representation guarantees (`int32_t` range, 64-bit double pattern,
canonical byte string). -/
def valueConforms (c : Column) (v : Value) : Prop :=
  match c.type, v with
  | .INTEGER, .int n => -2147483648 ≤ n ∧ n < 2147483648
  | .VARCHAR, .str s => s.val < 256 ^ s.len
  | .BOOLEAN, .bool _ => True
  | .DOUBLE, .double bits => bits < 18446744073709551616
  | _, _ => False

/-- Executable form of `valueConforms`. -/
def valueConformsB (c : Column) (v : Value) : Bool :=
  match c.type, v with
  | .INTEGER, .int n => decide (-2147483648 ≤ n) && decide (n < 2147483648)
  | .VARCHAR, .str s => decide (s.val < 256 ^ s.len)
  | .BOOLEAN, .bool _ => true
  | .DOUBLE, .double bits => decide (bits < 18446744073709551616)
  | _, _ => false

instance (c : Column) (v : Value) : Decidable (valueConforms c v) :=
  decidable_of_iff (valueConformsB c v = true) (by
    rcases c with ⟨_, ct, _⟩
    rcases ct <;> rcases v <;> simp [valueConforms, valueConformsB])

/-- A tuple conforms to a schema when its value list matches the
columns in length and (position-wise) in type, and its id fits the
`uint64_t` representation. -/
def conformsTo (schema : Schema) (t : Tuple) : Prop :=
  t.values.length = schema.columns.length ∧
  (∀ p ∈ schema.columns.zip t.values, valueConforms p.1 p.2) ∧
  t.id < 18446744073709551616

instance (schema : Schema) (t : Tuple) : Decidable (conformsTo schema t) :=
  inferInstanceAs (Decidable (_ ∧ _ ∧ _))

/-- One value's VARCHAR length fits below `2^32` (trivially true for
non-string values). -/
def fitsB (v : Value) : Bool :=
  match v with
  | .str s => decide (s.len < 4294967296)
  | _ => true

/-- Every VARCHAR value of the tuple is shorter than `2^32` bytes (the
bound below which the `uint32_t` length cast is lossless). -/
abbrev varcharsFit (t : Tuple) : Prop :=
  ∀ v ∈ t.values, fitsB v = true

/-- The concatenated byte image of a value list (the right-nested form
of the serializer's `foldl`). -/
def fieldsConcat : List Value → Bytes
  | [] => Bytes.nilB
  | v :: vs => (serializeValue v).append (fieldsConcat vs)

/-- A mixed-type schema used by the codec witness. -/
def mschema : Schema :=
  ⟨[⟨"i", .INTEGER, 0⟩, ⟨"n", .VARCHAR, 0⟩, ⟨"b", .BOOLEAN, 0⟩, ⟨"d", .DOUBLE, 0⟩]⟩

/-- A concrete conforming tuple for the codec witness. -/
def mtuple : Tuple :=
  ⟨42, [.int (-7), .str ⟨2, 26984⟩, .bool true, .double 4614256656552045848]⟩

/-- A tuple whose single VARCHAR is exactly `2^32` (zero) bytes long. -/
def hugeTuple : Tuple := ⟨1, [.str ⟨4294967296, 0⟩]⟩

/-- The buffer `serializeTuple` produces for the codec witness. -/
def c5buf : Bytes :=
  match serializeTuple mschema mtuple (Bytes.zeros 128) 5 with
  | .ok r => r.1
  | .error _ => Bytes.nilB

/-- The id of the first pair in `ps` carrying key `k` (what a lookup
structure that keeps the earliest duplicate returns). -/
def firstValueFor {α β : Type} [DecidableEq α] (ps : List (α × β)) (k : α) : Option β :=
  (ps.find? (fun p => p.1 == k)).map (fun p => p.2)

/-- C3 witness insertions: two rows with key 50 (ids 1 and 7) and one
with key 53. -/
def c3ps : List (Nat × Nat) := [(50, 1), (53, 2), (50, 7)]

/-- The tree the C3 witness insertions build. -/
def c3tr : BTree Nat Nat :=
  match insertAll c3ps with
  | some t => t
  | none => emptyBTree

/-- The tuples a chain scan yields as a pure function of the page
contents: per chain page, `tuple_count` tuples decoded from offset 16
(what `selectAll` returns, stripped of its buffer-pool effects). -/
def pureScanAux (schema : Schema) (bp : BufferPool) : Nat → Nat → Option (List Tuple)
  | 0, current => if current = 0 then some [] else none
  | fuel + 1, current =>
    if current = 0 then some []
    else
      (pureScanAux schema bp fuel
          (decodePageHeader (pageContent bp current)).next_page).map
        (fun rest =>
          readTuplesAux schema (pageContent bp current)
            (decodePageHeader (pageContent bp current)).tuple_count 16 ++ rest)

/-- Extract the `.ok` pool of an `Except` result (fallback for the
error case, never hit in the witness scenarios). -/
def okOrPool (dflt : BufferPool) : Except DbError BufferPool → BufferPool
  | .ok bp => bp
  | .error _ => dflt

/-- Extract the `.ok` table of an `Except` result (fallback for the
error case, never hit in the witness scenarios). -/
def okOrTable (dflt : TableState) : Except DbError TableState → TableState
  | .ok t => t
  | .error _ => dflt

/-- C9 witness state: a fresh capacity-2 pool. -/
def c9s0 : BufferPool := initBufferPool 2

/-- C9 witness state after one `getPage(1)`. -/
def c9s1 : BufferPool := okOrPool c9s0 (getPage c9s0 1)

/-- C9 witness state after a second `getPage(1)`. -/
def c9s2 : BufferPool := okOrPool c9s0 (getPage c9s1 1)

/-- C10 witness table: a fresh single-VARCHAR table holding one small
row (page chain `[1]`). -/
def c10t : TableState :=
  okOrTable ⟨"", vschema, 0, 1, 1, initBufferPool 0⟩ (do
    let t ← initTable "t" vschema 4 16
    let (_, t1) ← insertTuple t smallRow
    .ok t1)

/-- The table state `getTupleCount` leaves behind on `c10t`. -/
def c10tc : TableState :=
  okOrTable c10t ((getTupleCount c10t).map (fun r => r.2))

/-! ## Claim theorems (concrete evaluations) -/

/-- C1 (code bug).  Inserting rows that overflow onto fresh pages makes
`insertTuple` overwrite the head page's `next_page` with each newly
allocated page id, orphaning the previous second page.  Three one-page
rows: all three inserts report success, yet `selectAll` returns only the
rows with ids 1 and 3, the chain `tuple_count` sum is 2, and
`next_tuple_id - 1 = 3`.  In the spec's own 20-row scenario (1000-byte
VARCHAR per row) the reachable chain is `[1, 5]` — 2 pages instead of
the claimed 5 — `selectAll` returns the 8 rows `1,2,3,4,17,18,19,20`,
and the chain sum 8 differs from `next_tuple_id - 1 = 20`. -/
theorem c1_chain_loses_pages :
    c1run = .ok (true, true, true, [1, 3], 2, 4) ∧
    c1run20 = .ok ([1, 2, 3, 4, 17, 18, 19, 20], some [1, 5], 8, 21) :=
  ⟨by decide, by decide⟩

/-- C2 (code bug).  `findVictim` walks the LRU list from `begin()`,
which `updateLRU`/`push_front` make the MOST recently used end, so with
every page released after use the pool reuses a single frame.  For
capacity 4 and the access sequence 1,2,3,4,1,5 the hit count is 0 (the
claim says 1) and pages 1,2,3,4 have all been evicted (the claim says
only page 2 is evicted), leaving only page 5 resident. -/
theorem c2_mru_eviction_trace :
    c2run.map (fun bp => (bp.page_hits, ptLookup bp.page_table 1,
      ptLookup bp.page_table 2, ptLookup bp.page_table 3,
      ptLookup bp.page_table 4, ptLookup bp.page_table 5)) =
    .ok (0, none, none, none, none, some 0) := by decide

/-- C3 (counterexample).  Inserting two rows with the same key `"25"`
(tuple ids 1 then 2) and searching that key returns tuple id 1 — the
FIRST-inserted duplicate, not the last-inserted id 2 the claim
requires: the leaf scan inserts duplicates after the existing equal
keys and `searchRecursive` stops at the first equal key. -/
theorem c3_duplicate_returns_first :
    (insertAll ([([50, 53], 1), ([50, 53], 2)] : List (List Nat × Nat))).map
        (fun tr => BTree.search tr [50, 53]) ≠ some (some 2) ∧
    (insertAll ([([50, 53], 1), ([50, 53], 2)] : List (List Nat × Nat))).map
        (fun tr => BTree.search tr [50, 53]) = some (some 1) :=
  ⟨by decide, by decide⟩

/-- C6 (code bug).  Neither `DatabaseEngine::insertTuple` nor
`Table::insertTuple` validates the value list against the schema: an
insert of two INTEGER values into a one-INTEGER-column table reports
success and changes the table (the subsequent full scan returns the
new row, decoded per schema), where the claim demands a SchemaMismatch
failure with the table unchanged. -/
theorem c6_no_schema_validation :
    c6run = .ok (true, [⟨1, [.int 5]⟩]) := by decide

/-- C8 (code bug).  With transaction 7 holding the only (granted,
SHARED) lock on page 3, `acquireLock(3, EXCLUSIVE, 7)` returns `true`
but leaves the lock SHARED: `canGrantLock` counts the requester's own
granted shared lock as a conflict, so the upgrade branch is never
taken and the call falls through to `return request.granted`. -/
theorem c8_upgrade_returns_true_but_keeps_shared :
    acquireLock [(3, [⟨3, .SHARED, 7, true⟩])] 3 .EXCLUSIVE 7 =
      (true, [(3, [⟨3, .SHARED, 7, true⟩])]) := by decide

/-- C9 (counterexample).  Pinning is a boolean, not a count: after two
`getPage(1)` calls (two nested holders) a single `releasePage(1)`
leaves the frame unpinned, and the very next miss (`getPage(2)` with
capacity 2 — the other frame still pinned is skipped) selects it as
the victim and evicts page 1 while the second holder never released. -/
theorem c9_pin_not_counted : c9run = .ok (some false, none) := by decide

/-- C10 (counterexample).  The claim that every page visited by the
`insertTuple` chain walk remains pinned after the operation returns
fails when the insert allocates a new page: the chain-link step then
does `releasePage(first_page_id)`, unpinning the visited head page.
After two one-page inserts (the second allocates page 2) the head
page 1, which the walk visited, is unpinned. -/
theorem c10_head_page_released_after_allocation :
    c10headRun = .ok (some false) := by decide

/-! ## List and lookup helper lemmas -/

theorem getD_set_self {α : Type _} (l : List α) (i : Nat) (a d : α) (h : i < l.length) :
    (l.set i a).getD i d = a := by
  induction l generalizing i with
  | nil => simp at h
  | cons x xs ih =>
    cases i with
    | zero => simp [List.set, List.getD]
    | succ n =>
      simp only [List.set, List.getD_cons_succ]
      exact ih n (by simpa using h)

theorem getD_set_ne {α : Type _} (l : List α) (i j : Nat) (a d : α) (h : i ≠ j) :
    (l.set i a).getD j d = l.getD j d := by
  induction l generalizing i j with
  | nil => simp [List.set]
  | cons x xs ih =>
    cases i with
    | zero =>
      cases j with
      | zero => exact absurd rfl h
      | succ m => simp [List.set]
    | succ n =>
      cases j with
      | zero => simp [List.set]
      | succ m =>
        simp only [List.set, List.getD_cons_succ]
        exact ih n m (fun hc => h (by omega))

theorem ptLookup_cons (p f q : Nat) (pt : List (Nat × Nat)) :
    ptLookup ((p, f) :: pt) q = if p = q then some f else ptLookup pt q := by
  by_cases h : p = q
  · have hb : (p == q) = true := by simpa using h
    simp [ptLookup, List.find?, hb, h]
  · have hb : (p == q) = false := by simpa using h
    simp [ptLookup, List.find?, hb, h]

theorem ptLookup_filter_ne (pt : List (Nat × Nat)) (x q : Nat) (h : q ≠ x) :
    ptLookup (pt.filter (fun e => e.1 != x)) q = ptLookup pt q := by
  induction pt with
  | nil => simp [ptLookup]
  | cons e rest ih =>
    obtain ⟨p, f⟩ := e
    by_cases hp : p = x
    · subst hp
      have hb : (p != p) = false := by simp
      have hq : p ≠ q := fun hc => h hc.symm
      simp only [List.filter, hb]
      rw [ih, ptLookup_cons, if_neg hq]
    · have hb : (p != x) = true := by simpa using hp
      simp only [List.filter, hb]
      rw [ptLookup_cons, ptLookup_cons, ih]

theorem ptLookup_filter_self (pt : List (Nat × Nat)) (x : Nat) :
    ptLookup (pt.filter (fun e => e.1 != x)) x = none := by
  induction pt with
  | nil => simp [ptLookup]
  | cons e rest ih =>
    obtain ⟨p, f⟩ := e
    by_cases hp : p = x
    · subst hp
      have hb : (p != p) = false := by simp
      simpa only [List.filter, hb] using ih
    · have hb : (p != x) = true := by simpa using hp
      simp only [List.filter, hb]
      rw [ptLookup_cons, if_neg hp]
      exact ih

theorem ptLookup_none_iff (pt : List (Nat × Nat)) (q : Nat) :
    ptLookup pt q = none ↔ ∀ e ∈ pt, e.1 ≠ q := by
  induction pt with
  | nil => simp [ptLookup]
  | cons e rest ih =>
    obtain ⟨p, f⟩ := e
    rw [ptLookup_cons]
    by_cases hp : p = q
    · subst hp
      simp
    · simp only [if_neg hp, ih, List.mem_cons]
      constructor
      · rintro ha e (rfl | he)
        · exact hp
        · exact ha e he
      · intro ha e he
        exact ha e (Or.inr he)

theorem ptLookup_mem (pt : List (Nat × Nat)) (q f : Nat)
    (h : ptLookup pt q = some f) : (q, f) ∈ pt := by
  induction pt with
  | nil => simp [ptLookup] at h
  | cons e rest ih =>
    obtain ⟨p, g⟩ := e
    rw [ptLookup_cons] at h
    by_cases hp : p = q
    · rw [if_pos hp] at h
      subst hp
      cases h
      exact List.mem_cons_self _ _
    · rw [if_neg hp] at h
      exact List.mem_cons_of_mem _ (ih h)

/-! ## findVictim lemmas -/

theorem findVictimAux_none_iff (frames : List BufferFrame) (l : List Nat) :
    findVictimAux frames l = none ↔
      ∀ i ∈ l, (frames.getD i emptyFrame).is_pinned := by
  induction l with
  | nil => simp [findVictimAux]
  | cons i rest ih =>
    by_cases hp : (frames.getD i emptyFrame).is_pinned
    · simp only [findVictimAux, if_pos hp]
      cases hfv : findVictimAux frames rest with
      | none =>
        constructor
        · intro _ j hj
          rcases List.mem_cons.mp hj with rfl | hj
          · exact hp
          · exact ih.mp hfv j hj
        · intro _
          rfl
      | some vl =>
        obtain ⟨v, l'⟩ := vl
        constructor
        · intro hc
          simp at hc
        · intro ha
          have : findVictimAux frames rest = none :=
            ih.mpr (fun j hj => ha j (List.mem_cons_of_mem i hj))
          rw [this] at hfv
          cases hfv
    · simp only [findVictimAux, if_neg hp]
      constructor
      · intro hc
        cases hc
      · intro ha
        exact absurd (ha i (List.mem_cons_self i rest)) hp

theorem findVictimAux_some (frames : List BufferFrame) (l : List Nat) (v : Nat)
    (l' : List Nat) (h : findVictimAux frames l = some (v, l')) :
    v ∈ l ∧ (frames.getD v emptyFrame).is_pinned = false ∧
      ∃ pre post, l = pre ++ v :: post ∧ l' = pre ++ post ∧
        ∀ i ∈ pre, (frames.getD i emptyFrame).is_pinned := by
  induction l generalizing l' with
  | nil => simp [findVictimAux] at h
  | cons i rest ih =>
    by_cases hp : (frames.getD i emptyFrame).is_pinned
    · simp only [findVictimAux, if_pos hp] at h
      cases hfv : findVictimAux frames rest with
      | none => rw [hfv] at h; simp at h
      | some vl =>
        obtain ⟨v0, l0⟩ := vl
        rw [hfv] at h
        simp at h
        obtain ⟨hv, hl⟩ := h
        subst hv
        obtain ⟨hmem, hunp, pre, post, hsplit, hrest, hpre⟩ := ih l0 hfv
        refine ⟨List.mem_cons_of_mem i hmem, hunp, i :: pre, post, ?_, ?_, ?_⟩
        · simp [hsplit]
        · simp [← hl, hrest]
        · intro j hj
          rcases List.mem_cons.mp hj with hj | hj
          · exact hj ▸ hp
          · exact hpre j hj
    · simp only [findVictimAux, if_neg hp] at h
      have hv : v = i ∧ l' = rest := by
        cases h
        exact ⟨rfl, rfl⟩
      obtain ⟨rfl, rfl⟩ := hv
      exact ⟨List.mem_cons_self v l', by simpa using hp,
        [], l', rfl, rfl, by simp⟩

theorem getD_eq_of_lt {α : Type _} (l : List α) (i : Nat) (d : α) (h : i < l.length) :
    l.getD i d = l[i] := by
  simp [List.getD, List.getElem?_eq_getElem h]

/-- C7.  With a well-formed pool, `getPage` raises the
no-unpinned-frame error exactly when the request is a miss and every
frame is pinned; whenever some frame is unpinned, a miss succeeds in
loading the page. -/
theorem c7_getPage_fails_iff_all_pinned (bp : BufferPool) (p : Nat) (hwf : poolWF bp) :
    getPage bp p = .error .noUnpinnedFrame ↔
      (ptLookup bp.page_table p = none ∧ ∀ f ∈ bp.frames, f.is_pinned) := by
  obtain ⟨h1, h2, _⟩ := hwf
  have hbridge : (∀ i ∈ bp.lru_list, (bp.frames.getD i emptyFrame).is_pinned) ↔
      ∀ f ∈ bp.frames, f.is_pinned := by
    constructor
    · intro ha f hf
      obtain ⟨i, hi, rfl⟩ := List.mem_iff_getElem.mp hf
      have := ha i (h2 i hi)
      rwa [getD_eq_of_lt _ _ _ hi] at this
    · intro ha i hi
      have hlt := h1 i hi
      rw [getD_eq_of_lt _ _ _ hlt]
      exact ha _ (List.getElem_mem hlt)
  cases hpt : ptLookup bp.page_table p with
  | some fid =>
    simp only [getPage, hpt]
    constructor
    · intro hc
      cases hc
    · rintro ⟨hc, -⟩
      cases hc
  | none =>
    simp only [getPage, hpt, findVictim]
    cases hfv : findVictimAux bp.frames bp.lru_list with
    | none =>
      simp only [hfv]
      simp only [eq_self_iff_true, true_iff, true_and]
      exact hbridge.mp ((findVictimAux_none_iff _ _).mp hfv)
    | some vl =>
      obtain ⟨v, l'⟩ := vl
      simp only [hfv]
      constructor
      · intro hc
        cases hc
      · rintro ⟨-, hall⟩
        obtain ⟨hv, hunp, -⟩ := findVictimAux_some bp.frames bp.lru_list v l' hfv
        have := hbridge.mpr hall v hv
        rw [this] at hunp
        cases hunp

/-- C7 witness: a capacity-2 pool with both frames pinned is
well-formed, and the theorem instantiates: `getPage` of an absent page
fails there (and indeed the miss and all-pinned conditions hold). -/
theorem c7_getPage_fails_iff_all_pinned_witness :
    poolWF c7pool ∧
      (getPage c7pool 3 = .error .noUnpinnedFrame ↔
        (ptLookup c7pool.page_table 3 = none ∧ ∀ f ∈ c7pool.frames, f.is_pinned)) :=
  ⟨by decide, c7_getPage_fails_iff_all_pinned c7pool 3 (by decide)⟩

/-! ## Disk write lemmas -/

theorem getElemD_aux (l : List Bytes) (q : Nat) :
    readPageFromDisk l q = (l[q]?).getD zeroPage := by
  unfold readPageFromDisk
  by_cases h : q < l.length
  · simp [h, List.getElem?_eq_getElem h]
  · simp [h, List.getElem?_eq_none (le_of_not_lt h)]

theorem readPageFromDisk_write_self (disk : List Bytes) (x : Nat) (d : Bytes) :
    readPageFromDisk (writePageToDisk disk x d) x = d := by
  rw [getElemD_aux]
  unfold writePageToDisk
  by_cases h : x < disk.length
  · simp [List.getElem?_set_self, h]
  · rw [if_neg h, List.append_assoc,
      List.getElem?_append_right (le_of_not_lt h),
      List.getElem?_append_right (by simp)]
    simp

theorem readPageFromDisk_write_ne (disk : List Bytes) (x q : Nat) (d : Bytes)
    (h : q ≠ x) : readPageFromDisk (writePageToDisk disk x d) q = readPageFromDisk disk q := by
  rw [getElemD_aux, getElemD_aux]
  unfold writePageToDisk
  by_cases hx : x < disk.length
  · simp [hx, List.getElem?_set_ne (fun hc => h hc.symm)]
  · rw [if_neg hx]
    by_cases hq : q < disk.length
    · rw [List.append_assoc, List.getElem?_append_left hq]
    · rw [List.append_assoc, List.getElem?_append_right (le_of_not_lt hq),
        List.getElem?_eq_none (le_of_not_lt hq)]
      by_cases hq2 : q - disk.length < x - disk.length
      · rw [List.getElem?_append_left (by simpa using hq2)]
        simp only [List.getElem?_replicate]
        simp [hq2, zeroPage]
      · rw [List.getElem?_append_right (by simpa using le_of_not_lt hq2)]
        have hc : ∃ m, q - disk.length - (x - disk.length) = m + 1 := by
          refine ⟨q - disk.length - (x - disk.length) - 1, ?_⟩
          omega
        obtain ⟨m, hc⟩ := hc
        simp only [List.length_replicate]
        rw [hc]
        simp

theorem writePageToDisk_len (disk : List Bytes) (x : Nat) (d : Bytes)
    (hd : ∀ pg ∈ disk, pg.len = PAGE_SIZE) (hx : d.len = PAGE_SIZE) :
    ∀ pg ∈ writePageToDisk disk x d, pg.len = PAGE_SIZE := by
  unfold writePageToDisk
  by_cases h : x < disk.length
  · simp only [if_pos h]
    intro pg hpg
    rcases List.mem_or_eq_of_mem_set hpg with hm | rfl
    · exact hd pg hm
    · exact hx
  · simp only [if_neg h]
    intro pg hpg
    rcases List.mem_append.mp hpg with hm | hm
    · rcases List.mem_append.mp hm with hm2 | hm2
      · exact hd pg hm2
      · rw [List.eq_of_mem_replicate hm2]
        simp [zeroPage, Bytes.zeros]
    · rw [List.mem_singleton.mp hm]
      exact hx

/-! ## Pinned-count lemmas -/

theorem filterlen_set (frames : List BufferFrame) (fid : Nat) (f1 : BufferFrame)
    (h : fid < frames.length) :
    ((frames.set fid f1).filter (fun f => f.is_pinned)).length +
      (if (frames.getD fid emptyFrame).is_pinned then 1 else 0) =
    (frames.filter (fun f => f.is_pinned)).length +
      (if f1.is_pinned then 1 else 0) := by
  induction frames generalizing fid with
  | nil => simp at h
  | cons x xs ih =>
    cases fid with
    | zero =>
      simp only [List.set, List.getD_cons_zero]
      rw [List.filter_cons, List.filter_cons]
      by_cases hx : x.is_pinned = true <;> by_cases hf : f1.is_pinned = true <;>
        simp [hx, hf]
    | succ n =>
      have hn : n < xs.length := by simpa using h
      simp only [List.set, List.getD_cons_succ]
      rw [List.filter_cons, List.filter_cons]
      have hrec := ih n hn
      rcases Bool.eq_false_or_eq_true x.is_pinned with hx | hx <;>
        simp [hx, List.getD] at hrec ⊢ <;> omega

/-! ## Frame-update lemmas -/

/-- Replacing one frame by a frame that holds the same page, has a
full-page buffer, and respects the clean-matches-disk and cleared-state
disciplines preserves pool well-formedness. -/
theorem wf_set_frame (bp : BufferPool) (fid : Nat) (f1 : BufferFrame)
    (hwf : poolWF bp) (hfid : fid < bp.frames.length)
    (hpid : f1.page_id = (bp.frames.getD fid emptyFrame).page_id)
    (hdata_len : f1.data.len = PAGE_SIZE)
    (hclean : f1.page_id ≠ 0 → f1.is_dirty = false →
      f1.data = readPageFromDisk bp.disk f1.page_id)
    (hempty : f1.page_id = 0 → f1 = emptyFrame) :
    poolWF { bp with frames := bp.frames.set fid f1 } := by
  obtain ⟨h1, h2, h3, h4, h5, h6, h7, h8, h9, h10, h11⟩ := hwf
  refine ⟨?_, ?_, h3, ?_, h5, h6, ?_, ?_, ?_, ?_, h11⟩
  · intro i hi
    simpa using h1 i hi
  · intro i hi
    exact h2 i (by simpa using hi)
  · intro e he
    obtain ⟨he1, he2, he3⟩ := h4 e he
    refine ⟨he1, by simpa using he2, ?_⟩
    by_cases hc : e.2 = fid
    · subst hc
      rw [getD_set_self _ _ _ _ he2, hpid, he3]
    · rw [getD_set_ne _ _ _ _ _ (fun hcc => hc hcc.symm), he3]
  · intro fid2 hfid2 hne
    rw [List.length_set] at hfid2
    by_cases hc : fid2 = fid
    · subst hc
      rw [getD_set_self _ _ _ _ hfid2] at hne ⊢
      rw [hpid] at hne ⊢
      exact h7 fid2 hfid2 hne
    · rw [getD_set_ne _ _ _ _ _ (fun hcc => hc hcc.symm)] at hne ⊢
      exact h7 fid2 hfid2 hne
  · intro fid2 hfid2 hz
    rw [List.length_set] at hfid2
    by_cases hc : fid2 = fid
    · subst hc
      rw [getD_set_self _ _ _ _ hfid2] at hz ⊢
      exact hempty hz
    · rw [getD_set_ne _ _ _ _ _ (fun hcc => hc hcc.symm)] at hz ⊢
      exact h8 fid2 hfid2 hz
  · intro fid2 hfid2 hnz hcl
    rw [List.length_set] at hfid2
    by_cases hc : fid2 = fid
    · subst hc
      rw [getD_set_self _ _ _ _ hfid2] at hnz hcl ⊢
      exact hclean hnz hcl
    · rw [getD_set_ne _ _ _ _ _ (fun hcc => hc hcc.symm)] at hnz hcl ⊢
      exact h9 fid2 hfid2 hnz hcl
  · intro fid2 hfid2
    rw [List.length_set] at hfid2
    by_cases hc : fid2 = fid
    · subst hc
      rw [getD_set_self _ _ _ _ hfid2]
      exact hdata_len
    · rw [getD_set_ne _ _ _ _ _ (fun hcc => hc hcc.symm)]
      exact h10 fid2 hfid2

/-- Flag-only frame updates change no page's content. -/
theorem pageContent_set_flags (bp : BufferPool) (fid : Nat) (f1 : BufferFrame)
    (hdata : f1.data = (bp.frames.getD fid emptyFrame).data) (q : Nat) :
    pageContent { bp with frames := bp.frames.set fid f1 } q = pageContent bp q := by
  unfold pageContent
  cases hq : ptLookup bp.page_table q with
  | none => rfl
  | some fq =>
    simp only []
    by_cases hlt : fid < bp.frames.length
    · by_cases hc : fq = fid
      · subst hc
        rw [getD_set_self _ _ _ _ hlt, hdata]
      · rw [getD_set_ne _ _ _ _ _ (fun hcc => hc hcc.symm)]
    · rw [List.set_eq_of_length_le (le_of_not_lt hlt)]

/-- Resident frame updates change only the page the frame holds. -/
theorem pageContent_set_other (bp : BufferPool) (p fid : Nat) (f1 : BufferFrame)
    (hwf : poolWF bp) (hres : ptLookup bp.page_table p = some fid)
    (q : Nat) (hq : q ≠ p) :
    pageContent { bp with frames := bp.frames.set fid f1 } q = pageContent bp q := by
  obtain ⟨-, -, -, h4, h5, -⟩ := hwf
  unfold pageContent
  cases hqq : ptLookup bp.page_table q with
  | none => rfl
  | some fq =>
    simp only []
    have hmemp := ptLookup_mem _ _ _ hres
    have hmemq := ptLookup_mem _ _ _ hqq
    have hne : fq ≠ fid := by
      intro hc
      subst hc
      have hp3 := (h4 _ hmemp).2.2
      have hq3 := (h4 _ hmemq).2.2
      exact hq (hq3.symm.trans hp3)
    rw [getD_set_ne _ _ _ _ _ (fun hcc => hne hcc.symm)]

/-- The content of the page held by an updated resident frame. -/
theorem pageContent_set_self (bp : BufferPool) (p fid : Nat) (f1 : BufferFrame)
    (hwf : poolWF bp) (hres : ptLookup bp.page_table p = some fid) :
    pageContent { bp with frames := bp.frames.set fid f1 } p = f1.data := by
  obtain ⟨-, -, -, h4, -⟩ := hwf
  have hlt := (h4 _ (ptLookup_mem _ _ _ hres)).2.1
  unfold pageContent
  rw [hres]
  simp only []
  rw [getD_set_self _ _ _ _ hlt]

/-- Pinned flag of other pages under a resident frame update. -/
theorem pinnedOf_set_other (bp : BufferPool) (p fid : Nat) (f1 : BufferFrame)
    (hwf : poolWF bp) (hres : ptLookup bp.page_table p = some fid)
    (q : Nat) (hq : q ≠ p) :
    pinnedOf { bp with frames := bp.frames.set fid f1 } q = pinnedOf bp q := by
  obtain ⟨-, -, -, h4, h5, -⟩ := hwf
  unfold pinnedOf
  cases hqq : ptLookup bp.page_table q with
  | none => rfl
  | some fq =>
    have hmemp := ptLookup_mem _ _ _ hres
    have hmemq := ptLookup_mem _ _ _ hqq
    have hne : fq ≠ fid := by
      intro hc
      subst hc
      have hp3 := (h4 _ hmemp).2.2
      have hq3 := (h4 _ hmemq).2.2
      exact hq (hq3.symm.trans hp3)
    simp only [Option.map]
    rw [getD_set_ne _ _ _ _ _ (fun hcc => hne hcc.symm)]

/-- Pinned flag of the page held by an updated resident frame. -/
theorem pinnedOf_set_self (bp : BufferPool) (p fid : Nat) (f1 : BufferFrame)
    (hwf : poolWF bp) (hres : ptLookup bp.page_table p = some fid) :
    pinnedOf { bp with frames := bp.frames.set fid f1 } p = some f1.is_pinned := by
  obtain ⟨-, -, -, h4, -⟩ := hwf
  have hlt := (h4 _ (ptLookup_mem _ _ _ hres)).2.1
  unfold pinnedOf
  rw [hres]
  simp only [Option.map]
  rw [getD_set_self _ _ _ _ hlt]

/-- With unique page-table keys, two entries sharing a key coincide. -/
theorem nodup_keys_eq (pt : List (Nat × Nat)) (hnd : (pt.map Prod.fst).Nodup)
    (k a b : Nat) (ha : (k, a) ∈ pt) (hb : (k, b) ∈ pt) : a = b := by
  induction pt with
  | nil => simp at ha
  | cons e rest ih =>
    rw [List.map_cons] at hnd
    have hnd1 := List.Nodup.of_cons hnd
    have hk : e.1 ∉ rest.map Prod.fst := (List.nodup_cons.mp hnd).1
    rcases List.mem_cons.mp ha with rfl | ha2
    · rcases List.mem_cons.mp hb with hbe | hb2
      · cases hbe
        rfl
      · exact absurd (List.mem_map_of_mem Prod.fst hb2) (by simpa using hk)
    · rcases List.mem_cons.mp hb with rfl | hb2
      · exact absurd (List.mem_map_of_mem Prod.fst ha2) (by simpa using hk)
      · exact ih hnd1 ha2 hb2

/-- Reads from a length-disciplined file always return full pages. -/
theorem readPageFromDisk_len (disk : List Bytes) (p : Nat)
    (hd : ∀ pg ∈ disk, pg.len = PAGE_SIZE) :
    (readPageFromDisk disk p).len = PAGE_SIZE := by
  unfold readPageFromDisk
  by_cases h : p < disk.length
  · simp only [dif_pos h]
    exact hd _ (List.getElem_mem h)
  · simp [h, zeroPage, Bytes.zeros]

/-- Page 0 is never resident in a well-formed pool. -/
theorem ptLookup_zero_none (bp : BufferPool) (hwf : poolWF bp) :
    ptLookup bp.page_table 0 = none := by
  obtain ⟨-, -, -, h4, -⟩ := hwf
  exact (ptLookup_none_iff _ _).mpr (fun e he => (h4 e he).1)

/-! ## releasePage specification -/

theorem releasePage_eq_none (bp : BufferPool) (p : Nat)
    (h : ptLookup bp.page_table p = none) : releasePage bp p = bp := by
  unfold releasePage
  rw [h]

theorem releasePage_eq_some (bp : BufferPool) (p fid : Nat)
    (h : ptLookup bp.page_table p = some fid) :
    releasePage bp p =
      { bp with frames :=
          bp.frames.set fid ({ bp.frames.getD fid emptyFrame with is_pinned := false }) } := by
  unfold releasePage
  rw [h]

theorem releasePage_wf (bp : BufferPool) (p : Nat) (hwf : poolWF bp) :
    poolWF (releasePage bp p) := by
  cases h : ptLookup bp.page_table p with
  | none => rw [releasePage_eq_none bp p h]; exact hwf
  | some fid =>
    rw [releasePage_eq_some bp p fid h]
    obtain ⟨-, -, -, h4, -, -, -, -, h9, h10, -⟩ := id hwf
    obtain ⟨he1, he2, he3⟩ := h4 _ (ptLookup_mem _ _ _ h)
    refine wf_set_frame bp fid _ hwf he2 rfl (h10 fid he2) ?_ ?_
    · intro hnz hcl
      exact h9 fid he2 hnz hcl
    · intro hz
      exact absurd (hz ▸ he3.symm) he1

theorem releasePage_pageContent (bp : BufferPool) (p q : Nat) :
    pageContent (releasePage bp p) q = pageContent bp q := by
  cases h : ptLookup bp.page_table p with
  | none => rw [releasePage_eq_none bp p h]
  | some fid =>
    rw [releasePage_eq_some bp p fid h]
    exact pageContent_set_flags bp fid
      ({ bp.frames.getD fid emptyFrame with is_pinned := false }) rfl q

theorem releasePage_pinnedOf_self (bp : BufferPool) (p fid : Nat) (hwf : poolWF bp)
    (h : ptLookup bp.page_table p = some fid) :
    pinnedOf (releasePage bp p) p = some false := by
  rw [releasePage_eq_some bp p fid h]
  exact pinnedOf_set_self bp p fid _ hwf h

theorem releasePage_pinnedOf_other (bp : BufferPool) (p q : Nat) (hwf : poolWF bp)
    (hq : q ≠ p) : pinnedOf (releasePage bp p) q = pinnedOf bp q := by
  cases h : ptLookup bp.page_table p with
  | none => rw [releasePage_eq_none bp p h]
  | some fid =>
    rw [releasePage_eq_some bp p fid h]
    exact pinnedOf_set_other bp p fid _ hwf h q hq

theorem releasePage_pinnedCount (bp : BufferPool) (p : Nat) (hwf : poolWF bp) :
    pinnedCount (releasePage bp p) + (if pinnedOf bp p = some true then 1 else 0) =
      pinnedCount bp := by
  cases h : ptLookup bp.page_table p with
  | none =>
    rw [releasePage_eq_none bp p h]
    unfold pinnedOf
    rw [h]
    simp [Option.map]
  | some fid =>
    obtain ⟨-, -, -, h4, -⟩ := hwf
    have hlt := (h4 _ (ptLookup_mem _ _ _ h)).2.1
    rw [releasePage_eq_some bp p fid h]
    have hcount := filterlen_set bp.frames fid
      ({ bp.frames.getD fid emptyFrame with is_pinned := false }) hlt
    unfold pinnedCount pinnedOf
    rw [h]
    simp only [Option.map, Option.some.injEq]
    simp only [] at hcount
    by_cases hpin : (bp.frames.getD fid emptyFrame).is_pinned = true <;>
      simp [hpin] at hcount ⊢ <;> omega

theorem releasePage_table (bp : BufferPool) (p : Nat) :
    (releasePage bp p).page_table = bp.page_table := by
  unfold releasePage
  cases ptLookup bp.page_table p <;> rfl

theorem releasePage_frames_length (bp : BufferPool) (p : Nat) :
    (releasePage bp p).frames.length = bp.frames.length := by
  unfold releasePage
  cases ptLookup bp.page_table p <;> simp

/-! ## Write-back composite (setFrameData; markDirty; releasePage) -/

theorem writeRelease_eq (bp : BufferPool) (p fid : Nat) (d : Bytes)
    (hwf : poolWF bp) (h : ptLookup bp.page_table p = some fid) :
    releasePage (markDirty (setFrameData bp p d) p) p =
      { bp with frames :=
          bp.frames.set fid ({ bp.frames.getD fid emptyFrame with data := d, is_dirty := true, is_pinned := false }) } := by
  obtain ⟨-, -, -, h4, -⟩ := hwf
  have hlt : fid < bp.frames.length := (h4 _ (ptLookup_mem _ _ _ h)).2.1
  unfold setFrameData
  rw [h]
  unfold markDirty
  dsimp only
  rw [h]
  dsimp only
  rw [getD_set_self _ _ _ _ hlt, List.set_set]
  unfold releasePage
  dsimp only
  rw [h]
  dsimp only
  rw [getD_set_self _ _ _ _ hlt, List.set_set]

theorem writeRelease_wf (bp : BufferPool) (p fid : Nat) (d : Bytes)
    (hwf : poolWF bp) (h : ptLookup bp.page_table p = some fid)
    (hlen : d.len = PAGE_SIZE) :
    poolWF (releasePage (markDirty (setFrameData bp p d) p) p) := by
  rw [writeRelease_eq bp p fid d hwf h]
  obtain ⟨-, -, -, h4, -⟩ := id hwf
  obtain ⟨he1, he2, he3⟩ := h4 _ (ptLookup_mem _ _ _ h)
  refine wf_set_frame bp fid _ hwf he2 rfl hlen ?_ ?_
  · intro _ hc
    cases hc
  · intro hz
    exact absurd (hz ▸ he3.symm) he1

theorem writeRelease_pageContent_self (bp : BufferPool) (p fid : Nat) (d : Bytes)
    (hwf : poolWF bp) (h : ptLookup bp.page_table p = some fid) :
    pageContent (releasePage (markDirty (setFrameData bp p d) p) p) p = d := by
  rw [writeRelease_eq bp p fid d hwf h]
  exact pageContent_set_self bp p fid _ hwf h

theorem writeRelease_pageContent_other (bp : BufferPool) (p fid : Nat) (d : Bytes)
    (hwf : poolWF bp) (h : ptLookup bp.page_table p = some fid)
    (q : Nat) (hq : q ≠ p) :
    pageContent (releasePage (markDirty (setFrameData bp p d) p) p) q =
      pageContent bp q := by
  rw [writeRelease_eq bp p fid d hwf h]
  exact pageContent_set_other bp p fid _ hwf h q hq

theorem writeRelease_pinnedOf_self (bp : BufferPool) (p fid : Nat) (d : Bytes)
    (hwf : poolWF bp) (h : ptLookup bp.page_table p = some fid) :
    pinnedOf (releasePage (markDirty (setFrameData bp p d) p) p) p = some false := by
  rw [writeRelease_eq bp p fid d hwf h]
  exact pinnedOf_set_self bp p fid _ hwf h

theorem writeRelease_pinnedOf_other (bp : BufferPool) (p fid : Nat) (d : Bytes)
    (hwf : poolWF bp) (h : ptLookup bp.page_table p = some fid)
    (q : Nat) (hq : q ≠ p) :
    pinnedOf (releasePage (markDirty (setFrameData bp p d) p) p) q = pinnedOf bp q := by
  rw [writeRelease_eq bp p fid d hwf h]
  exact pinnedOf_set_other bp p fid _ hwf h q hq

theorem writeRelease_pinnedCount (bp : BufferPool) (p fid : Nat) (d : Bytes)
    (hwf : poolWF bp) (h : ptLookup bp.page_table p = some fid) :
    pinnedCount (releasePage (markDirty (setFrameData bp p d) p) p) +
      (if pinnedOf bp p = some true then 1 else 0) = pinnedCount bp := by
  rw [writeRelease_eq bp p fid d hwf h]
  obtain ⟨-, -, -, h4, -⟩ := hwf
  have hlt := (h4 _ (ptLookup_mem _ _ _ h)).2.1
  have hcount := filterlen_set bp.frames fid
    ({ bp.frames.getD fid emptyFrame with data := d, is_dirty := true, is_pinned := false })
    hlt
  unfold pinnedCount pinnedOf
  rw [h]
  simp only [Option.map, Option.some.injEq]
  by_cases hpin : (bp.frames.getD fid emptyFrame).is_pinned = true <;>
    simp [hpin] at hcount ⊢ <;> omega

theorem writeRelease_table (bp : BufferPool) (p : Nat) (d : Bytes) :
    (releasePage (markDirty (setFrameData bp p d) p) p).page_table = bp.page_table := by
  cases h : ptLookup bp.page_table p <;>
    simp only [setFrameData, markDirty, releasePage, h] <;> rfl

theorem writeRelease_disk (bp : BufferPool) (p : Nat) (d : Bytes) :
    (releasePage (markDirty (setFrameData bp p d) p) p).disk = bp.disk := by
  cases h : ptLookup bp.page_table p <;>
    simp only [setFrameData, markDirty, releasePage, h] <;> rfl

theorem writeRelease_frames_length (bp : BufferPool) (p : Nat) (d : Bytes) :
    (releasePage (markDirty (setFrameData bp p d) p) p).frames.length =
      bp.frames.length := by
  cases h : ptLookup bp.page_table p <;>
    simp only [setFrameData, markDirty, releasePage, h] <;> simp

/-! ## getPage specification -/

theorem getPage_hit_eq (bp : BufferPool) (p fid : Nat)
    (h : ptLookup bp.page_table p = some fid) :
    getPage bp p = .ok { bp with
      frames := bp.frames.set fid
        ({ bp.frames.getD fid emptyFrame with is_pinned := true }),
      lru_list := fid :: bp.lru_list.filter (fun i => i != fid),
      page_hits := bp.page_hits + 1 } := by
  unfold getPage
  rw [h]
  unfold updateLRU
  dsimp only

theorem getPage_miss_empty_eq (bp : BufferPool) (p vf : Nat) (l : List Nat)
    (hmiss : ptLookup bp.page_table p = none)
    (hv : findVictimAux bp.frames bp.lru_list = some (vf, l))
    (hz : (bp.frames.getD vf emptyFrame).page_id = 0) :
    getPage bp p = .ok { bp with
      frames := bp.frames.set vf
        ({ page_id := p, is_pinned := true, is_dirty := false,
           data := readPageFromDisk bp.disk p }),
      page_table := (p, vf) :: bp.page_table,
      lru_list := vf :: l,
      page_misses := bp.page_misses + 1 } := by
  unfold getPage findVictim
  rw [hmiss]
  dsimp only
  rw [hv]
  dsimp only
  rw [if_neg (fun hc => hc hz)]

theorem getPage_miss_evict_eq (bp : BufferPool) (p vf : Nat) (l : List Nat)
    (hmiss : ptLookup bp.page_table p = none)
    (hv : findVictimAux bp.frames bp.lru_list = some (vf, l))
    (hnz : (bp.frames.getD vf emptyFrame).page_id ≠ 0) :
    getPage bp p = .ok { bp with
      frames := bp.frames.set vf
        ({ page_id := p, is_pinned := true, is_dirty := false,
           data := readPageFromDisk
             (if (bp.frames.getD vf emptyFrame).is_dirty then
                writePageToDisk bp.disk (bp.frames.getD vf emptyFrame).page_id
                  (bp.frames.getD vf emptyFrame).data
              else bp.disk) p }),
      page_table := (p, vf) ::
        bp.page_table.filter (fun e => e.1 != (bp.frames.getD vf emptyFrame).page_id),
      lru_list := vf :: l,
      disk := if (bp.frames.getD vf emptyFrame).is_dirty then
          writePageToDisk bp.disk (bp.frames.getD vf emptyFrame).page_id
            (bp.frames.getD vf emptyFrame).data
        else bp.disk,
      page_misses := bp.page_misses + 1 } := by
  unfold getPage findVictim
  rw [hmiss]
  dsimp only
  rw [hv]
  dsimp only
  rw [if_pos hnz]
  unfold evictFrame BufferFrame.clear
  dsimp only
  rw [List.set_set]

/-- Changing only the LRU list and the counters preserves
well-formedness provided the new list still enumerates the frames. -/
theorem wf_cosmetic (bp : BufferPool) (l : List Nat) (hits misses : Nat)
    (hwf : poolWF bp)
    (hc1 : ∀ i ∈ l, i < bp.frames.length)
    (hc2 : ∀ i < bp.frames.length, i ∈ l)
    (hnd : l.Nodup) :
    poolWF { bp with lru_list := l, page_hits := hits, page_misses := misses } := by
  obtain ⟨-, -, -, h4, h5, h6, h7, h8, h9, h10, h11⟩ := hwf
  exact ⟨hc1, hc2, hnd, h4, h5, h6, h7, h8, h9, h10, h11⟩

theorem getPage_hit_ensures (bp bp' : BufferPool) (p fid : Nat)
    (hwf : poolWF bp) (hpt : ptLookup bp.page_table p = some fid)
    (h : getPage bp p = .ok bp') : getPageEnsures bp bp' p := by
  obtain ⟨h1, h2, h3, h4, h5, h6, h7, h8, h9, h10, h11⟩ := id hwf
  obtain ⟨hpne, hlt, hpid⟩ := h4 _ (ptLookup_mem _ _ _ hpt)
  rw [getPage_hit_eq bp p fid hpt] at h
  injection h with h
  subst h
  unfold getPageEnsures
  refine ⟨?_, ?_, ?_, ?_, ?_, ?_, ?_⟩
  · have hwfA : poolWF { bp with frames := bp.frames.set fid ({ bp.frames.getD fid emptyFrame with is_pinned := true }) } := by
      refine wf_set_frame bp fid _ hwf hlt rfl (h10 fid hlt)
        (fun hnz hcl => h9 fid hlt hnz hcl) (fun hzz => ?_)
      exact absurd (hpid.symm.trans hzz) hpne
    refine wf_cosmetic _ _ (bp.page_hits + 1) bp.page_misses hwfA ?_ ?_ ?_
    · intro i hi
      rcases List.mem_cons.mp hi with rfl | hi2
      · simpa using hlt
      · simpa using h1 i (List.mem_of_mem_filter hi2)
    · intro i hi
      rw [List.length_set] at hi
      by_cases hc : i = fid
      · exact hc ▸ List.mem_cons_self _ _
      · refine List.mem_cons_of_mem _ (List.mem_filter.mpr ⟨h2 i hi, ?_⟩)
        simpa using hc
    · refine List.nodup_cons.mpr ⟨?_, h3.filter _⟩
      intro hc
      have := (List.mem_filter.mp hc).2
      simp at this
  · simp
  · exact pinnedOf_set_self bp p fid _ hwf hpt
  · intro q hq
    have he : pinnedOf { bp with frames := bp.frames.set fid ({ bp.frames.getD fid emptyFrame with is_pinned := true }) } q = pinnedOf bp q :=
      pinnedOf_set_other bp p fid _ hwf hpt q hq
    rw [show pinnedOf { bp with frames := bp.frames.set fid ({ bp.frames.getD fid emptyFrame with is_pinned := true }), lru_list := fid :: bp.lru_list.filter (fun i => i != fid), page_hits := bp.page_hits + 1 } q = pinnedOf bp q from he]
  · intro q
    exact pageContent_set_flags bp fid ({ bp.frames.getD fid emptyFrame with is_pinned := true }) rfl q
  · unfold frameData pageContent
    dsimp only
    rw [hpt]
    dsimp only
    rw [getD_set_self _ _ _ _ hlt]
  · have hcount := filterlen_set bp.frames fid
      ({ bp.frames.getD fid emptyFrame with is_pinned := true }) hlt
    unfold pinnedCount pinnedOf
    dsimp only
    rw [hpt]
    simp only [Option.map, Option.some.injEq]
    by_cases hpin : (bp.frames.getD fid emptyFrame).is_pinned = true <;>
      simp [hpin] at hcount ⊢ <;> omega

theorem keys_not_mem_of_miss (pt : List (Nat × Nat)) (p : Nat)
    (h : ptLookup pt p = none) : p ∉ pt.map Prod.fst := by
  intro hc
  obtain ⟨e, he, hep⟩ := List.mem_map.mp hc
  exact (ptLookup_none_iff _ _).mp h e he hep

theorem getPage_miss_empty_ensures (bp bp' : BufferPool) (p vf : Nat) (l : List Nat)
    (hwf : poolWF bp) (hp : p ≠ 0)
    (hpt : ptLookup bp.page_table p = none)
    (hv : findVictimAux bp.frames bp.lru_list = some (vf, l))
    (hz : (bp.frames.getD vf emptyFrame).page_id = 0)
    (h : getPage bp p = .ok bp') : getPageEnsures bp bp' p := by
  obtain ⟨h1, h2, h3, h4, h5, h6, h7, h8, h9, h10, h11⟩ := id hwf
  obtain ⟨hvmem, hvunp, pre, post, hsplit, hlrest, hpre⟩ :=
    findVictimAux_some bp.frames bp.lru_list vf l hv
  have hvlt := h1 vf hvmem
  have hframe := h8 vf hvlt hz
  have hvfree : ∀ e ∈ bp.page_table, e.2 ≠ vf := by
    intro e he hc
    obtain ⟨he1, -, he3⟩ := h4 e he
    rw [hc, hframe] at he3
    exact he1 he3.symm
  have hperm : (vf :: l).Perm bp.lru_list := by
    rw [hsplit, hlrest]
    exact List.perm_middle.symm
  rw [getPage_miss_empty_eq bp p vf l hpt hv hz] at h
  injection h with h
  subst h
  unfold getPageEnsures
  refine ⟨?_, ?_, ?_, ?_, ?_, ?_, ?_⟩
  · refine ⟨?_, ?_, ?_, ?_, ?_, ?_, ?_, ?_, ?_, ?_, h11⟩
    · intro i hi
      simpa using h1 i (hperm.mem_iff.mp hi)
    · intro i hi
      rw [List.length_set] at hi
      exact hperm.mem_iff.mpr (h2 i hi)
    · exact hperm.nodup_iff.mpr h3
    · intro e he
      rcases List.mem_cons.mp he with rfl | he2
      · refine ⟨hp, by simpa using hvlt, ?_⟩
        rw [getD_set_self _ _ _ _ hvlt]
      · obtain ⟨he1, he2lt, he3⟩ := h4 e he2
        refine ⟨he1, by simpa using he2lt, ?_⟩
        rw [getD_set_ne _ _ _ _ _ (fun hc => hvfree e he2 hc.symm), he3]
    · rw [List.map_cons]
      exact List.nodup_cons.mpr ⟨keys_not_mem_of_miss _ _ hpt, h5⟩
    · rw [List.map_cons]
      refine List.nodup_cons.mpr ⟨?_, h6⟩
      intro hc
      obtain ⟨e, he, hev⟩ := List.mem_map.mp hc
      exact hvfree e he hev
    · intro fid hfid hnz
      rw [List.length_set] at hfid
      by_cases hc : fid = vf
      · subst hc
        rw [getD_set_self _ _ _ _ hvlt] at hnz ⊢
        exact List.mem_cons_self _ _
      · rw [getD_set_ne _ _ _ _ _ (fun hcc => hc hcc.symm)] at hnz ⊢
        exact List.mem_cons_of_mem _ (h7 fid hfid hnz)
    · intro fid hfid hzz
      rw [List.length_set] at hfid
      by_cases hc : fid = vf
      · subst hc
        rw [getD_set_self _ _ _ _ hvlt] at hzz
        exact absurd hzz hp
      · rw [getD_set_ne _ _ _ _ _ (fun hcc => hc hcc.symm)] at hzz ⊢
        exact h8 fid hfid hzz
    · intro fid hfid hnz hcl
      rw [List.length_set] at hfid
      by_cases hc : fid = vf
      · subst hc
        rw [getD_set_self _ _ _ _ hvlt]
      · rw [getD_set_ne _ _ _ _ _ (fun hcc => hc hcc.symm)] at hnz hcl ⊢
        exact h9 fid hfid hnz hcl
    · intro fid hfid
      rw [List.length_set] at hfid
      by_cases hc : fid = vf
      · subst hc
        rw [getD_set_self _ _ _ _ hvlt]
        exact readPageFromDisk_len _ _ h11
      · rw [getD_set_ne _ _ _ _ _ (fun hcc => hc hcc.symm)]
        exact h10 fid hfid
  · simp
  · unfold pinnedOf
    dsimp only
    rw [ptLookup_cons, if_pos rfl]
    simp only [Option.map]
    rw [getD_set_self _ _ _ _ hvlt]
  · intro q hq
    cases hqq : ptLookup bp.page_table q with
    | none =>
      unfold pinnedOf
      dsimp only
      rw [ptLookup_cons, if_neg (fun hc => hq hc.symm), hqq]
      simp only [Option.map]
    | some fq =>
      have hne : fq ≠ vf := fun hc => hvfree (q, fq) (ptLookup_mem _ _ _ hqq) hc
      unfold pinnedOf
      dsimp only
      rw [ptLookup_cons, if_neg (fun hc => hq hc.symm), hqq]
      simp only [Option.map]
      rw [getD_set_ne _ _ _ _ _ (fun hc => hne hc.symm)]
  · intro q
    by_cases hq : q = p
    · subst hq
      unfold pageContent
      dsimp only
      rw [ptLookup_cons, if_pos rfl, hpt]
      dsimp only
      rw [getD_set_self _ _ _ _ hvlt]
    · cases hqq : ptLookup bp.page_table q with
      | none =>
        unfold pageContent
        dsimp only
        rw [ptLookup_cons, if_neg (fun hc => hq hc.symm), hqq]
      | some fq =>
        have hne : fq ≠ vf := fun hc => hvfree (q, fq) (ptLookup_mem _ _ _ hqq) hc
        unfold pageContent
        dsimp only
        rw [ptLookup_cons, if_neg (fun hc => hq hc.symm), hqq]
        dsimp only
        rw [getD_set_ne _ _ _ _ _ (fun hc => hne hc.symm)]
  · unfold frameData pageContent
    dsimp only
    rw [ptLookup_cons, if_pos rfl, hpt]
    dsimp only
    rw [getD_set_self _ _ _ _ hvlt]
  · have hcount := filterlen_set bp.frames vf
      ({ page_id := p, is_pinned := true, is_dirty := false,
         data := readPageFromDisk bp.disk p }) hvlt
    unfold pinnedCount pinnedOf
    dsimp only
    rw [hpt]
    rw [hvunp] at hcount
    simp at hcount ⊢
    omega

theorem getPage_miss_evict_ensures (bp bp' : BufferPool) (p vf : Nat) (l : List Nat)
    (hwf : poolWF bp) (hp : p ≠ 0)
    (hpt : ptLookup bp.page_table p = none)
    (hv : findVictimAux bp.frames bp.lru_list = some (vf, l))
    (hnz : (bp.frames.getD vf emptyFrame).page_id ≠ 0)
    (h : getPage bp p = .ok bp') : getPageEnsures bp bp' p := by
  obtain ⟨h1, h2, h3, h4, h5, h6, h7, h8, h9, h10, h11⟩ := id hwf
  obtain ⟨hvmem, hvunp, pre, post, hsplit, hlrest, hpre⟩ :=
    findVictimAux_some bp.frames bp.lru_list vf l hv
  have hvlt := h1 vf hvmem
  have hxin : ((bp.frames.getD vf emptyFrame).page_id, vf) ∈ bp.page_table :=
    h7 vf hvlt hnz
  have hxp : (bp.frames.getD vf emptyFrame).page_id ≠ p :=
    (ptLookup_none_iff _ _).mp hpt _ hxin
  have hfq : ptLookup bp.page_table (bp.frames.getD vf emptyFrame).page_id = some vf := by
    cases hxq : ptLookup bp.page_table (bp.frames.getD vf emptyFrame).page_id with
    | none => exact absurd rfl ((ptLookup_none_iff _ _).mp hxq _ hxin)
    | some fq => rw [nodup_keys_eq _ h5 _ _ _ (ptLookup_mem _ _ _ hxq) hxin]
  have hdisk2x : readPageFromDisk (if (bp.frames.getD vf emptyFrame).is_dirty then writePageToDisk bp.disk (bp.frames.getD vf emptyFrame).page_id (bp.frames.getD vf emptyFrame).data else bp.disk) (bp.frames.getD vf emptyFrame).page_id = (bp.frames.getD vf emptyFrame).data := by
    by_cases hd : (bp.frames.getD vf emptyFrame).is_dirty = true
    · rw [if_pos hd, readPageFromDisk_write_self]
    · rw [if_neg hd]
      exact (h9 vf hvlt hnz (by simpa using hd)).symm
  have hdisk2q : ∀ q, q ≠ (bp.frames.getD vf emptyFrame).page_id →
      readPageFromDisk (if (bp.frames.getD vf emptyFrame).is_dirty then writePageToDisk bp.disk (bp.frames.getD vf emptyFrame).page_id (bp.frames.getD vf emptyFrame).data else bp.disk) q = readPageFromDisk bp.disk q := by
    intro q hq
    by_cases hd : (bp.frames.getD vf emptyFrame).is_dirty = true
    · rw [if_pos hd, readPageFromDisk_write_ne _ _ _ _ hq]
    · rw [if_neg hd]
  have hdisk2len : ∀ pg ∈ (if (bp.frames.getD vf emptyFrame).is_dirty then writePageToDisk bp.disk (bp.frames.getD vf emptyFrame).page_id (bp.frames.getD vf emptyFrame).data else bp.disk), pg.len = PAGE_SIZE := by
    by_cases hd : (bp.frames.getD vf emptyFrame).is_dirty = true
    · rw [if_pos hd]
      exact writePageToDisk_len bp.disk _ _ h11 (h10 vf hvlt)
    · rw [if_neg hd]
      exact h11
  have hkeyne : ∀ fid, fid < bp.frames.length → fid ≠ vf →
      (bp.frames.getD fid emptyFrame).page_id ≠ 0 →
      (bp.frames.getD fid emptyFrame).page_id ≠ (bp.frames.getD vf emptyFrame).page_id := by
    intro fid hlt2 hne hg hc
    exact hne (nodup_keys_eq _ h5 _ _ _ (hc ▸ h7 fid hlt2 hg) hxin)
  have hvfree : ∀ e ∈ bp.page_table.filter (fun e => e.1 != (bp.frames.getD vf emptyFrame).page_id), e.2 ≠ vf := by
    intro e he hc
    obtain ⟨hemem, hekey⟩ := List.mem_filter.mp he
    obtain ⟨-, -, he3⟩ := h4 e hemem
    rw [hc] at he3
    exact (by simpa using hekey : e.1 ≠ (bp.frames.getD vf emptyFrame).page_id) he3.symm
  have hperm : (vf :: l).Perm bp.lru_list := by
    rw [hsplit, hlrest]
    exact List.perm_middle.symm
  have hLp : ptLookup ((p, vf) :: bp.page_table.filter (fun e => e.1 != (bp.frames.getD vf emptyFrame).page_id)) p = some vf := by
    rw [ptLookup_cons, if_pos rfl]
  have hLt : ptLookup ((p, vf) :: bp.page_table.filter (fun e => e.1 != (bp.frames.getD vf emptyFrame).page_id)) (bp.frames.getD vf emptyFrame).page_id = none := by
    rw [ptLookup_cons, if_neg (fun hc => hxp hc.symm)]
    exact ptLookup_filter_self _ _
  have hLq : ∀ q, q ≠ p → q ≠ (bp.frames.getD vf emptyFrame).page_id →
      ptLookup ((p, vf) :: bp.page_table.filter (fun e => e.1 != (bp.frames.getD vf emptyFrame).page_id)) q = ptLookup bp.page_table q := by
    intro q hq hqx
    rw [ptLookup_cons, if_neg (fun hc => hq hc.symm)]
    exact ptLookup_filter_ne _ _ _ hqx
  rw [getPage_miss_evict_eq bp p vf l hpt hv hnz] at h
  injection h with h
  subst h
  unfold getPageEnsures
  refine ⟨?_, ?_, ?_, ?_, ?_, ?_, ?_⟩
  · refine ⟨?_, ?_, ?_, ?_, ?_, ?_, ?_, ?_, ?_, ?_, hdisk2len⟩
    · intro i hi
      simpa using h1 i (hperm.mem_iff.mp hi)
    · intro i hi
      rw [List.length_set] at hi
      exact hperm.mem_iff.mpr (h2 i hi)
    · exact hperm.nodup_iff.mpr h3
    · intro e he
      rcases List.mem_cons.mp he with rfl | he2
      · refine ⟨hp, by simpa using hvlt, ?_⟩
        rw [getD_set_self _ _ _ _ hvlt]
      · obtain ⟨he1, he2lt, he3⟩ := h4 e (List.mem_filter.mp he2).1
        refine ⟨he1, by simpa using he2lt, ?_⟩
        rw [getD_set_ne _ _ _ _ _ (fun hc => hvfree e he2 hc.symm), he3]
    · rw [List.map_cons]
      refine List.nodup_cons.mpr ⟨?_, ?_⟩
      · intro hc
        obtain ⟨e, he, hep⟩ := List.mem_map.mp hc
        exact (ptLookup_none_iff _ _).mp hpt e (List.mem_filter.mp he).1 hep
      · exact List.Nodup.sublist ((List.filter_sublist _).map _) h5
    · rw [List.map_cons]
      refine List.nodup_cons.mpr ⟨?_, ?_⟩
      · intro hc
        obtain ⟨e, he, hev⟩ := List.mem_map.mp hc
        exact hvfree e he hev
      · exact List.Nodup.sublist ((List.filter_sublist _).map _) h6
    · intro fid hfid hnz2
      rw [List.length_set] at hfid
      by_cases hc : fid = vf
      · subst hc
        rw [getD_set_self _ _ _ _ hvlt] at hnz2 ⊢
        exact List.mem_cons_self _ _
      · rw [getD_set_ne _ _ _ _ _ (fun hcc => hc hcc.symm)] at hnz2 ⊢
        refine List.mem_cons_of_mem _ (List.mem_filter.mpr ⟨h7 fid hfid hnz2, ?_⟩)
        simpa using hkeyne fid hfid hc hnz2
    · intro fid hfid hzz
      rw [List.length_set] at hfid
      by_cases hc : fid = vf
      · subst hc
        rw [getD_set_self _ _ _ _ hvlt] at hzz
        exact absurd hzz hp
      · rw [getD_set_ne _ _ _ _ _ (fun hcc => hc hcc.symm)] at hzz ⊢
        exact h8 fid hfid hzz
    · intro fid hfid hnz2 hcl
      rw [List.length_set] at hfid
      by_cases hc : fid = vf
      · subst hc
        rw [getD_set_self _ _ _ _ hvlt]
      · rw [getD_set_ne _ _ _ _ _ (fun hcc => hc hcc.symm)] at hnz2 hcl ⊢
        rw [hdisk2q _ (hkeyne fid hfid hc hnz2)]
        exact h9 fid hfid hnz2 hcl
    · intro fid hfid
      rw [List.length_set] at hfid
      by_cases hc : fid = vf
      · subst hc
        rw [getD_set_self _ _ _ _ hvlt]
        exact readPageFromDisk_len _ _ hdisk2len
      · rw [getD_set_ne _ _ _ _ _ (fun hcc => hc hcc.symm)]
        exact h10 fid hfid
  · simp
  · unfold pinnedOf
    dsimp only
    rw [hLp]
    simp only [Option.map]
    rw [getD_set_self _ _ _ _ hvlt]
  · intro q hq
    by_cases hqx : q = (bp.frames.getD vf emptyFrame).page_id
    · subst hqx
      unfold pinnedOf
      dsimp only
      rw [hLt, hfq]
      simp only [Option.map]
      rw [hvunp]
      simp
    · cases hqq : ptLookup bp.page_table q with
      | none =>
        unfold pinnedOf
        dsimp only
        rw [hLq q hq hqx, hqq]
        simp only [Option.map]
      | some fq =>
        have hne : fq ≠ vf := by
          intro hc
          have he3 := (h4 _ (ptLookup_mem _ _ _ hqq)).2.2
          rw [hc] at he3
          exact hqx he3.symm
        unfold pinnedOf
        dsimp only
        rw [hLq q hq hqx, hqq]
        simp only [Option.map]
        rw [getD_set_ne _ _ _ _ _ (fun hc => hne hc.symm)]
  · intro q
    by_cases hqp : q = p
    · rw [hqp]
      unfold pageContent
      dsimp only
      rw [hLp, hpt]
      dsimp only
      rw [getD_set_self _ _ _ _ hvlt]
      exact hdisk2q p (fun hc => hxp hc.symm)
    · by_cases hqx : q = (bp.frames.getD vf emptyFrame).page_id
      · subst hqx
        unfold pageContent
        dsimp only
        rw [hLt, hfq]
        dsimp only
        exact hdisk2x
      · cases hqq : ptLookup bp.page_table q with
        | none =>
          unfold pageContent
          dsimp only
          rw [hLq q hqp hqx, hqq]
          dsimp only
          exact hdisk2q q hqx
        | some fq =>
          have hne : fq ≠ vf := by
            intro hc
            have he3 := (h4 _ (ptLookup_mem _ _ _ hqq)).2.2
            rw [hc] at he3
            exact hqx he3.symm
          unfold pageContent
          dsimp only
          rw [hLq q hqp hqx, hqq]
          dsimp only
          rw [getD_set_ne _ _ _ _ _ (fun hc => hne hc.symm)]
  · unfold frameData pageContent
    dsimp only
    rw [hLp, hpt]
    dsimp only
    rw [getD_set_self _ _ _ _ hvlt]
    exact hdisk2q p (fun hc => hxp hc.symm)
  · have hcount := filterlen_set bp.frames vf
      ({ page_id := p, is_pinned := true, is_dirty := false,
         data := readPageFromDisk (if (bp.frames.getD vf emptyFrame).is_dirty then writePageToDisk bp.disk (bp.frames.getD vf emptyFrame).page_id (bp.frames.getD vf emptyFrame).data else bp.disk) p }) hvlt
    unfold pinnedCount pinnedOf
    dsimp only
    rw [hpt]
    rw [hvunp] at hcount
    simp at hcount ⊢
    omega

/-- The master specification of a successful `getPage`. -/
theorem getPage_ok_spec (bp bp' : BufferPool) (p : Nat)
    (hwf : poolWF bp) (hp : p ≠ 0) (h : getPage bp p = .ok bp') :
    getPageEnsures bp bp' p := by
  cases hpt : ptLookup bp.page_table p with
  | some fid => exact getPage_hit_ensures bp bp' p fid hwf hpt h
  | none =>
    cases hv : findVictimAux bp.frames bp.lru_list with
    | none =>
      exfalso
      unfold getPage findVictim at h
      rw [hpt] at h
      dsimp only at h
      rw [hv] at h
      exact Except.noConfusion h
    | some vl =>
      obtain ⟨vf, l⟩ := vl
      by_cases hz : (bp.frames.getD vf emptyFrame).page_id = 0
      · exact getPage_miss_empty_ensures bp bp' p vf l hwf hp hpt hv hz h
      · exact getPage_miss_evict_ensures bp bp' p vf l hwf hp hpt hv hz h

theorem filterlen_all (frames : List BufferFrame)
    (h : ∀ f ∈ frames, f.is_pinned) :
    (frames.filter (fun f => f.is_pinned)).length = frames.length := by
  induction frames with
  | nil => rfl
  | cons x xs ih =>
    rw [List.filter_cons, if_pos (by simpa using h x (List.mem_cons_self x xs))]
    simpa using ih (fun f hf => h f (List.mem_cons_of_mem x hf))

/-- `getPage` succeeds whenever the page is already resident or some
frame is unpinned. -/
theorem getPage_ok_of_room (bp : BufferPool) (p : Nat) (hwf : poolWF bp)
    (hroom : pinnedCount bp < bp.frames.length ∨ ptLookup bp.page_table p ≠ none) :
    ∃ bp2, getPage bp p = .ok bp2 := by
  cases hpt : ptLookup bp.page_table p with
  | some fid => exact ⟨_, getPage_hit_eq bp p fid hpt⟩
  | none =>
    rcases hroom with hroom | hroom
    · cases hv : findVictimAux bp.frames bp.lru_list with
      | some vl =>
        obtain ⟨vf, l⟩ := vl
        by_cases hz : (bp.frames.getD vf emptyFrame).page_id = 0
        · exact ⟨_, getPage_miss_empty_eq bp p vf l hpt hv hz⟩
        · exact ⟨_, getPage_miss_evict_eq bp p vf l hpt hv hz⟩
      | none =>
        exfalso
        have hall := (findVictimAux_none_iff _ _).mp hv
        obtain ⟨h1, h2, -⟩ := hwf
        have hallf : ∀ f ∈ bp.frames, f.is_pinned := by
          intro f hf
          obtain ⟨i, hi, rfl⟩ := List.mem_iff_getElem.mp hf
          have := hall i (h2 i hi)
          rwa [getD_eq_of_lt _ _ _ hi] at this
        have hlen : pinnedCount bp = bp.frames.length := filterlen_all _ hallf
        omega
    · exact absurd hpt hroom

theorem pinnedOf_some_lookup (bp : BufferPool) (p : Nat) (b : Bool)
    (h : pinnedOf bp p = some b) : ∃ fid, ptLookup bp.page_table p = some fid := by
  unfold pinnedOf at h
  cases hq : ptLookup bp.page_table p with
  | none => rw [hq] at h; cases h
  | some fid => exact ⟨fid, rfl⟩

/-! ## Chain-walk lemmas -/

theorem chainListAux_congr (bp bp2 : BufferPool)
    (h : ∀ q, pageContent bp2 q = pageContent bp q) :
    ∀ fuel c, chainListAux bp2 fuel c = chainListAux bp fuel c := by
  intro fuel
  induction fuel with
  | zero =>
    intro c
    cases c with
    | zero => rfl
    | succ m => rfl
  | succ f ih =>
    intro c
    cases c with
    | zero => rfl
    | succ m =>
      simp only [chainListAux]
      rw [h (m + 1), ih]

theorem chainListAux_cons (bp : BufferPool) (fuel c : Nat) (ps : List Nat)
    (h : chainListAux bp fuel c = some ps) (hc : c ≠ 0) :
    ∃ ps', ps = c :: ps' := by
  cases c with
  | zero => exact absurd rfl hc
  | succ m =>
    cases fuel with
    | zero => exact absurd h (by simp [chainListAux])
    | succ f =>
      simp only [chainListAux] at h
      cases hx : chainListAux bp f (decodePageHeader (pageContent bp (m + 1))).next_page with
      | none => rw [hx] at h; cases h
      | some rest =>
        rw [hx] at h
        simp only [Option.map] at h
        injection h with h
        exact ⟨rest, h.symm⟩

theorem exceptBind_ok {α β : Type _} (a : α) (f : α → Except DbError β) :
    (Except.ok a >>= f) = f a := rfl

theorem getTupleCountWalk_step_err (fuel current : Nat) (t : TableState) (e : DbError)
    (hcur : current ≠ 0) (hg : getPage t.pool current = .error e) :
    getTupleCountWalk (fuel + 1) current t = .error e := by
  unfold getTupleCountWalk
  rw [if_neg hcur, hg]
  rfl

theorem getTupleCountWalk_step (fuel current : Nat) (t : TableState) (pool : BufferPool)
    (hcur : current ≠ 0) (hg : getPage t.pool current = .ok pool) :
    getTupleCountWalk (fuel + 1) current t =
      (getTupleCountWalk fuel (decodePageHeader (frameData pool current)).next_page
        { t with pool := releasePage pool (decodePageHeader (frameData pool current)).next_page }).map
        (fun r => ((decodePageHeader (frameData pool current)).tuple_count + r.1, r.2)) := by
  simp only [getTupleCountWalk]
  rw [if_neg hcur, hg]
  cases hr : getTupleCountWalk fuel (decodePageHeader (frameData pool current)).next_page
      { t with pool := releasePage pool (decodePageHeader (frameData pool current)).next_page } with
  | error e =>
    rw [exceptBind_ok, hr]
    rfl
  | ok pr =>
    rw [exceptBind_ok, hr]
    rfl

/-- The `getTupleCount` chain walk, run on a well-formed pool over an
acyclic chain, pins every chain page and leaves it pinned: each
iteration pins the current page via `getPage` and then releases
`header.next_page` — the successor, which the recursive call
immediately re-pins — so no visited page is ever unpinned again. -/
theorem getTupleCountWalk_pins (fuel : Nat) :
    ∀ current t n t' ps,
      poolWF t.pool →
      chainListAux t.pool fuel current = some ps →
      0 ∉ ps → ps.Nodup →
      getTupleCountWalk fuel current t = .ok (n, t') →
      poolWF t'.pool ∧
      (∀ q, pageContent t'.pool q = pageContent t.pool q) ∧
      (∀ q ∈ ps, pinnedOf t'.pool q = some true) ∧
      (∀ q, q ∉ ps → (pinnedOf t'.pool q = some true ↔ pinnedOf t.pool q = some true)) := by
  induction fuel with
  | zero =>
    intro current t n t' ps hwf hch hz hnd hrun
    cases current with
    | zero =>
      simp only [getTupleCountWalk, if_true] at hrun
      injection hrun with hrun
      injection hrun with hn ht
      subst hn
      subst ht
      simp only [chainListAux] at hch
      injection hch with hch
      subst hch
      exact ⟨hwf, fun q => rfl, by simp, fun q hq => Iff.rfl⟩
    | succ c =>
      simp only [getTupleCountWalk] at hrun
      rw [if_neg (Nat.succ_ne_zero c)] at hrun
      exact Except.noConfusion hrun
  | succ fuel ih =>
    intro current t n t' ps hwf hch hz hnd hrun
    cases current with
    | zero =>
      simp only [getTupleCountWalk, if_true] at hrun
      injection hrun with hrun
      injection hrun with hn ht
      subst hn
      subst ht
      simp only [chainListAux] at hch
      injection hch with hch
      subst hch
      exact ⟨hwf, fun q => rfl, by simp, fun q hq => Iff.rfl⟩
    | succ c =>
      cases hg : getPage t.pool (c + 1) with
      | error e =>
        rw [getTupleCountWalk_step_err fuel (c + 1) t e (Nat.succ_ne_zero c) hg] at hrun
        exact Except.noConfusion hrun
      | ok pool =>
        obtain ⟨hwf1, hlen1, hpin1, hiff1, hcont1, hfd1, hcnt1⟩ :=
          getPage_ok_spec t.pool pool (c + 1) hwf (Nat.succ_ne_zero c) hg
        rw [getTupleCountWalk_step fuel (c + 1) t pool (Nat.succ_ne_zero c) hg, hfd1] at hrun
        simp only [chainListAux] at hch
        generalize hN : (decodePageHeader (pageContent t.pool (c + 1))).next_page = N at hrun hch
        cases hrest : chainListAux t.pool fuel N with
        | none =>
          rw [hrest] at hch
          exact Option.noConfusion hch
        | some rest =>
          rw [hrest] at hch
          simp only [Option.map] at hch
          injection hch with hch
          subst hch
          have hcne : (c + 1) ∉ rest := (List.nodup_cons.mp hnd).1
          have hzrest : 0 ∉ rest := fun hc => hz (List.mem_cons_of_mem _ hc)
          have hndrest : rest.Nodup := (List.nodup_cons.mp hnd).2
          cases hrec : getTupleCountWalk fuel N { t with pool := releasePage pool N } with
          | error e =>
            rw [hrec] at hrun
            exact Except.noConfusion hrun
          | ok pr =>
            obtain ⟨nr, tr⟩ := pr
            rw [hrec] at hrun
            simp only [Except.map] at hrun
            injection hrun with hrun
            injection hrun with hn ht
            subst hn
            subst ht
            have hwfR : poolWF (releasePage pool N) := releasePage_wf pool N hwf1
            have hcongr : ∀ q, pageContent (releasePage pool N) q = pageContent t.pool q :=
              fun q => (releasePage_pageContent pool N q).trans (hcont1 q)
            have hchR : chainListAux (releasePage pool N) fuel N = some rest := by
              rw [chainListAux_congr t.pool (releasePage pool N) hcongr fuel N]
              exact hrest
            obtain ⟨hwfF, hcontF, hpinF, hiffF⟩ :=
              ih N { t with pool := releasePage pool N } nr tr rest hwfR hchR hzrest hndrest hrec
            have hrel0 : N = 0 → releasePage pool N = pool := by
              intro h0
              rw [h0]
              exact releasePage_eq_none pool 0 (ptLookup_zero_none pool hwf1)
            have hNmem : N ≠ 0 → N ∈ rest := by
              intro hN0
              obtain ⟨ps', hps'⟩ := chainListAux_cons t.pool fuel N rest hrest hN0
              rw [hps']
              exact List.mem_cons_self _ _
            have hkeep : ∀ q, q ∉ rest → pinnedOf (releasePage pool N) q = pinnedOf pool q := by
              intro q hq
              by_cases hN0 : N = 0
              · rw [hrel0 hN0]
              · exact releasePage_pinnedOf_other pool N q hwf1 (fun hc => hq (hc ▸ hNmem hN0))
            refine ⟨hwfF, ?_, ?_, ?_⟩
            · intro q
              exact (hcontF q).trans (hcongr q)
            · intro q hq
              rcases List.mem_cons.mp hq with rfl | hq2
              · refine (hiffF (c + 1) hcne).mpr ?_
                show pinnedOf (releasePage pool N) (c + 1) = some true
                rw [hkeep (c + 1) hcne]
                exact hpin1
              · exact hpinF q hq2
            · intro q hq
              have hq1 : q ≠ c + 1 := fun hc => hq (hc ▸ List.mem_cons_self _ _)
              have hq2 : q ∉ rest := fun hc => hq (List.mem_cons_of_mem _ hc)
              constructor
              · intro hT
                refine (hiff1 q hq1).mp ?_
                rw [← hkeep q hq2]
                exact (hiffF q hq2).mp hT
              · intro hT
                refine (hiffF q hq2).mpr ?_
                show pinnedOf (releasePage pool N) q = some true
                rw [hkeep q hq2]
                exact (hiff1 q hq1).mpr hT

/-- C9.  Corrected claim: `is_pinned` is a single boolean flag, not a
pin count — after any two successful `getPage` calls for the same
nonzero page on a well-formed pool, already one `releasePage` reads the
frame back as unpinned, although the second holder never released. -/
theorem c9_single_release_unpins (bp bp1 bp2 : BufferPool) (p : Nat)
    (hwf : poolWF bp) (hp : p ≠ 0)
    (h1 : getPage bp p = .ok bp1) (h2 : getPage bp1 p = .ok bp2) :
    pinnedOf (releasePage bp2 p) p = some false := by
  obtain ⟨hwf1, -, hpin1, -⟩ := getPage_ok_spec bp bp1 p hwf hp h1
  obtain ⟨hwf2, -, hpin2, -⟩ := getPage_ok_spec bp1 bp2 p hwf1 hp h2
  obtain ⟨fid, hfid⟩ := pinnedOf_some_lookup bp2 p true hpin2
  exact releasePage_pinnedOf_self bp2 p fid hwf2 hfid

/-- C9 witness: on a fresh capacity-2 pool, page 1 obtained twice, one
release — the theorem instantiates and the frame reads unpinned. -/
theorem c9_single_release_unpins_witness :
    poolWF c9s0 ∧ (1 : Nat) ≠ 0 ∧ getPage c9s0 1 = .ok c9s1 ∧ getPage c9s1 1 = .ok c9s2 ∧
      pinnedOf (releasePage c9s2 1) 1 = some false :=
  ⟨by decide, by decide, by decide, by decide,
    c9_single_release_unpins c9s0 c9s1 c9s2 1 (by decide) (by decide) (by decide) (by decide)⟩

/-- C10.  Corrected claim: the `getTupleCount` chain walk releases
`header.next_page` instead of the page it just visited, so on any
well-formed table with an acyclic chain every chain page's frame is
still pinned when the walk returns (general conjunct); the
`insertTuple` walk leaks pins the same way — after a walk that advances
past page 1 into page 2 the head page stays pinned (`c10walkRun`) — and
the leaked pins persist until `getPage` fails with no evictable frame
(`c10failRun`, where a capacity-2 pool ends with both chain pages
pinned and the next insert errors). -/
theorem c10_traversals_leave_pages_pinned :
    (∀ t n t' ps, poolWF t.pool → chainList t = some ps → 0 ∉ ps → ps.Nodup →
        getTupleCount t = .ok (n, t') → ∀ q ∈ ps, pinnedOf t'.pool q = some true) ∧
    c10walkRun = .ok (true, some true) ∧
    c10failRun = .ok (2, some true, some true, .error .noUnpinnedFrame) := by
  refine ⟨?_, by decide, by decide⟩
  intro t n t' ps hwf hch hz hnd hrun
  exact (getTupleCountWalk_pins t.next_page_id t.first_page_id t n t' ps hwf hch hz hnd hrun).2.2.1

/-- C10 witness: the general conjunct instantiates on a one-row table —
after `getTupleCount` the single chain page 1 is still pinned. -/
theorem c10_traversals_leave_pages_pinned_witness :
    poolWF c10t.pool ∧ chainList c10t = some [1] ∧ (0 : Nat) ∉ ([1] : List Nat) ∧
      ([1] : List Nat).Nodup ∧ getTupleCount c10t = .ok (1, c10tc) ∧
      pinnedOf c10tc.pool 1 = some true :=
  ⟨by decide, by decide, by decide, by decide, by decide,
    c10_traversals_leave_pages_pinned.1 c10t 1 c10tc [1] (by decide) (by decide)
      (by decide) (by decide) (by decide) 1 (by decide)⟩

/-! ## Byte-word arithmetic -/

theorem Bytes.ext' (a b : Bytes) (h1 : a.len = b.len) (h2 : a.val = b.val) : a = b := by
  cases a
  cases b
  cases h1
  cases h2
  rfl

theorem pow256_pos (n : Nat) : 0 < 256 ^ n := Nat.pos_pow_of_pos n (by omega)

theorem pow256_le (m n : Nat) (h : m ≤ n) : 256 ^ m ≤ 256 ^ n :=
  Nat.pow_le_pow_right (by omega) h

theorem Bytes.take_val (a : Bytes) (n : Nat) : (a.take n).val < 256 ^ (a.take n).len :=
  Nat.mod_lt _ (pow256_pos _)

theorem Bytes.drop_val (a : Bytes) (n : Nat) : (a.drop n).val < 256 ^ (a.drop n).len := by
  show a.val % 256 ^ a.len / 256 ^ n < 256 ^ (a.len - n)
  have hm : a.val % 256 ^ a.len < 256 ^ a.len := Nat.mod_lt _ (pow256_pos _)
  by_cases h : n ≤ a.len
  · refine Nat.div_lt_of_lt_mul ?_
    calc a.val % 256 ^ a.len < 256 ^ a.len := hm
    _ = 256 ^ n * 256 ^ (a.len - n) := by rw [← pow_add]; congr 1; omega
  · have h2 : a.len - n = 0 := by omega
    rw [h2, pow_zero]
    rw [Nat.div_eq_of_lt (lt_of_lt_of_le hm (pow256_le _ _ (by omega)))]
    omega

theorem Bytes.append_wf (a b : Bytes) :
    (a.append b).val < 256 ^ (a.append b).len := by
  show a.val % 256 ^ a.len + b.val % 256 ^ b.len * 256 ^ a.len < 256 ^ (a.len + b.len)
  have h1 : a.val % 256 ^ a.len < 256 ^ a.len := Nat.mod_lt _ (pow256_pos _)
  have h2 : b.val % 256 ^ b.len < 256 ^ b.len := Nat.mod_lt _ (pow256_pos _)
  calc a.val % 256 ^ a.len + b.val % 256 ^ b.len * 256 ^ a.len
      < 256 ^ a.len + b.val % 256 ^ b.len * 256 ^ a.len := by omega
  _ = (1 + b.val % 256 ^ b.len) * 256 ^ a.len := by ring
  _ ≤ 256 ^ b.len * 256 ^ a.len := Nat.mul_le_mul_right _ (by omega)
  _ = 256 ^ (a.len + b.len) := by rw [← pow_add]; ring_nf

theorem readBytes_append_left (a b : Bytes) (k m : Nat) (hkm : k + m ≤ a.len) :
    readBytes (a.append b) k m = readBytes a k m := by
  have hw := Bytes.append_wf a b
  simp only [Bytes.append] at hw
  refine Bytes.ext' _ _ ?_ ?_
  · show min m (a.len + b.len - k) = min m (a.len - k)
    omega
  · show (a.val % 256 ^ a.len + b.val % 256 ^ b.len * 256 ^ a.len) % 256 ^ (a.len + b.len) /
        256 ^ k % 256 ^ min m (a.len + b.len - k) =
      a.val % 256 ^ a.len / 256 ^ k % 256 ^ min m (a.len - k)
    rw [Nat.mod_eq_of_lt hw]
    rw [show min m (a.len + b.len - k) = m by omega, show min m (a.len - k) = m by omega]
    generalize a.val % 256 ^ a.len = A
    generalize b.val % 256 ^ b.len = B
    have hB : (256 : Nat) ^ a.len = 256 ^ (a.len - k) * 256 ^ k := by
      rw [← pow_add]
      congr 1
      omega
    rw [hB, ← Nat.mul_assoc, Nat.add_mul_div_right _ _ (pow256_pos k)]
    have hC : (256 : Nat) ^ (a.len - k) = 256 ^ (a.len - k - m) * 256 ^ m := by
      rw [← pow_add]
      congr 1
      omega
    rw [hC, ← Nat.mul_assoc, Nat.add_mul_mod_self_right]

theorem readBytes_append_right (a b : Bytes) (k m : Nat) (hk : a.len ≤ k) :
    readBytes (a.append b) k m = readBytes b (k - a.len) m := by
  have hw := Bytes.append_wf a b
  simp only [Bytes.append] at hw
  refine Bytes.ext' _ _ ?_ ?_
  · show min m (a.len + b.len - k) = min m (b.len - (k - a.len))
    omega
  · show (a.val % 256 ^ a.len + b.val % 256 ^ b.len * 256 ^ a.len) % 256 ^ (a.len + b.len) /
        256 ^ k % 256 ^ min m (a.len + b.len - k) =
      b.val % 256 ^ b.len / 256 ^ (k - a.len) % 256 ^ min m (b.len - (k - a.len))
    rw [Nat.mod_eq_of_lt hw]
    rw [show min m (a.len + b.len - k) = min m (b.len - (k - a.len)) by omega]
    have hK : (256 : Nat) ^ k = 256 ^ a.len * 256 ^ (k - a.len) := by
      rw [← pow_add]
      congr 1
      omega
    rw [hK, ← Nat.div_div_eq_div_mul, Nat.add_mul_div_right _ _ (pow256_pos a.len),
      Nat.div_eq_of_lt (Nat.mod_lt _ (pow256_pos a.len)), Nat.zero_add]

theorem readBytes_all (a : Bytes) (ha : a.val < 256 ^ a.len) : readBytes a 0 a.len = a := by
  refine Bytes.ext' _ _ ?_ ?_
  · show min a.len (a.len - 0) = a.len
    omega
  · show a.val % 256 ^ a.len / 256 ^ 0 % 256 ^ min a.len (a.len - 0) = a.val
    rw [pow_zero, Nat.div_one, Nat.mod_eq_of_lt ha,
      show min a.len (a.len - 0) = a.len by omega, Nat.mod_eq_of_lt ha]

theorem readBytes_write (buffer bytes : Bytes) (off k m : Nat)
    (hoff : off ≤ buffer.len) (hkm : k + m ≤ bytes.len) :
    readBytes (writeBytes buffer off bytes) (off + k) m = readBytes bytes k m := by
  have hT : (buffer.take off).len = off := by
    show min off buffer.len = off
    omega
  unfold writeBytes
  rw [readBytes_append_right (buffer.take off) _ (off + k) m (by rw [hT]; omega), hT,
    show off + k - off = k by omega, readBytes_append_left _ _ k m hkm]

theorem writeBytes_len (buffer bytes : Bytes) (off : Nat)
    (hfit : off + bytes.len ≤ buffer.len) :
    (writeBytes buffer off bytes).len = buffer.len := by
  show min off buffer.len + (bytes.len + (buffer.len - (off + bytes.len))) = buffer.len
  omega

theorem writeBytes_wf (buffer bytes : Bytes) (off : Nat) :
    (writeBytes buffer off bytes).val < 256 ^ (writeBytes buffer off bytes).len :=
  Bytes.append_wf _ _

theorem getByte_eq (a : Bytes) (i : Nat) : a.getByte i = (readBytes a i 1).val := by
  show a.val % 256 ^ a.len / 256 ^ i % 256 =
    a.val % 256 ^ a.len / 256 ^ i % 256 ^ min 1 (a.len - i)
  by_cases h : i < a.len
  · rw [show min 1 (a.len - i) = 1 by omega, pow_one]
  · rw [show min 1 (a.len - i) = 0 by omega, pow_zero,
      Nat.div_eq_of_lt (lt_of_lt_of_le (Nat.mod_lt _ (pow256_pos _)) (pow256_le _ _ (by omega)))]
    simp

theorem decodeI32_emod (v : Int) (h1 : -2147483648 ≤ v) (h2 : v < 2147483648) :
    decodeI32 (v.emod 4294967296).toNat = v := by
  unfold decodeI32
  rw [show v.emod 4294967296 = v % 4294967296 from rfl]
  split <;> omega

theorem Bytes.append_assoc (a b c : Bytes) :
    (a.append b).append c = a.append (b.append c) := by
  have hab := Bytes.append_wf a b
  have hbc := Bytes.append_wf b c
  refine Bytes.ext' _ _ ?_ ?_
  · show a.len + b.len + c.len = a.len + (b.len + c.len)
    omega
  · show (a.append b).val % 256 ^ (a.len + b.len) + c.val % 256 ^ c.len * 256 ^ (a.len + b.len) =
      a.val % 256 ^ a.len + (b.append c).val % 256 ^ (b.len + c.len) * 256 ^ a.len
    rw [Nat.mod_eq_of_lt (show (a.append b).val < 256 ^ (a.len + b.len) from hab),
      Nat.mod_eq_of_lt (show (b.append c).val < 256 ^ (b.len + c.len) from hbc)]
    show a.val % 256 ^ a.len + b.val % 256 ^ b.len * 256 ^ a.len +
        c.val % 256 ^ c.len * 256 ^ (a.len + b.len) =
      a.val % 256 ^ a.len +
        (b.val % 256 ^ b.len + c.val % 256 ^ c.len * 256 ^ b.len) * 256 ^ a.len
    rw [pow_add]
    ring

theorem Bytes.append_nilB (a : Bytes) (ha : a.val < 256 ^ a.len) :
    a.append Bytes.nilB = a := by
  refine Bytes.ext' _ _ ?_ ?_
  · show a.len + 0 = a.len
    omega
  · show a.val % 256 ^ a.len + 0 % 256 ^ 0 * 256 ^ a.len = a.val
    rw [Nat.mod_eq_of_lt ha]
    simp

theorem Bytes.nilB_append (a : Bytes) (ha : a.val < 256 ^ a.len) :
    Bytes.nilB.append a = a := by
  refine Bytes.ext' _ _ ?_ ?_
  · show 0 + a.len = a.len
    omega
  · show 0 % 256 ^ 0 + a.val % 256 ^ a.len * 256 ^ 0 = a.val
    rw [Nat.mod_eq_of_lt ha]
    simp

theorem serializeValue_wf (v : Value) :
    (serializeValue v).val < 256 ^ (serializeValue v).len := by
  cases v with
  | int n =>
    show (n.emod 4294967296).toNat % 4294967296 < 256 ^ 4
    have h : (256 : Nat) ^ 4 = 4294967296 := by norm_num
    rw [h]
    exact Nat.mod_lt _ (by omega)
  | str s => exact Bytes.append_wf _ _
  | bool b =>
    show (if b then 1 else 0) < 256 ^ 1
    cases b <;> simp
  | double bits =>
    show bits % 18446744073709551616 < 256 ^ 8
    have h : (256 : Nat) ^ 8 = 18446744073709551616 := by norm_num
    rw [h]
    exact Nat.mod_lt _ (by omega)

theorem fieldsConcat_wf (vs : List Value) :
    (fieldsConcat vs).val < 256 ^ (fieldsConcat vs).len := by
  cases vs with
  | nil => show 0 < 256 ^ 0; simp
  | cons v vs => exact Bytes.append_wf _ _

theorem foldl_serialize_eq (vs : List Value) :
    ∀ acc : Bytes, acc.val < 256 ^ acc.len →
      vs.foldl (fun a v => a.append (serializeValue v)) acc = acc.append (fieldsConcat vs) := by
  induction vs with
  | nil =>
    intro acc hacc
    show acc = acc.append Bytes.nilB
    exact (Bytes.append_nilB acc hacc).symm
  | cons v vs ih =>
    intro acc hacc
    show (vs.foldl (fun a v => a.append (serializeValue v)) (acc.append (serializeValue v))) =
      acc.append (fieldsConcat (v :: vs))
    rw [ih _ (Bytes.append_wf _ _), Bytes.append_assoc]
    rfl

theorem reads_head (buf : Bytes) (pos : Nat) (head rest : Bytes)
    (hread : ∀ k m, k + m ≤ (head.append rest).len →
      readBytes buf (pos + k) m = readBytes (head.append rest) k m) :
    ∀ k m, k + m ≤ head.len → readBytes buf (pos + k) m = readBytes head k m := by
  intro k m hkm
  rw [hread k m (by show _ ≤ head.len + rest.len; omega),
    readBytes_append_left head rest k m hkm]

theorem reads_shift (buf : Bytes) (pos : Nat) (head rest : Bytes)
    (hread : ∀ k m, k + m ≤ (head.append rest).len →
      readBytes buf (pos + k) m = readBytes (head.append rest) k m) :
    ∀ k m, k + m ≤ rest.len → readBytes buf (pos + head.len + k) m = readBytes rest k m := by
  intro k m hkm
  have h1 := hread (head.len + k) m (by show _ ≤ head.len + rest.len; omega)
  rw [show pos + head.len + k = pos + (head.len + k) by omega, h1,
    readBytes_append_right head rest (head.len + k) m (by omega),
    show head.len + k - head.len = k by omega]

/-- Field decoding inverts field encoding: if the buffer window at
`pos` holds the concatenated field images of a value list that matches
the columns in type, every `int32` within range, every string
canonical and shorter than `2^32`, then the decoding loop returns the
original values. -/
theorem deserializeFields_concat (buf : Bytes) :
    ∀ (cs : List Column) (vs : List Value) (pos : Nat),
      cs.length = vs.length →
      (∀ p ∈ cs.zip vs, valueConforms p.1 p.2) →
      (∀ v ∈ vs, fitsB v = true) →
      (∀ k m, k + m ≤ (fieldsConcat vs).len →
        readBytes buf (pos + k) m = readBytes (fieldsConcat vs) k m) →
      deserializeFields buf cs pos = vs := by
  intro cs
  induction cs with
  | nil =>
    intro vs pos hlen hconf hfit hread
    cases vs with
    | nil => rfl
    | cons v vs => simp at hlen
  | cons c cs ih =>
    intro vs pos hlen hconf hfit hread
    cases vs with
    | nil => simp at hlen
    | cons v vs =>
      have hcv : valueConforms c v := hconf (c, v) (by simp)
      have hconf' : ∀ p ∈ cs.zip vs, valueConforms p.1 p.2 := by
        intro p hp
        exact hconf p (by simp [hp])
      have hfit' : ∀ w ∈ vs, fitsB w = true := fun w hw => hfit w (List.mem_cons_of_mem _ hw)
      have hlen' : cs.length = vs.length := by simpa using hlen
      obtain ⟨cname, ctype, csize⟩ := c
      have hreadH := reads_head buf pos (serializeValue v) (fieldsConcat vs) hread
      have hreadT := reads_shift buf pos (serializeValue v) (fieldsConcat vs) hread
      cases ctype with
      | INTEGER =>
        cases v with
        | int n =>
          obtain ⟨hn1, hn2⟩ := hcv
          show Value.int (decodeI32 (readU32 buf pos)) ::
              deserializeFields buf cs (pos + 4) = Value.int n :: vs
          have hu : readU32 buf pos = (n.emod 4294967296).toNat := by
            have h0 := hreadH 0 4 (by show 0 + 4 ≤ 4; omega)
            rw [Nat.add_zero] at h0
            show (readBytes buf pos 4).val = _
            rw [h0, show readBytes (serializeValue (Value.int n)) 0 4 =
              serializeValue (Value.int n) from readBytes_all _ (serializeValue_wf _)]
            show (n.emod 4294967296).toNat % 4294967296 = (n.emod 4294967296).toNat
            refine Nat.mod_eq_of_lt ?_
            rw [show n.emod 4294967296 = n % 4294967296 from rfl]
            omega
          rw [hu, decodeI32_emod n hn1 hn2]
          have hrT : ∀ k m, k + m ≤ (fieldsConcat vs).len →
              readBytes buf (pos + 4 + k) m = readBytes (fieldsConcat vs) k m := by
            intro k m hkm
            have h := hreadT k m hkm
            rw [show pos + (serializeValue (Value.int n)).len + k = pos + 4 + k from rfl] at h
            exact h
          rw [ih vs (pos + 4) hlen' hconf' hfit' hrT]
        | str s => exact False.elim hcv
        | bool b => exact False.elim hcv
        | double bits => exact False.elim hcv
      | VARCHAR =>
        cases v with
        | str s =>
          have hs : s.val < 256 ^ s.len := hcv
          have hsfit : s.len < 4294967296 := by
            have := hfit (Value.str s) (List.mem_cons_self _ _)
            simpa [fitsB] using this
          have hmod : s.len % 4294967296 = s.len := Nat.mod_eq_of_lt hsfit
          have htake : s.take (s.len % 4294967296) = s := by
            rw [hmod]
            refine Bytes.ext' _ _ ?_ ?_
            · show min s.len s.len = s.len
              omega
            · show s.val % 256 ^ min s.len s.len = s.val
              rw [show min s.len s.len = s.len by omega, Nat.mod_eq_of_lt hs]
          show Value.str (readBytes buf (pos + 4) (readU32 buf pos)) ::
              deserializeFields buf cs (pos + 4 + readU32 buf pos) = Value.str s :: vs
          have hu : readU32 buf pos = s.len := by
            have h0 := hreadH 0 4
              (by show 0 + 4 ≤ 4 + min (s.len % 4294967296) s.len; omega)
            rw [Nat.add_zero] at h0
            show (readBytes buf pos 4).val = s.len
            rw [h0, show readBytes (serializeValue (Value.str s)) 0 4 = readBytes (u32le s.len) 0 4 from
              readBytes_append_left (u32le s.len) _ 0 4 (by show 0 + 4 ≤ 4; omega),
              show readBytes (u32le s.len) 0 4 = u32le s.len from readBytes_all _ (by
                show s.len % 4294967296 < 256 ^ 4
                rw [show (256 : Nat) ^ 4 = 4294967296 by norm_num]
                exact Nat.mod_lt _ (by omega))]
            exact hmod
          rw [hu]
          have hss : readBytes buf (pos + 4) s.len = s := by
            have h4 := hreadH 4 s.len
              (by show 4 + s.len ≤ 4 + min (s.len % 4294967296) s.len; rw [hmod]; omega)
            rw [h4, show readBytes (serializeValue (Value.str s)) 4 s.len =
              readBytes (s.take (s.len % 4294967296)) (4 - 4) s.len from
              readBytes_append_right (u32le s.len) _ 4 s.len (by show 4 ≤ 4; omega),
              htake, show (4 : Nat) - 4 = 0 from rfl, readBytes_all s hs]
          rw [hss]
          have hrT : ∀ k m, k + m ≤ (fieldsConcat vs).len →
              readBytes buf (pos + 4 + s.len + k) m = readBytes (fieldsConcat vs) k m := by
            intro k m hkm
            have h := hreadT k m hkm
            rw [show pos + (serializeValue (Value.str s)).len + k = pos + 4 + s.len + k by
              show pos + (4 + min (s.len % 4294967296) s.len) + k = pos + 4 + s.len + k
              rw [hmod]
              omega] at h
            exact h
          rw [ih vs (pos + 4 + s.len) hlen' hconf' hfit' hrT]
        | int n => exact False.elim hcv
        | bool b => exact False.elim hcv
        | double bits => exact False.elim hcv
      | BOOLEAN =>
        cases v with
        | bool b =>
          show Value.bool (buf.getByte pos != 0) ::
              deserializeFields buf cs (pos + 1) = Value.bool b :: vs
          have hb : buf.getByte pos = (if b then 1 else 0) := by
            rw [getByte_eq]
            have h0 := hreadH 0 1 (by show 0 + 1 ≤ 1; omega)
            rw [Nat.add_zero] at h0
            rw [h0, show readBytes (serializeValue (Value.bool b)) 0 1 =
              serializeValue (Value.bool b) from readBytes_all _ (serializeValue_wf _)]
            rfl
          rw [hb, show ((if b then (1 : Nat) else 0) != 0) = b by cases b <;> rfl]
          have hrT : ∀ k m, k + m ≤ (fieldsConcat vs).len →
              readBytes buf (pos + 1 + k) m = readBytes (fieldsConcat vs) k m := by
            intro k m hkm
            have h := hreadT k m hkm
            rw [show pos + (serializeValue (Value.bool b)).len + k = pos + 1 + k from rfl] at h
            exact h
          rw [ih vs (pos + 1) hlen' hconf' hfit' hrT]
        | int n => exact False.elim hcv
        | str s => exact False.elim hcv
        | double bits => exact False.elim hcv
      | DOUBLE =>
        cases v with
        | double bits =>
          have hlt : bits < 18446744073709551616 := hcv
          show Value.double (readU64 buf pos) ::
              deserializeFields buf cs (pos + 8) = Value.double bits :: vs
          have hu : readU64 buf pos = bits := by
            have h0 := hreadH 0 8 (by show 0 + 8 ≤ 8; omega)
            rw [Nat.add_zero] at h0
            show (readBytes buf pos 8).val = bits
            rw [h0, show readBytes (serializeValue (Value.double bits)) 0 8 =
              serializeValue (Value.double bits) from readBytes_all _ (serializeValue_wf _)]
            exact Nat.mod_eq_of_lt hlt
          rw [hu]
          have hrT : ∀ k m, k + m ≤ (fieldsConcat vs).len →
              readBytes buf (pos + 8 + k) m = readBytes (fieldsConcat vs) k m := by
            intro k m hkm
            have h := hreadT k m hkm
            rw [show pos + (serializeValue (Value.double bits)).len + k = pos + 8 + k from rfl] at h
            exact h
          rw [ih vs (pos + 8) hlen' hconf' hfit' hrT]
        | int n => exact False.elim hcv
        | str s => exact False.elim hcv
        | bool b => exact False.elim hcv

/-- C5.  Corrected claim: serialization followed by deserialization is
the identity on tuples that conform to the schema (length, position-wise
types, `int32`/`uint64` ranges, canonical strings) and whose VARCHAR
values are each shorter than `2^32` bytes (so the `uint32_t` length cast
is lossless), at any offset within the target buffer. -/
theorem c5_codec_roundtrip (schema : Schema) (t : Tuple) (buffer : Bytes) (offset : Nat)
    (hconf : conformsTo schema t) (hfit : varcharsFit t)
    (hoff : offset ≤ buffer.len)
    (buf2 : Bytes) (n : Nat)
    (hser : serializeTuple schema t buffer offset = .ok (buf2, n)) :
    deserializeTuple schema buf2 offset = t := by
  obtain ⟨hlen, hcol, hid⟩ := hconf
  unfold serializeTuple serializeTupleBytes at hser
  cases hS : getTupleSize schema t with
  | error e =>
    rw [hS] at hser
    exact Except.noConfusion hser
  | ok sz =>
    rw [hS] at hser
    simp only [Except.map] at hser
    injection hser with hser
    injection hser with h1 h2
    subst h1
    have hfold : t.values.foldl (fun acc v => acc.append (serializeValue v)) Bytes.nilB =
        fieldsConcat t.values := by
      rw [foldl_serialize_eq t.values Bytes.nilB (by show 0 < 256 ^ 0; simp),
        Bytes.nilB_append _ (fieldsConcat_wf _)]
    rw [hfold]
    have hIdEq : readU64 (writeBytes buffer offset
        ((tupleHeaderBytes sz 0 t.id).append (fieldsConcat t.values))) (offset + 8) = t.id := by
      have h8 := readBytes_write buffer
        ((tupleHeaderBytes sz 0 t.id).append (fieldsConcat t.values)) offset 8 8 hoff
        (by show 8 + 8 ≤ 16 + (fieldsConcat t.values).len; omega)
      show (readBytes (writeBytes buffer offset
        ((tupleHeaderBytes sz 0 t.id).append (fieldsConcat t.values))) (offset + 8) 8).val = t.id
      rw [h8,
        show readBytes ((tupleHeaderBytes sz 0 t.id).append (fieldsConcat t.values)) 8 8 =
          readBytes (tupleHeaderBytes sz 0 t.id) 8 8 from
          readBytes_append_left _ _ 8 8 (by show 8 + 8 ≤ 16; omega),
        show readBytes (tupleHeaderBytes sz 0 t.id) 8 8 =
          readBytes ((u32le 0).append (u64le t.id)) (8 - 4) 8 from
          readBytes_append_right (u32le sz) _ 8 8 (by show 4 ≤ 8; omega),
        show (8 : Nat) - 4 = 4 from rfl,
        show readBytes ((u32le 0).append (u64le t.id)) 4 8 =
          readBytes (u64le t.id) (4 - 4) 8 from
          readBytes_append_right (u32le 0) _ 4 8 (by show 4 ≤ 4; omega),
        show (4 : Nat) - 4 = 0 from rfl,
        show readBytes (u64le t.id) 0 8 = u64le t.id from readBytes_all (u64le t.id) (by
          show t.id % 18446744073709551616 < 256 ^ 8
          rw [show (256 : Nat) ^ 8 = 18446744073709551616 by norm_num]
          exact Nat.mod_lt _ (by omega))]
      show t.id % 18446744073709551616 = t.id
      exact Nat.mod_eq_of_lt hid
    have hFields : deserializeFields (writeBytes buffer offset
        ((tupleHeaderBytes sz 0 t.id).append (fieldsConcat t.values)))
        schema.columns (offset + 16) = t.values := by
      refine deserializeFields_concat _ schema.columns t.values (offset + 16)
        hlen.symm hcol hfit ?_
      intro k m hkm
      have h := readBytes_write buffer
        ((tupleHeaderBytes sz 0 t.id).append (fieldsConcat t.values)) offset (16 + k) m hoff
        (by show 16 + k + m ≤ 16 + (fieldsConcat t.values).len; omega)
      rw [show offset + 16 + k = offset + (16 + k) by omega, h,
        readBytes_append_right (tupleHeaderBytes sz 0 t.id) _ (16 + k) m
          (by show 16 ≤ 16 + k; omega),
        show 16 + k - (tupleHeaderBytes sz 0 t.id).len = k from by
          show 16 + k - 16 = k
          omega]
    show Tuple.mk (readU64 _ (offset + 8)) (deserializeFields _ schema.columns (offset + 16)) = t
    rw [hIdEq, hFields]

/-- C5 witness: the mixed-type schema's concrete tuple round-trips at
offset 5 of a 128-byte zero buffer, through the theorem. -/
theorem c5_codec_roundtrip_witness :
    conformsTo mschema mtuple ∧ varcharsFit mtuple ∧ (5 : Nat) ≤ (Bytes.zeros 128).len ∧
      serializeTuple mschema mtuple (Bytes.zeros 128) 5 = .ok (c5buf, 35) ∧
      deserializeTuple mschema c5buf 5 = mtuple :=
  ⟨by decide, by decide, by decide, by decide,
    c5_codec_roundtrip mschema mtuple (Bytes.zeros 128) 5 (by decide) (by decide) (by decide)
      c5buf 35 (by decide)⟩

/-- C5 counterexample to the uncorrected claim: a tuple whose single
VARCHAR is exactly `2^32` bytes long conforms to the single-VARCHAR
schema, yet serializing it writes length prefix `0` (the `uint32_t`
cast of `string::length()`) and zero content bytes, so it deserializes
to the empty string instead of round-tripping. -/
theorem c5_huge_varchar_not_roundtrip :
    conformsTo vschema hugeTuple ∧
      (serializeTuple vschema hugeTuple (Bytes.zeros 64) 0).map
        (fun r => deserializeTuple vschema r.1 0) = .ok ⟨1, [.str ⟨0, 0⟩]⟩ ∧
      (⟨1, [.str ⟨0, 0⟩]⟩ : Tuple) ≠ hugeTuple := by
  refine ⟨⟨by decide, ?_, by decide⟩, by decide, by decide⟩
  intro p hp
  have hp2 : p = (⟨"s", DataType.VARCHAR, 0⟩, Value.str ⟨4294967296, 0⟩) := by
    simpa [vschema, hugeTuple] using hp
  subst hp2
  show (0 : Nat) < 256 ^ 4294967296
  exact pow256_pos _

/-! ## C4 machinery: equation lemmas and header round-trip -/

theorem decode_encode_header (data : Bytes) (h : PageHeader)
    (h1 : h.page_id < 4294967296) (h2 : h.free_space < 4294967296)
    (h3 : h.tuple_count < 4294967296) (h4 : h.next_page < 4294967296) :
    decodePageHeader (writeBytes data 0 (encodePageHeader h)) = h := by
  obtain ⟨pid, fs, tc, np⟩ := h
  have hw : ∀ k : Nat, k + 4 ≤ 16 →
      readBytes (writeBytes data 0 (encodePageHeader ⟨pid, fs, tc, np⟩)) (0 + k) 4 =
        readBytes (encodePageHeader ⟨pid, fs, tc, np⟩) k 4 := by
    intro k hk
    exact readBytes_write data _ 0 k 4 (by omega) (by show k + 4 ≤ 16; omega)
  have e1 : readU32 (writeBytes data 0 (encodePageHeader ⟨pid, fs, tc, np⟩)) 0 = pid := by
    have h0 := hw 0 (by omega)
    rw [Nat.zero_add] at h0
    show (readBytes (writeBytes data 0 (encodePageHeader ⟨pid, fs, tc, np⟩)) 0 4).val = pid
    rw [h0,
      show readBytes (encodePageHeader ⟨pid, fs, tc, np⟩) 0 4 = readBytes (u32le pid) 0 4 from
        readBytes_append_left (u32le pid) _ 0 4 (by show 0 + 4 ≤ 4; omega),
      show readBytes (u32le pid) 0 4 = u32le pid from readBytes_all _ (by
        show pid % 4294967296 < 256 ^ 4
        rw [show (256 : Nat) ^ 4 = 4294967296 by norm_num]
        exact Nat.mod_lt _ (by omega))]
    exact Nat.mod_eq_of_lt h1
  have e2 : readU32 (writeBytes data 0 (encodePageHeader ⟨pid, fs, tc, np⟩)) 4 = fs := by
    have h0 := hw 4 (by omega)
    rw [Nat.zero_add] at h0
    show (readBytes (writeBytes data 0 (encodePageHeader ⟨pid, fs, tc, np⟩)) 4 4).val = fs
    rw [h0,
      show readBytes (encodePageHeader ⟨pid, fs, tc, np⟩) 4 4 =
        readBytes ((u32le fs).append ((u32le tc).append (u32le np))) (4 - 4) 4 from
        readBytes_append_right (u32le pid) _ 4 4 (by show 4 ≤ 4; omega),
      show (4 : Nat) - 4 = 0 from rfl,
      show readBytes ((u32le fs).append ((u32le tc).append (u32le np))) 0 4 =
        readBytes (u32le fs) 0 4 from
        readBytes_append_left (u32le fs) _ 0 4 (by show 0 + 4 ≤ 4; omega),
      show readBytes (u32le fs) 0 4 = u32le fs from readBytes_all _ (by
        show fs % 4294967296 < 256 ^ 4
        rw [show (256 : Nat) ^ 4 = 4294967296 by norm_num]
        exact Nat.mod_lt _ (by omega))]
    exact Nat.mod_eq_of_lt h2
  have e3 : readU32 (writeBytes data 0 (encodePageHeader ⟨pid, fs, tc, np⟩)) 8 = tc := by
    have h0 := hw 8 (by omega)
    rw [Nat.zero_add] at h0
    show (readBytes (writeBytes data 0 (encodePageHeader ⟨pid, fs, tc, np⟩)) 8 4).val = tc
    rw [h0,
      show readBytes (encodePageHeader ⟨pid, fs, tc, np⟩) 8 4 =
        readBytes ((u32le fs).append ((u32le tc).append (u32le np))) (8 - 4) 4 from
        readBytes_append_right (u32le pid) _ 8 4 (by show 4 ≤ 8; omega),
      show (8 : Nat) - 4 = 4 from rfl,
      show readBytes ((u32le fs).append ((u32le tc).append (u32le np))) 4 4 =
        readBytes ((u32le tc).append (u32le np)) (4 - 4) 4 from
        readBytes_append_right (u32le fs) _ 4 4 (by show 4 ≤ 4; omega),
      show (4 : Nat) - 4 = 0 from rfl,
      show readBytes ((u32le tc).append (u32le np)) 0 4 = readBytes (u32le tc) 0 4 from
        readBytes_append_left (u32le tc) _ 0 4 (by show 0 + 4 ≤ 4; omega),
      show readBytes (u32le tc) 0 4 = u32le tc from readBytes_all _ (by
        show tc % 4294967296 < 256 ^ 4
        rw [show (256 : Nat) ^ 4 = 4294967296 by norm_num]
        exact Nat.mod_lt _ (by omega))]
    exact Nat.mod_eq_of_lt h3
  have e4 : readU32 (writeBytes data 0 (encodePageHeader ⟨pid, fs, tc, np⟩)) 12 = np := by
    have h0 := hw 12 (by omega)
    rw [Nat.zero_add] at h0
    show (readBytes (writeBytes data 0 (encodePageHeader ⟨pid, fs, tc, np⟩)) 12 4).val = np
    rw [h0,
      show readBytes (encodePageHeader ⟨pid, fs, tc, np⟩) 12 4 =
        readBytes ((u32le fs).append ((u32le tc).append (u32le np))) (12 - 4) 4 from
        readBytes_append_right (u32le pid) _ 12 4 (by show 4 ≤ 12; omega),
      show (12 : Nat) - 4 = 8 from rfl,
      show readBytes ((u32le fs).append ((u32le tc).append (u32le np))) 8 4 =
        readBytes ((u32le tc).append (u32le np)) (8 - 4) 4 from
        readBytes_append_right (u32le fs) _ 8 4 (by show 4 ≤ 8; omega),
      show (8 : Nat) - 4 = 4 from rfl,
      show readBytes ((u32le tc).append (u32le np)) 4 4 =
        readBytes (u32le np) (4 - 4) 4 from
        readBytes_append_right (u32le tc) _ 4 4 (by show 4 ≤ 4; omega),
      show (4 : Nat) - 4 = 0 from rfl,
      show readBytes (u32le np) 0 4 = u32le np from readBytes_all _ (by
        show np % 4294967296 < 256 ^ 4
        rw [show (256 : Nat) ^ 4 = 4294967296 by norm_num]
        exact Nat.mod_lt _ (by omega))]
    exact Nat.mod_eq_of_lt h4
  show PageHeader.mk _ _ _ _ = PageHeader.mk pid fs tc np
  rw [e1, e2, e3, e4]

theorem insertTupleIntoPage_fail_eq (t : TableState) (page : Nat) (tuple : Tuple)
    (pool : BufferPool) (n : Nat)
    (hg : getPage t.pool page = .ok pool)
    (hsz : getTupleSize t.schema tuple = .ok n)
    (hbig : n > (decodePageHeader (frameData pool page)).free_space) :
    insertTupleIntoPage t page tuple = .ok (false, { t with pool := releasePage pool page }) := by
  unfold insertTupleIntoPage
  rw [hg, exceptBind_ok, hsz, exceptBind_ok, if_pos hbig]

theorem insertTupleWalk_step_nofit (tuple : Tuple) (fuel current : Nat) (t t1 : TableState)
    (pool : BufferPool)
    (hcur : current ≠ 0)
    (hip : insertTupleIntoPage t current tuple = .ok (false, t1))
    (hg : getPage t1.pool current = .ok pool) :
    insertTupleWalk tuple (fuel + 1) current t =
      insertTupleWalk tuple fuel (decodePageHeader (frameData pool current)).next_page
        { t1 with pool := releasePage pool (decodePageHeader (frameData pool current)).next_page } := by
  simp only [insertTupleWalk]
  rw [if_neg hcur, hip, exceptBind_ok]
  rw [if_neg Bool.false_ne_true, hg, exceptBind_ok]

theorem allocateNewPage_eq (t : TableState) (pool : BufferPool)
    (hg : getPage t.pool t.next_page_id = .ok pool) :
    allocateNewPage t = .ok (t.next_page_id,
      { t with next_page_id := t.next_page_id + 1,
               pool := releasePage (markDirty (setFrameData pool t.next_page_id
                 (writeBytes (frameData pool t.next_page_id) 0
                   (encodePageHeader ⟨t.next_page_id, PAGE_SIZE - 16, 0, 0⟩)))
                 t.next_page_id) t.next_page_id }) := by
  unfold allocateNewPage
  dsimp only
  rw [hg, exceptBind_ok]

/-- The `insertTuple` chain walk on a tuple too large for every chain
page: each page rejects the tuple (`tuple_size > free_space`), the walk
advances releasing `header.next_page` instead of the visited page, and
returns `false` with every chain page's pin leaked, all page contents
unchanged. -/
theorem insertTupleWalk_oversize (tuple : Tuple) (n : Nat) (fuel : Nat) :
    ∀ current t ps,
      poolWF t.pool →
      chainListAux t.pool fuel current = some ps →
      0 ∉ ps → ps.Nodup →
      getTupleSize t.schema tuple = .ok n →
      (∀ q ∈ ps, (decodePageHeader (pageContent t.pool q)).free_space < n) →
      (∀ q ∈ ps, pinnedOf t.pool q ≠ some true) →
      pinnedCount t.pool + ps.length ≤ t.pool.frames.length →
      ∃ t', insertTupleWalk tuple fuel current t = .ok (false, t') ∧
        poolWF t'.pool ∧
        t'.schema = t.schema ∧
        t'.name = t.name ∧
        t'.first_page_id = t.first_page_id ∧
        t'.next_page_id = t.next_page_id ∧
        t'.next_tuple_id = t.next_tuple_id ∧
        t'.pool.frames.length = t.pool.frames.length ∧
        (∀ q, pageContent t'.pool q = pageContent t.pool q) ∧
        pinnedCount t'.pool = pinnedCount t.pool + ps.length ∧
        (∀ q, q ∉ ps → (pinnedOf t'.pool q = some true ↔ pinnedOf t.pool q = some true)) := by
  induction fuel with
  | zero =>
    intro current t ps hwf hch hz hnd hsz hfree hnp hroom
    cases current with
    | zero =>
      simp only [chainListAux] at hch
      injection hch with hch
      subst hch
      exact ⟨t, rfl, hwf, rfl, rfl, rfl, rfl, rfl, rfl, fun q => rfl, by simp,
        fun q hq => Iff.rfl⟩
    | succ c => exact absurd hch (by simp [chainListAux])
  | succ fuel ih =>
    intro current t ps hwf hch hz hnd hsz hfree hnp hroom
    cases current with
    | zero =>
      simp only [chainListAux] at hch
      injection hch with hch
      subst hch
      exact ⟨t, rfl, hwf, rfl, rfl, rfl, rfl, rfl, rfl, fun q => rfl, by simp,
        fun q hq => Iff.rfl⟩
    | succ c =>
      -- the chain starts with the current page
      simp only [chainListAux] at hch
      cases hrest : chainListAux t.pool fuel
          (decodePageHeader (pageContent t.pool (c + 1))).next_page with
      | none =>
        rw [hrest] at hch
        exact Option.noConfusion hch
      | some rest =>
        rw [hrest] at hch
        simp only [Option.map] at hch
        injection hch with hch
        subst hch
        have hcne : (c + 1) ∉ rest := (List.nodup_cons.mp hnd).1
        have hzrest : 0 ∉ rest := fun hc => hz (List.mem_cons_of_mem _ hc)
        have hndrest : rest.Nodup := (List.nodup_cons.mp hnd).2
        have hnphead : pinnedOf t.pool (c + 1) ≠ some true :=
          hnp (c + 1) (List.mem_cons_self _ _)
        -- first getPage (inside insertTupleIntoPage)
        obtain ⟨pool1, hg1⟩ := getPage_ok_of_room t.pool (c + 1) hwf
          (Or.inl (by have := List.length_cons (c + 1) rest ▸ hroom; omega))
        obtain ⟨hwf1, hlen1, hpin1, hiff1, hcont1, hfd1, hcnt1⟩ :=
          getPage_ok_spec t.pool pool1 (c + 1) hwf (Nat.succ_ne_zero c) hg1
        have hbig : n > (decodePageHeader (frameData pool1 (c + 1))).free_space := by
          rw [hfd1]
          exact hfree (c + 1) (List.mem_cons_self _ _)
        have hip := insertTupleIntoPage_fail_eq t (c + 1) tuple pool1 n hg1 hsz hbig
        -- the state after the failed page insert
        have hwf2 : poolWF (releasePage pool1 (c + 1)) := releasePage_wf pool1 (c + 1) hwf1
        obtain ⟨fid1, hfid1⟩ := pinnedOf_some_lookup pool1 (c + 1) true hpin1
        have hres2 : ptLookup (releasePage pool1 (c + 1)).page_table (c + 1) ≠ none := by
          rw [releasePage_table, hfid1]
          intro hc
          cases hc
        -- second getPage (the walk re-reads the page for its header)
        obtain ⟨pool3, hg3⟩ := getPage_ok_of_room (releasePage pool1 (c + 1)) (c + 1) hwf2
          (Or.inr hres2)
        obtain ⟨hwf3, hlen3, hpin3, hiff3, hcont3, hfd3, hcnt3⟩ :=
          getPage_ok_spec (releasePage pool1 (c + 1)) pool3 (c + 1) hwf2
            (Nat.succ_ne_zero c) hg3
        have hcont2 : ∀ q, pageContent (releasePage pool1 (c + 1)) q = pageContent t.pool q :=
          fun q => (releasePage_pageContent pool1 (c + 1) q).trans (hcont1 q)
        have hfd3' : frameData pool3 (c + 1) = pageContent t.pool (c + 1) :=
          hfd3.trans (hcont2 (c + 1))
        -- pin bookkeeping
        have hcount1 : pinnedCount pool1 = pinnedCount t.pool + 1 := by
          rw [if_neg hnphead] at hcnt1
          omega
        have hcount2 : pinnedCount (releasePage pool1 (c + 1)) = pinnedCount t.pool := by
          have := releasePage_pinnedCount pool1 (c + 1) hwf1
          rw [if_pos hpin1] at this
          omega
        have hpin2self : pinnedOf (releasePage pool1 (c + 1)) (c + 1) = some false :=
          releasePage_pinnedOf_self pool1 (c + 1) fid1 hwf1 hfid1
        have hcount3 : pinnedCount pool3 = pinnedCount t.pool + 1 := by
          rw [show (if pinnedOf (releasePage pool1 (c + 1)) (c + 1) = some true then 1 else 0) =
            0 from by rw [hpin2self]; simp] at hcnt3
          omega
        -- pinned-true flags of pages other than the current one survive to pool3
        have hiff13 : ∀ q, q ≠ c + 1 →
            (pinnedOf pool3 q = some true ↔ pinnedOf t.pool q = some true) := by
          intro q hq
          refine (hiff3 q hq).trans ?_
          rw [releasePage_pinnedOf_other pool1 (c + 1) q hwf1 hq]
          exact hiff1 q hq
        -- the successor the walk releases
        rw [insertTupleWalk_step_nofit tuple fuel (c + 1) t
          { t with pool := releasePage pool1 (c + 1) } pool3 (Nat.succ_ne_zero c) hip hg3,
          hfd3']
        generalize hN : (decodePageHeader (pageContent t.pool (c + 1))).next_page = N at hrest
        have hrel0 : N = 0 → releasePage pool3 N = pool3 := by
          intro h0
          rw [h0]
          exact releasePage_eq_none pool3 0 (ptLookup_zero_none pool3 hwf3)
        have hNmem : N ≠ 0 → N ∈ rest := by
          intro hN0
          obtain ⟨ps', hps'⟩ := chainListAux_cons t.pool fuel N rest hrest hN0
          rw [hps']
          exact List.mem_cons_self _ _
        have hNnotpin : pinnedOf pool3 N ≠ some true := by
          by_cases hN0 : N = 0
          · subst hN0
            intro hc
            obtain ⟨fid0, hfid0⟩ := pinnedOf_some_lookup pool3 0 true hc
            rw [ptLookup_zero_none pool3 hwf3] at hfid0
            cases hfid0
          · have hNc : N ≠ c + 1 := fun hc => hcne (hc ▸ hNmem hN0)
            intro hc
            exact hnp N (List.mem_cons_of_mem _ (hNmem hN0)) ((hiff13 N hNc).mp hc)
        have hwf4 : poolWF (releasePage pool3 N) := releasePage_wf pool3 N hwf3
        have hcount4 : pinnedCount (releasePage pool3 N) = pinnedCount t.pool + 1 := by
          have := releasePage_pinnedCount pool3 N hwf3
          rw [if_neg hNnotpin] at this
          omega
        have hcont4 : ∀ q, pageContent (releasePage pool3 N) q = pageContent t.pool q :=
          fun q => (releasePage_pageContent pool3 N q).trans ((hcont3 q).trans (hcont2 q))
        have hkeep4 : ∀ q, q ≠ c + 1 → q ∉ rest →
            (pinnedOf (releasePage pool3 N) q = some true ↔ pinnedOf t.pool q = some true) := by
          intro q hq hqr
          have hstep : pinnedOf (releasePage pool3 N) q = pinnedOf pool3 q := by
            by_cases hN0 : N = 0
            · rw [hrel0 hN0]
            · exact releasePage_pinnedOf_other pool3 N q hwf3
                (fun hc => hqr (hc ▸ hNmem hN0))
          rw [hstep]
          exact hiff13 q hq
        have hnprest : ∀ q ∈ rest, pinnedOf (releasePage pool3 N) q ≠ some true := by
          intro q hqr
          by_cases hqN : q = N
          · subst hqN
            cases hNl : ptLookup pool3.page_table q with
            | none =>
              rw [releasePage_eq_none pool3 q hNl]
              exact hNnotpin
            | some fidN =>
              rw [releasePage_pinnedOf_self pool3 q fidN hwf3 hNl]
              intro hc
              cases hc
          · have hqc : q ≠ c + 1 := fun hc => hcne (hc ▸ hqr)
            rw [releasePage_pinnedOf_other pool3 N q hwf3 hqN]
            intro hc
            exact hnp q (List.mem_cons_of_mem _ hqr) ((hiff13 q hqc).mp hc)
        have hlen4 : (releasePage pool3 N).frames.length = t.pool.frames.length := by
          rw [releasePage_frames_length]
          rw [hlen3, releasePage_frames_length, hlen1]
        have hchR : chainListAux (releasePage pool3 N) fuel N = some rest := by
          rw [chainListAux_congr t.pool (releasePage pool3 N) hcont4 fuel N]
          exact hrest
        obtain ⟨t', hrun', hwf', hsch', hname', hfp', hnp', hnt', hflen', hcont', hcount', hiff'⟩ :=
          ih N { t with pool := releasePage pool3 N } rest hwf4 hchR hzrest hndrest hsz
            (fun q hq => by rw [hcont4 q]; exact hfree q (List.mem_cons_of_mem _ hq))
            hnprest
            (by rw [hcount4, hlen4]
                have := List.length_cons (c + 1) rest ▸ hroom
                omega)
        refine ⟨t', hrun', hwf', hsch', hname', hfp', hnp', hnt', ?_, ?_, ?_, ?_⟩
        · rw [hflen']
          exact hlen4
        · intro q
          rw [hcont' q]
          exact hcont4 q
        · rw [hcount', hcount4]
          simp [List.length_cons]
          omega
        · intro q hq
          have hq1 : q ≠ c + 1 := fun hc => hq (hc ▸ List.mem_cons_self _ _)
          have hq2 : q ∉ rest := fun hc => hq (List.mem_cons_of_mem _ hc)
          exact (hiff' q hq2).trans (hkeep4 q hq1 hq2)

/-! ## selectAll characterization -/

theorem readTuplesFromPage_eq (t : TableState) (page : Nat) (pool : BufferPool)
    (hg : getPage t.pool page = .ok pool) :
    readTuplesFromPage t page = .ok
      (readTuplesAux t.schema (frameData pool page)
        (decodePageHeader (frameData pool page)).tuple_count 16,
       { t with pool := releasePage pool page }) := by
  unfold readTuplesFromPage
  rw [hg, exceptBind_ok]

theorem readTuplesFromPage_err (t : TableState) (page : Nat) (e : DbError)
    (hg : getPage t.pool page = .error e) :
    readTuplesFromPage t page = .error e := by
  unfold readTuplesFromPage
  rw [hg]
  rfl

theorem selectAllWalk_step_err1 (fuel current : Nat) (t : TableState) (e : DbError)
    (hcur : current ≠ 0)
    (hrt : readTuplesFromPage t current = .error e) :
    selectAllWalk (fuel + 1) current t = .error e := by
  simp only [selectAllWalk]
  rw [if_neg hcur, hrt]
  rfl

theorem selectAllWalk_step_err2 (fuel current : Nat) (t t1 : TableState)
    (tuples : List Tuple) (e : DbError)
    (hcur : current ≠ 0)
    (hrt : readTuplesFromPage t current = .ok (tuples, t1))
    (hg : getPage t1.pool current = .error e) :
    selectAllWalk (fuel + 1) current t = .error e := by
  simp only [selectAllWalk]
  rw [if_neg hcur, hrt, exceptBind_ok, hg]
  rfl

theorem selectAllWalk_step (fuel current : Nat) (t t1 : TableState) (tuples : List Tuple)
    (pool : BufferPool)
    (hcur : current ≠ 0)
    (hrt : readTuplesFromPage t current = .ok (tuples, t1))
    (hg : getPage t1.pool current = .ok pool) :
    selectAllWalk (fuel + 1) current t =
      (selectAllWalk fuel (decodePageHeader (frameData pool current)).next_page
        { t1 with pool := releasePage pool current }).map
        (fun r => (tuples ++ r.1, r.2)) := by
  simp only [selectAllWalk]
  rw [if_neg hcur, hrt, exceptBind_ok, hg, exceptBind_ok]
  cases hr : selectAllWalk fuel (decodePageHeader (frameData pool current)).next_page
      { t1 with pool := releasePage pool current } with
  | error e => rfl
  | ok pr => rfl

theorem pureScanAux_congr (schema : Schema) (bp bp2 : BufferPool)
    (h : ∀ q, pageContent bp2 q = pageContent bp q) :
    ∀ fuel c, pureScanAux schema bp2 fuel c = pureScanAux schema bp fuel c := by
  intro fuel
  induction fuel with
  | zero =>
    intro c
    rfl
  | succ f ih =>
    intro c
    cases c with
    | zero => rfl
    | succ m =>
      simp only [pureScanAux]
      rw [h (m + 1), ih]

/-- A successful `selectAll` walk returns exactly the pure
content-determined scan, preserves well-formedness and changes no
page's content. -/
theorem selectAllWalk_pure (fuel : Nat) :
    ∀ current t rows t',
      poolWF t.pool →
      selectAllWalk fuel current t = .ok (rows, t') →
      pureScanAux t.schema t.pool fuel current = some rows ∧
      poolWF t'.pool ∧
      (∀ q, pageContent t'.pool q = pageContent t.pool q) := by
  induction fuel with
  | zero =>
    intro current t rows t' hwf hrun
    cases current with
    | zero =>
      simp only [selectAllWalk, if_true] at hrun
      injection hrun with hrun
      injection hrun with h1 h2
      subst h1
      subst h2
      exact ⟨rfl, hwf, fun q => rfl⟩
    | succ c =>
      simp only [selectAllWalk] at hrun
      rw [if_neg (Nat.succ_ne_zero c)] at hrun
      exact Except.noConfusion hrun
  | succ fuel ih =>
    intro current t rows t' hwf hrun
    cases current with
    | zero =>
      simp only [selectAllWalk, if_true] at hrun
      injection hrun with hrun
      injection hrun with h1 h2
      subst h1
      subst h2
      exact ⟨rfl, hwf, fun q => rfl⟩
    | succ c =>
      cases hg1 : getPage t.pool (c + 1) with
      | error e =>
        rw [selectAllWalk_step_err1 fuel (c + 1) t e (Nat.succ_ne_zero c)
          (readTuplesFromPage_err t (c + 1) e hg1)] at hrun
        exact Except.noConfusion hrun
      | ok pool1 =>
        obtain ⟨hwf1, hlen1, hpin1, hiff1, hcont1, hfd1, hcnt1⟩ :=
          getPage_ok_spec t.pool pool1 (c + 1) hwf (Nat.succ_ne_zero c) hg1
        have hrt := readTuplesFromPage_eq t (c + 1) pool1 hg1
        have hwf2 : poolWF (releasePage pool1 (c + 1)) := releasePage_wf pool1 (c + 1) hwf1
        have hcont2 : ∀ q, pageContent (releasePage pool1 (c + 1)) q = pageContent t.pool q :=
          fun q => (releasePage_pageContent pool1 (c + 1) q).trans (hcont1 q)
        cases hg3 : getPage (releasePage pool1 (c + 1)) (c + 1) with
        | error e =>
          rw [selectAllWalk_step_err2 fuel (c + 1) t
            { t with pool := releasePage pool1 (c + 1) }
            (readTuplesAux t.schema (frameData pool1 (c + 1))
              (decodePageHeader (frameData pool1 (c + 1))).tuple_count 16) e
            (Nat.succ_ne_zero c) hrt hg3] at hrun
          exact Except.noConfusion hrun
        | ok pool3 =>
          obtain ⟨hwf3, hlen3, hpin3, hiff3, hcont3, hfd3, hcnt3⟩ :=
            getPage_ok_spec (releasePage pool1 (c + 1)) pool3 (c + 1) hwf2
              (Nat.succ_ne_zero c) hg3
          have hfd3' : frameData pool3 (c + 1) = pageContent t.pool (c + 1) :=
            hfd3.trans (hcont2 (c + 1))
          rw [selectAllWalk_step fuel (c + 1) t
            { t with pool := releasePage pool1 (c + 1) }
            (readTuplesAux t.schema (frameData pool1 (c + 1))
              (decodePageHeader (frameData pool1 (c + 1))).tuple_count 16) pool3
            (Nat.succ_ne_zero c) hrt hg3, hfd3'] at hrun
          have hwf4 : poolWF (releasePage pool3 (c + 1)) := releasePage_wf pool3 (c + 1) hwf3
          have hcont4 : ∀ q, pageContent (releasePage pool3 (c + 1)) q = pageContent t.pool q :=
            fun q => (releasePage_pageContent pool3 (c + 1) q).trans
              ((hcont3 q).trans (hcont2 q))
          cases hrec : selectAllWalk fuel
              (decodePageHeader (pageContent t.pool (c + 1))).next_page
              { { t with pool := releasePage pool1 (c + 1) } with
                pool := releasePage pool3 (c + 1) } with
          | error e =>
            rw [hrec] at hrun
            exact Except.noConfusion hrun
          | ok pr =>
            obtain ⟨rrows, t2⟩ := pr
            rw [hrec] at hrun
            simp only [Except.map] at hrun
            injection hrun with hrun
            injection hrun with h1 h2
            subst h2
            subst h1
            obtain ⟨hpure, hwfF, hcontF⟩ := ih
              (decodePageHeader (pageContent t.pool (c + 1))).next_page
              { { t with pool := releasePage pool1 (c + 1) } with
                pool := releasePage pool3 (c + 1) }
              rrows t2 hwf4 hrec
            have hpure' : pureScanAux t.schema t.pool fuel
                (decodePageHeader (pageContent t.pool (c + 1))).next_page = some rrows :=
              (pureScanAux_congr t.schema t.pool (releasePage pool3 (c + 1))
                hcont4 fuel _).symm.trans hpure
            refine ⟨?_, hwfF, ?_⟩
            · simp only [pureScanAux]
              rw [if_neg (Nat.succ_ne_zero c), hpure']
              simp only [Option.map]
              rw [hfd1]
            · intro q
              rw [hcontF q]
              exact hcont4 q

/-- A pure scan is determined by the page chain: it is stable under
adding fuel and under any pool change that preserves the contents of
the chain's pages. -/
theorem pureScanAux_ext (schema : Schema) (bp bp2 : BufferPool) :
    ∀ fuel fuel' c ps rows,
      chainListAux bp fuel c = some ps →
      pureScanAux schema bp fuel c = some rows →
      fuel ≤ fuel' →
      (∀ q ∈ ps, pageContent bp2 q = pageContent bp q) →
      pureScanAux schema bp2 fuel' c = some rows := by
  intro fuel
  induction fuel with
  | zero =>
    intro fuel' c ps rows hch hpure hle hc
    cases c with
    | zero =>
      rw [show pureScanAux schema bp 0 0 = some ([] : List Tuple) from rfl] at hpure
      injection hpure with h
      subst h
      cases fuel' with
      | zero => rfl
      | succ f => rfl
    | succ m =>
      rw [show pureScanAux schema bp 0 (m + 1) = none from rfl] at hpure
      exact Option.noConfusion hpure
  | succ fuel ih =>
    intro fuel' c ps rows hch hpure hle hc
    cases c with
    | zero =>
      rw [show pureScanAux schema bp (fuel + 1) 0 = some ([] : List Tuple) from rfl] at hpure
      injection hpure with h
      subst h
      cases fuel' with
      | zero => rfl
      | succ f => rfl
    | succ m =>
      cases fuel' with
      | zero => omega
      | succ f' =>
        have hle' : fuel ≤ f' := by omega
        simp only [chainListAux] at hch
        cases hrest : chainListAux bp fuel
            (decodePageHeader (pageContent bp (m + 1))).next_page with
        | none =>
          rw [hrest] at hch
          exact Option.noConfusion hch
        | some rest =>
          rw [hrest] at hch
          simp only [Option.map] at hch
          injection hch with hch
          subst hch
          simp only [pureScanAux] at hpure
          rw [if_neg (Nat.succ_ne_zero m)] at hpure
          cases hps : pureScanAux schema bp fuel
              (decodePageHeader (pageContent bp (m + 1))).next_page with
          | none =>
            rw [hps] at hpure
            exact Option.noConfusion hpure
          | some rrows =>
            rw [hps] at hpure
            simp only [Option.map] at hpure
            injection hpure with hpure
            subst hpure
            have hhead : pageContent bp2 (m + 1) = pageContent bp (m + 1) :=
              hc (m + 1) (List.mem_cons_self _ _)
            have hrec := ih f' (decodePageHeader (pageContent bp (m + 1))).next_page rest rrows
              hrest hps hle' (fun q hq => hc q (List.mem_cons_of_mem _ hq))
            show pureScanAux schema bp2 (f' + 1) (m + 1) = _
            simp only [pureScanAux]
            rw [if_neg (Nat.succ_ne_zero m), hhead, hrec]
            simp only [Option.map]

theorem pageContent_len (bp : BufferPool) (hwf : poolWF bp) (q : Nat) :
    (pageContent bp q).len = PAGE_SIZE := by
  obtain ⟨-, -, -, h4, -, -, -, -, -, h10, h11⟩ := hwf
  unfold pageContent
  cases hq : ptLookup bp.page_table q with
  | none => exact readPageFromDisk_len _ _ h11
  | some fid => exact h10 fid (h4 _ (ptLookup_mem _ _ _ hq)).2.1

/-- C4.  A tuple whose serialized image exceeds 4080 bytes (a page
minus the 16-byte page header) is rejected: on any well-formed table
whose acyclic chain pages all have `free_space ≤ 4080`, no chain page
is pinned, there are enough frames for the walk, and the fresh page id
is sane, `insertTuple` returns `false` — every chain page rejects it
and so does the freshly allocated page — the chain pages' contents are
unchanged, and any successful full scan after the attempt returns
exactly the rows of any successful full scan before it. -/
theorem c4_oversize_insert_rejected (t : TableState) (tuple : Tuple) (n : Nat) (ps : List Nat)
    (hwf : poolWF t.pool)
    (hch : chainList t = some ps)
    (hz : 0 ∉ ps) (hnd : ps.Nodup)
    (hsz : getTupleSize t.schema tuple = .ok n)
    (hbig : 4080 < n)
    (hfree : ∀ q ∈ ps, (decodePageHeader (pageContent t.pool q)).free_space ≤ 4080)
    (hnp : ∀ q ∈ ps, pinnedOf t.pool q ≠ some true)
    (hroom : pinnedCount t.pool + ps.length < t.pool.frames.length)
    (hfresh : t.next_page_id ∉ ps) (hnz : t.next_page_id ≠ 0)
    (hn32 : t.next_page_id < 4294967296) :
    ∃ t', insertTuple t tuple = .ok (false, t') ∧
      (∀ q ∈ ps, pageContent t'.pool q = pageContent t.pool q) ∧
      (∀ rows1 s1 rows2 s2,
        selectAll t = .ok (rows1, s1) → selectAll t' = .ok (rows2, s2) →
        rows1 = rows2) := by
  unfold insertTuple
  dsimp only
  generalize hTup : (if tuple.id = 0 then { tuple with id := t.next_tuple_id } else tuple) = tup
  generalize hU : (if tuple.id = 0 then { t with next_tuple_id := t.next_tuple_id + 1 } else t) = u
  have hupool : u.pool = t.pool := by
    rw [← hU]
    by_cases h : tuple.id = 0 <;> simp [h]
  have husch : u.schema = t.schema := by
    rw [← hU]
    by_cases h : tuple.id = 0 <;> simp [h]
  have hufp : u.first_page_id = t.first_page_id := by
    rw [← hU]
    by_cases h : tuple.id = 0 <;> simp [h]
  have hunpid : u.next_page_id = t.next_page_id := by
    rw [← hU]
    by_cases h : tuple.id = 0 <;> simp [h]
  have hsz' : getTupleSize u.schema tup = .ok n := by
    rw [← hU, ← hTup]
    by_cases h : tuple.id = 0 <;> simp [h] <;> exact hsz
  have hwfu : poolWF u.pool := by
    rw [hupool]
    exact hwf
  have hchu : chainListAux u.pool u.next_page_id u.first_page_id = some ps := by
    rw [hupool, hunpid, hufp]
    exact hch
  obtain ⟨t2, hwrun, hwf2, hsch2, hname2, hfp2, hnpid2, hnt2, hflen2, hcont2, hcount2, hiff2⟩ :=
    insertTupleWalk_oversize tup n u.next_page_id u.first_page_id u ps hwfu hchu hz hnd hsz'
      (fun q hq => by rw [hupool]; exact lt_of_le_of_lt (hfree q hq) hbig)
      (fun q hq => by rw [hupool]; exact hnp q hq)
      (by rw [hupool]; omega)
  rw [hwrun, exceptBind_ok, if_neg Bool.false_ne_true]
  have hnz2 : t2.next_page_id ≠ 0 := by
    rw [hnpid2, hunpid]
    exact hnz
  have hfresh2 : ∀ q ∈ ps, q ≠ t2.next_page_id := by
    intro q hq hc
    rw [hnpid2, hunpid] at hc
    exact hfresh (hc ▸ hq)
  obtain ⟨pool5, hg5⟩ := getPage_ok_of_room t2.pool t2.next_page_id hwf2
    (Or.inl (by rw [hcount2, hflen2, hupool]; exact hroom))
  obtain ⟨hwf5, hlen5, hpin5, hiff5, hcont5, hfd5, hcnt5⟩ :=
    getPage_ok_spec t2.pool pool5 t2.next_page_id hwf2 hnz2 hg5
  rw [allocateNewPage_eq t2 pool5 hg5, exceptBind_ok]
  obtain ⟨fid5, hfid5⟩ := pinnedOf_some_lookup pool5 t2.next_page_id true hpin5
  have hframelen : (frameData pool5 t2.next_page_id).len = PAGE_SIZE := by
    rw [hfd5]
    exact pageContent_len t2.pool hwf2 _
  have hdlen : (writeBytes (frameData pool5 t2.next_page_id) 0 (encodePageHeader ⟨t2.next_page_id, PAGE_SIZE - 16, 0, 0⟩)).len = PAGE_SIZE := by
    rw [writeBytes_len _ _ _ (by rw [hframelen]; show 0 + 16 ≤ 4096; omega)]
    exact hframelen
  have hwf6 : poolWF (releasePage (markDirty (setFrameData pool5 t2.next_page_id (writeBytes (frameData pool5 t2.next_page_id) 0 (encodePageHeader ⟨t2.next_page_id, PAGE_SIZE - 16, 0, 0⟩))) t2.next_page_id) t2.next_page_id) :=
    writeRelease_wf pool5 t2.next_page_id fid5 _ hwf5 hfid5 hdlen
  have hcont6self : pageContent (releasePage (markDirty (setFrameData pool5 t2.next_page_id (writeBytes (frameData pool5 t2.next_page_id) 0 (encodePageHeader ⟨t2.next_page_id, PAGE_SIZE - 16, 0, 0⟩))) t2.next_page_id) t2.next_page_id) t2.next_page_id = writeBytes (frameData pool5 t2.next_page_id) 0 (encodePageHeader ⟨t2.next_page_id, PAGE_SIZE - 16, 0, 0⟩) :=
    writeRelease_pageContent_self pool5 t2.next_page_id fid5 _ hwf5 hfid5
  have hcont6other : ∀ q, q ≠ t2.next_page_id → pageContent (releasePage (markDirty (setFrameData pool5 t2.next_page_id (writeBytes (frameData pool5 t2.next_page_id) 0 (encodePageHeader ⟨t2.next_page_id, PAGE_SIZE - 16, 0, 0⟩))) t2.next_page_id) t2.next_page_id) q = pageContent t2.pool q := by
    intro q hq
    rw [writeRelease_pageContent_other pool5 t2.next_page_id fid5 _ hwf5 hfid5 q hq]
    exact hcont5 q
  have hres6 : ptLookup (releasePage (markDirty (setFrameData pool5 t2.next_page_id (writeBytes (frameData pool5 t2.next_page_id) 0 (encodePageHeader ⟨t2.next_page_id, PAGE_SIZE - 16, 0, 0⟩))) t2.next_page_id) t2.next_page_id).page_table t2.next_page_id ≠ none := by
    rw [writeRelease_table, hfid5]
    intro hc
    cases hc
  have hdec : decodePageHeader (pageContent (releasePage (markDirty (setFrameData pool5 t2.next_page_id (writeBytes (frameData pool5 t2.next_page_id) 0 (encodePageHeader ⟨t2.next_page_id, PAGE_SIZE - 16, 0, 0⟩))) t2.next_page_id) t2.next_page_id) t2.next_page_id) = ⟨t2.next_page_id, PAGE_SIZE - 16, 0, 0⟩ := by
    rw [hcont6self]
    refine decode_encode_header _ _ ?_ ?_ ?_ ?_
    · show t2.next_page_id < 4294967296
      rw [hnpid2, hunpid]
      exact hn32
    · show 4096 - 16 < 4294967296
      omega
    · show (0 : Nat) < 4294967296
      omega
    · show (0 : Nat) < 4294967296
      omega
  obtain ⟨pool7, hg7⟩ := getPage_ok_of_room (releasePage (markDirty (setFrameData pool5 t2.next_page_id (writeBytes (frameData pool5 t2.next_page_id) 0 (encodePageHeader ⟨t2.next_page_id, PAGE_SIZE - 16, 0, 0⟩))) t2.next_page_id) t2.next_page_id) t2.next_page_id hwf6 (Or.inr hres6)
  obtain ⟨hwf7, hlen7, hpin7, hiff7, hcont7, hfd7, hcnt7⟩ :=
    getPage_ok_spec (releasePage (markDirty (setFrameData pool5 t2.next_page_id (writeBytes (frameData pool5 t2.next_page_id) 0 (encodePageHeader ⟨t2.next_page_id, PAGE_SIZE - 16, 0, 0⟩))) t2.next_page_id) t2.next_page_id) pool7 t2.next_page_id hwf6 hnz2 hg7
  have hfree7 : n > (decodePageHeader (frameData pool7 t2.next_page_id)).free_space := by
    rw [hfd7, hdec]
    exact hbig
  have hsz7 : getTupleSize t2.schema tup = .ok n := by
    rw [hsch2]
    exact hsz'
  have hip7 := insertTupleIntoPage_fail_eq ({ t2 with next_page_id := t2.next_page_id + 1, pool := releasePage (markDirty (setFrameData pool5 t2.next_page_id (writeBytes (frameData pool5 t2.next_page_id) 0 (encodePageHeader ⟨t2.next_page_id, PAGE_SIZE - 16, 0, 0⟩))) t2.next_page_id) t2.next_page_id } : TableState) t2.next_page_id tup pool7 n hg7 hsz7 hfree7
  rw [hip7, exceptBind_ok, if_neg Bool.false_ne_true]
  have hcontA : ∀ q ∈ ps, pageContent (releasePage pool7 t2.next_page_id) q = pageContent t.pool q := by
    intro q hq
    rw [releasePage_pageContent pool7 t2.next_page_id q, hcont7 q,
      hcont6other q (hfresh2 q hq), hcont2 q, hupool]
  refine ⟨_, rfl, ?_, ?_⟩
  · intro q hq
    show pageContent (releasePage pool7 t2.next_page_id) q = pageContent t.pool q
    exact hcontA q hq
  · intro rows1 s1 rows2 s2 hs1 hs2
    obtain ⟨hpure1, -, -⟩ := selectAllWalk_pure t.next_page_id t.first_page_id t rows1 s1 hwf hs1
    obtain ⟨hpure2, -, -⟩ := selectAllWalk_pure _ _ _ rows2 s2
      (show poolWF (releasePage pool7 t2.next_page_id) from
        releasePage_wf pool7 t2.next_page_id hwf7) hs2
    have hpure2t : pureScanAux t.schema (releasePage pool7 t2.next_page_id) (t2.next_page_id + 1) t.first_page_id = some rows2 := by
      rw [← husch, ← hsch2, ← hufp, ← hfp2]
      exact hpure2
    have hext := pureScanAux_ext t.schema t.pool (releasePage pool7 t2.next_page_id)
      t.next_page_id (t2.next_page_id + 1) t.first_page_id ps rows1 hch hpure1
      (by rw [hnpid2, hunpid]; omega) hcontA
    exact Option.some.inj (hext.symm.trans hpure2t)

/-- C4 witness: the one-row table `c4state` and the 5000-byte-VARCHAR
row satisfy every hypothesis (tuple image 5020 bytes > 4080), and the
theorem instantiates. -/
theorem c4_oversize_insert_rejected_witness :
    poolWF c4state.pool ∧ chainList c4state = some [1] ∧ (0 : Nat) ∉ ([1] : List Nat) ∧
      ([1] : List Nat).Nodup ∧ getTupleSize c4state.schema oversizeRow = .ok 5020 ∧
      4080 < 5020 ∧
      (∀ q ∈ ([1] : List Nat),
        (decodePageHeader (pageContent c4state.pool q)).free_space ≤ 4080) ∧
      (∀ q ∈ ([1] : List Nat), pinnedOf c4state.pool q ≠ some true) ∧
      pinnedCount c4state.pool + ([1] : List Nat).length < c4state.pool.frames.length ∧
      c4state.next_page_id ∉ ([1] : List Nat) ∧ c4state.next_page_id ≠ 0 ∧
      c4state.next_page_id < 4294967296 ∧
      (∃ t', insertTuple c4state oversizeRow = .ok (false, t') ∧
        (∀ q ∈ ([1] : List Nat), pageContent t'.pool q = pageContent c4state.pool q) ∧
        (∀ rows1 s1 rows2 s2,
          selectAll c4state = .ok (rows1, s1) → selectAll t' = .ok (rows2, s2) →
          rows1 = rows2)) :=
  ⟨by decide, by decide, by decide, by decide, by decide, by decide, by decide, by decide,
    by decide, by decide, by decide, by decide,
    c4_oversize_insert_rejected c4state oversizeRow 5020 [1] (by decide) (by decide) (by decide)
      (by decide) (by decide) (by decide) (by decide) (by decide) (by decide) (by decide)
      (by decide) (by decide)⟩

/-! ## C3 machinery: leaf insertion and search on sorted key lists -/

theorem insAt_length {γ : Type _} : ∀ (j : Nat) (a : γ) (l : List γ),
    (insAt j a l).length = l.length + 1
  | 0, _, _ => rfl
  | _ + 1, _, [] => rfl
  | j + 1, a, x :: l => by
    rw [show insAt (j + 1) a (x :: l) = x :: insAt j a l from rfl, List.length_cons,
      insAt_length j a l, List.length_cons]

theorem mem_insAt {γ : Type _} : ∀ (j : Nat) (a : γ) (l : List γ) (y : γ),
    y ∈ insAt j a l → y = a ∨ y ∈ l
  | 0, a, l, y, h => by
    have h' : y ∈ a :: l := h
    rcases List.mem_cons.mp h' with h1 | h1
    · exact Or.inl h1
    · exact Or.inr h1
  | _ + 1, a, [], y, h => by
    have h' : y ∈ [a] := h
    rcases List.mem_cons.mp h' with h1 | h1
    · exact Or.inl h1
    · simp at h1
  | j + 1, a, x :: l, y, h => by
    have h' : y ∈ x :: insAt j a l := h
    rcases List.mem_cons.mp h' with h1 | h1
    · exact Or.inr (by rw [h1]; exact List.mem_cons_self x l)
    · rcases mem_insAt j a l y h1 with h2 | h2
      · exact Or.inl h2
      · exact Or.inr (List.mem_cons_of_mem x h2)

theorem zip_insAt {γ δ : Type _} : ∀ (ks : List γ) (vs : List δ) (j : Nat) (a : γ) (b : δ),
    ks.length = vs.length →
    (insAt j a ks).zip (insAt j b vs) = insAt j (a, b) (ks.zip vs)
  | [], [], j, _, _, _ => by cases j <;> rfl
  | [], _ :: _, _, _, _, h => by simp at h
  | _ :: _, [], _, _, _, h => by simp at h
  | _ :: _, _ :: _, 0, _, _, _ => rfl
  | x :: ks, y :: vs, j + 1, a, b, h => by
    show (x :: insAt j a ks).zip (y :: insAt j b vs) = (x, y) :: insAt j (a, b) (ks.zip vs)
    rw [List.zip_cons_cons, zip_insAt ks vs j a b (by simpa using h)]

theorem zip_drop_eq {γ δ : Type _} : ∀ (ks : List γ) (vs : List δ) (j : Nat),
    (ks.zip vs).drop j = (ks.drop j).zip (vs.drop j)
  | _, _, 0 => rfl
  | [], _, _ + 1 => by simp
  | _ :: _, [], _ + 1 => by simp
  | x :: ks, y :: vs, j + 1 => by
    simp only [List.zip_cons_cons, List.drop_succ_cons]
    exact zip_drop_eq ks vs j

theorem firstValueFor_cons {α β : Type} [DecidableEq α] (p : α × β) (ps : List (α × β))
    (k : α) :
    firstValueFor (p :: ps) k = if p.1 = k then some p.2 else firstValueFor ps k := by
  by_cases h : p.1 = k
  · rw [if_pos h]
    unfold firstValueFor
    rw [List.find?_cons_of_pos _ (by simpa using h)]
    rfl
  · rw [if_neg h]
    unfold firstValueFor
    rw [List.find?_cons_of_neg _ (by simpa using h)]

theorem firstValueFor_eq_none {α β : Type} [DecidableEq α] (ps : List (α × β)) (k : α)
    (h : ∀ q ∈ ps, q.1 ≠ k) : firstValueFor ps k = none := by
  unfold firstValueFor
  rw [List.find?_eq_none.mpr (fun q hq => by simpa using h q hq)]
  rfl

theorem firstValueFor_insAt_ne {α β : Type} [DecidableEq α] :
    ∀ (j : Nat) (a : α) (b : β) (l : List (α × β)) (k : α), a ≠ k →
      firstValueFor (insAt j (a, b) l) k = firstValueFor l k
  | 0, a, b, l, k, h => by
    rw [show insAt 0 (a, b) l = (a, b) :: l from rfl, firstValueFor_cons, if_neg h]
  | j + 1, a, b, [], k, h => by
    rw [show insAt (j + 1) (a, b) ([] : List (α × β)) = [(a, b)] from rfl,
      firstValueFor_cons, if_neg h]
  | j + 1, a, b, x :: l, k, h => by
    rw [show insAt (j + 1) (a, b) (x :: l) = x :: insAt j (a, b) l from rfl,
      firstValueFor_cons, firstValueFor_cons, firstValueFor_insAt_ne j a b l k h]

theorem firstValueFor_insAt_self {α β : Type} [DecidableEq α] :
    ∀ (j : Nat) (a : α) (b : β) (l : List (α × β)),
      firstValueFor (insAt j (a, b) l) a =
        match firstValueFor (l.take j) a with
        | some v => some v
        | none => some b
  | 0, a, b, l => by
    rw [show insAt 0 (a, b) l = (a, b) :: l from rfl, firstValueFor_cons, if_pos rfl]
    rfl
  | j + 1, a, b, [] => by
    rw [show insAt (j + 1) (a, b) ([] : List (α × β)) = [(a, b)] from rfl,
      firstValueFor_cons, if_pos rfl]
    rfl
  | j + 1, a, b, x :: l => by
    rw [show insAt (j + 1) (a, b) (x :: l) = x :: insAt j (a, b) l from rfl,
      List.take_succ_cons, firstValueFor_cons, firstValueFor_cons]
    by_cases hx : x.1 = a
    · rw [if_pos hx, if_pos hx]
    · rw [if_neg hx, if_neg hx, firstValueFor_insAt_self j a b l]

theorem firstValueFor_eq_take {α β : Type} [DecidableEq α] :
    ∀ (l : List (α × β)) (j : Nat) (k : α),
      (∀ q ∈ l.drop j, q.1 ≠ k) →
      firstValueFor l k = firstValueFor (l.take j) k
  | l, 0, k, h => by
    rw [firstValueFor_eq_none l k (fun q hq => h q hq)]
    rfl
  | [], _ + 1, _, _ => rfl
  | x :: l, j + 1, k, h => by
    rw [List.take_succ_cons, firstValueFor_cons, firstValueFor_cons]
    by_cases hx : x.1 = k
    · rw [if_pos hx, if_pos hx]
    · rw [if_neg hx, if_neg hx]
      exact firstValueFor_eq_take l j k h

theorem dropWhile_length_eq {γ : Type _} (p : γ → Bool) (l : List γ) :
    (l.dropWhile p).length = l.length - (l.takeWhile p).length := by
  have h2 : (l.takeWhile p).length + (l.dropWhile p).length = l.length := by
    rw [← List.length_append, List.takeWhile_append_dropWhile]
  omega

theorem scanPos_split {α : Type} [LinearOrder α] (ks : List α) (k0 : α) :
    ks = (ks.reverse.dropWhile (fun x => decide (k0 < x))).reverse ++
         (ks.reverse.takeWhile (fun x => decide (k0 < x))).reverse := by
  conv_lhs => rw [← ks.reverse_reverse]
  conv_lhs =>
    rw [← @List.takeWhile_append_dropWhile _ (fun x => decide (k0 < x)) ks.reverse]
  rw [List.reverse_append]

theorem reverse_dropWhile_length {α : Type} [LinearOrder α] (ks : List α) (k0 : α) :
    ((ks.reverse.dropWhile (fun x => decide (k0 < x))).reverse).length = scanPos ks k0 := by
  rw [List.length_reverse, dropWhile_length_eq, List.length_reverse]
  rfl

theorem take_scanPos {α : Type} [LinearOrder α] (ks : List α) (k0 : α) :
    ks.take (scanPos ks k0) =
      (ks.reverse.dropWhile (fun x => decide (k0 < x))).reverse := by
  nth_rewrite 2 [scanPos_split ks k0]
  rw [← reverse_dropWhile_length ks k0, List.take_left]

theorem drop_scanPos {α : Type} [LinearOrder α] (ks : List α) (k0 : α) :
    ks.drop (scanPos ks k0) =
      (ks.reverse.takeWhile (fun x => decide (k0 < x))).reverse := by
  nth_rewrite 2 [scanPos_split ks k0]
  rw [← reverse_dropWhile_length ks k0, List.drop_left]

theorem sortedDesc_dropWhile_le {α : Type} [LinearOrder α] (k0 : α) :
    ∀ (l : List α), l.Pairwise (· ≥ ·) →
      ∀ x ∈ l.dropWhile (fun y => decide (k0 < y)), x ≤ k0
  | [], _, x, hx => by simp at hx
  | y :: l, hp, x, hx => by
    by_cases hy : k0 < y
    · have hd : (y :: l).dropWhile (fun y => decide (k0 < y)) =
          l.dropWhile (fun y => decide (k0 < y)) := by
        simp [List.dropWhile_cons, hy]
      rw [hd] at hx
      exact sortedDesc_dropWhile_le k0 l (List.Pairwise.of_cons hp) x hx
    · have hd : (y :: l).dropWhile (fun y => decide (k0 < y)) = y :: l := by
        simp [List.dropWhile_cons, hy]
      rw [hd] at hx
      rcases List.mem_cons.mp hx with h | h
      · rw [h]; exact le_of_not_lt hy
      · exact le_trans (List.rel_of_pairwise_cons hp h) (le_of_not_lt hy)

theorem scanPos_take_le {α : Type} [LinearOrder α] (ks : List α) (k0 : α)
    (hs : ks.Pairwise (· ≤ ·)) : ∀ x ∈ ks.take (scanPos ks k0), x ≤ k0 := by
  intro x hx
  rw [take_scanPos, List.mem_reverse] at hx
  have hrev : ks.reverse.Pairwise (· ≥ ·) := by
    rw [List.pairwise_reverse]
    exact hs.imp (fun h => h)
  exact sortedDesc_dropWhile_le k0 ks.reverse hrev x hx

theorem scanPos_drop_gt {α : Type} [LinearOrder α] (ks : List α) (k0 : α) :
    ∀ x ∈ ks.drop (scanPos ks k0), k0 < x := by
  intro x hx
  rw [drop_scanPos, List.mem_reverse] at hx
  have h1 := List.mem_takeWhile_imp hx
  simp only [decide_eq_true_eq] at h1
  exact h1

theorem pairwise_insAt {α : Type} [LinearOrder α] :
    ∀ (l : List α) (j : Nat) (a : α),
      l.Pairwise (· ≤ ·) →
      (∀ x ∈ l.take j, x ≤ a) → (∀ x ∈ l.drop j, a ≤ x) →
      (insAt j a l).Pairwise (· ≤ ·)
  | [], j, a, _, _, _ => by
    cases j <;> simp [insAt]
  | x :: l, 0, a, hp, _, hge => by
    rw [show insAt 0 a (x :: l) = a :: x :: l from rfl]
    exact List.pairwise_cons.mpr ⟨fun y hy => hge y hy, hp⟩
  | x :: l, j + 1, a, hp, hle, hge => by
    rw [show insAt (j + 1) a (x :: l) = x :: insAt j a l from rfl]
    refine List.pairwise_cons.mpr ⟨?_, ?_⟩
    · intro y hy
      rcases mem_insAt j a l y hy with h | h
      · rw [h]
        exact hle x (by rw [List.take_succ_cons]; exact List.mem_cons_self x _)
      · exact List.rel_of_pairwise_cons hp h
    · exact pairwise_insAt l j a (List.Pairwise.of_cons hp)
        (fun z hz => hle z (by rw [List.take_succ_cons]; exact List.mem_cons_of_mem x hz))
        (fun z hz => hge z hz)

theorem optionBind_some {γ δ : Type _} (a : γ) (f : γ → Option δ) :
    (some a >>= f) = f a := rfl

theorem searchRecursive_leaf {α β : Type} [LinearOrder α] [Inhabited α] [Inhabited β]
    (fuel : Nat) (ks : List α) (vs : List β) (ch : List (BTreeNode α β)) (k : α) :
    searchRecursive (fuel + 1) (.mk ks vs ch true) k =
      if (ks.takeWhile (fun x => decide (k > x))).length < ks.length ∧
          k = ks.getD (ks.takeWhile (fun x => decide (k > x))).length default then
        some (vs.getD (ks.takeWhile (fun x => decide (k > x))).length default)
      else none := rfl

theorem searchRecursive_leaf_eq {α β : Type} [LinearOrder α] [Inhabited α] [Inhabited β] :
    ∀ (ks : List α) (vs : List β) (fuel : Nat) (ch : List (BTreeNode α β)) (k : α),
      ks.Pairwise (· ≤ ·) → ks.length = vs.length →
      searchRecursive (fuel + 1) (.mk ks vs ch true) k = firstValueFor (ks.zip vs) k
  | [], vs, fuel, ch, k, _, _ => by
    rw [searchRecursive_leaf]
    simp [firstValueFor]
  | _ :: _, [], _, _, _, _, hlen => by simp at hlen
  | x :: ks, v :: vs, fuel, ch, k, hs, hlen => by
    rw [searchRecursive_leaf]
    by_cases hxk : x < k
    · have ht : (x :: ks).takeWhile (fun y => decide (k > y)) =
          x :: ks.takeWhile (fun y => decide (k > y)) := by
        simp [List.takeWhile_cons, gt_iff_lt, hxk]
      have hrec := searchRecursive_leaf_eq ks vs fuel ch k (List.Pairwise.of_cons hs)
        (by simpa using hlen)
      rw [searchRecursive_leaf] at hrec
      rw [ht]
      simp only [List.length_cons, List.getD_cons_succ, add_lt_add_iff_right]
      rw [hrec, List.zip_cons_cons, firstValueFor_cons,
        if_neg (show ¬((x, v).1 = k) from fun h => absurd h (ne_of_lt hxk))]
    · have ht : (x :: ks).takeWhile (fun y => decide (k > y)) = [] := by
        simp [List.takeWhile_cons, gt_iff_lt, hxk]
      rw [ht]
      simp only [List.length_nil, List.getD_cons_zero, List.length_cons]
      by_cases hkx : k = x
      · rw [if_pos ⟨Nat.succ_pos _, hkx⟩, List.zip_cons_cons, firstValueFor_cons,
          if_pos (show (x, v).1 = k from hkx.symm)]
      · rw [if_neg (fun hc => hkx hc.2), List.zip_cons_cons]
        refine (firstValueFor_eq_none ((x, v) :: ks.zip vs) k ?_).symm
        intro q hq
        rcases List.mem_cons.mp hq with h | h
        · rw [h]
          exact fun he => hkx he.symm
        · obtain ⟨a, b⟩ := q
          have hq1 : a ∈ ks := (List.of_mem_zip h).1
          have hkq : k < a :=
            lt_of_lt_of_le (lt_of_le_of_ne (le_of_not_lt hxk) hkx)
              (List.rel_of_pairwise_cons hs hq1)
          exact ne_of_gt hkq

theorem insert_leaf_eq {α β : Type} [LinearOrder α] [Inhabited α] [Inhabited β]
    (ks : List α) (vs : List β) (k : α) (v : β) (hnf : ks.length < MAX_KEYS) :
    BTree.insert (⟨.mk ks vs [] true⟩ : BTree α β) k v =
      some ⟨.mk (insAt (scanPos ks k) k ks) (insAt (scanPos ks k) v vs) [] true⟩ := by
  have hfull : ¬((BTreeNode.mk ks vs ([] : List (BTreeNode α β)) true).isFull = true) := by
    simp only [BTreeNode.isFull, decide_eq_true_eq]
    simp only [MAX_KEYS] at hnf ⊢
    omega
  simp only [BTree.insert]
  rw [if_neg hfull]
  rfl

theorem insertAll_leaf_spec {α β : Type} [LinearOrder α] [Inhabited α] [Inhabited β] :
    ∀ (ps : List (α × β)) (ks : List α) (vs : List β),
      ks.Pairwise (· ≤ ·) → ks.length = vs.length →
      ks.length + ps.length ≤ MAX_KEYS →
      ∃ ks' vs',
        ps.foldlM (fun t p => BTree.insert t p.1 p.2) (⟨.mk ks vs [] true⟩ : BTree α β) =
          some ⟨.mk ks' vs' [] true⟩ ∧
        ks'.Pairwise (· ≤ ·) ∧ ks'.length = vs'.length ∧
        ∀ k, firstValueFor (ks'.zip vs') k =
          match firstValueFor (ks.zip vs) k with
          | some v => some v
          | none => firstValueFor ps k := by
  intro ps
  induction ps with
  | nil =>
    intro ks vs hs hlen _
    refine ⟨ks, vs, rfl, hs, hlen, fun k => ?_⟩
    cases h : firstValueFor (ks.zip vs) k <;> rfl
  | cons p ps ih =>
    intro ks vs hs hlen hbound
    have hnf : ks.length < MAX_KEYS := by
      simp only [List.length_cons] at hbound
      omega
    have hsorted1 : (insAt (scanPos ks p.1) p.1 ks).Pairwise (· ≤ ·) :=
      pairwise_insAt ks (scanPos ks p.1) p.1 hs (scanPos_take_le ks p.1 hs)
        (fun x hx => le_of_lt (scanPos_drop_gt ks p.1 x hx))
    have hlen1 : (insAt (scanPos ks p.1) p.1 ks).length =
        (insAt (scanPos ks p.1) p.2 vs).length := by
      rw [insAt_length, insAt_length, hlen]
    have hbound1 : (insAt (scanPos ks p.1) p.1 ks).length + ps.length ≤ MAX_KEYS := by
      rw [insAt_length]
      simp only [List.length_cons] at hbound
      omega
    obtain ⟨ks2, vs2, hfold2, hs2, hlen2, hfv2⟩ :=
      ih (insAt (scanPos ks p.1) p.1 ks) (insAt (scanPos ks p.1) p.2 vs) hsorted1 hlen1 hbound1
    refine ⟨ks2, vs2, ?_, hs2, hlen2, fun k => ?_⟩
    · rw [List.foldlM_cons, insert_leaf_eq ks vs p.1 p.2 hnf, optionBind_some]
      exact hfold2
    · rw [hfv2 k, zip_insAt ks vs (scanPos ks p.1) p.1 p.2 hlen]
      by_cases hk : p.1 = k
      · subst hk
        rw [firstValueFor_insAt_self (scanPos ks p.1) p.1 p.2 (ks.zip vs)]
        have hdrop : ∀ q ∈ (ks.zip vs).drop (scanPos ks p.1), q.1 ≠ p.1 := by
          intro q hq
          obtain ⟨a, b⟩ := q
          rw [zip_drop_eq ks vs (scanPos ks p.1)] at hq
          exact ne_of_gt (scanPos_drop_gt ks p.1 a (List.of_mem_zip hq).1)
        rw [← firstValueFor_eq_take (ks.zip vs) (scanPos ks p.1) p.1 hdrop]
        cases h : firstValueFor (ks.zip vs) p.1 with
        | some v => rfl
        | none =>
          rw [firstValueFor_cons, if_pos rfl]
      · rw [firstValueFor_insAt_ne (scanPos ks p.1) p.1 p.2 (ks.zip vs) k hk]
        have hcons : firstValueFor (p :: ps) k = firstValueFor ps k := by
          rw [firstValueFor_cons, if_neg hk]
        rw [hcons]

/-- C3 (amended).  For at most `MAX_KEYS` insertions no node ever
fills, so the tree stays a single leaf; `insertNonFull` places each
duplicate AFTER the existing equal keys (the right-to-left scan stops
at the first key `≤ k`), and `searchRecursive` stops at the FIRST key
equal to the query — so `search(key)` returns the tuple id of the
first-inserted row with that key, not the last-inserted one. -/
theorem c3_search_returns_first_inserted {α β : Type} [LinearOrder α] [Inhabited α]
    [Inhabited β] (ps : List (α × β)) (tr : BTree α β) (k : α)
    (hlen : ps.length ≤ MAX_KEYS) (hins : insertAll ps = some tr) :
    BTree.search tr k = firstValueFor ps k := by
  obtain ⟨ks', vs', hfold, hsort, hlen', hfv⟩ :=
    insertAll_leaf_spec ps [] [] List.Pairwise.nil rfl (by simpa using hlen)
  have htr : tr = ⟨.mk ks' vs' [] true⟩ :=
    Option.some.inj ((hins.symm.trans hfold : some tr = _))
  rw [htr]
  show searchRecursive ((BTreeNode.mk ks' vs' ([] : List (BTreeNode α β)) true).height + 2)
      (.mk ks' vs' [] true) k = firstValueFor ps k
  have hh : (BTreeNode.mk ks' vs' ([] : List (BTreeNode α β)) true).height = 1 := by
    rw [BTreeNode.height]
    simp
  rw [hh, show (1 : Nat) + 2 = 2 + 1 from rfl]
  rw [searchRecursive_leaf_eq ks' vs' 2 [] k hsort hlen', hfv k]
  rfl

/-- C3 amended-claim witness: the three insertions of `c3ps` (keys 50,
53, 50 with tuple ids 1, 2, 7) respect the `MAX_KEYS` bound, build
`c3tr`, and searching key 50 returns id 1 — the first-inserted
duplicate, not the last. -/
theorem c3_search_returns_first_inserted_witness :
    c3ps.length ≤ MAX_KEYS ∧ insertAll c3ps = some c3tr ∧
      BTree.search c3tr 50 = firstValueFor c3ps 50 :=
  ⟨by decide, rfl, c3_search_returns_first_inserted c3ps c3tr 50 (by decide) rfl⟩

end MiniDB
